import Mathlib

/-!
# SMTP-to-Graph relay: embedding of `smtp.go`

Go strings and byte slices are lists of bytes (`Nat` values below 256).
Functions of the Go standard library that `smtp.go` calls are modelled next to
the repository's own functions and keep their Go names.
-/

namespace Relay

/-- A Go `string` / `[]byte`: a sequence of bytes. -/
abbrev Str := List Nat

/-- UTF-8 encoding of one code point, as Go stores string literals. -/
def encodeRune (n : Nat) : Str :=
  if n < 128 then [n]
  else if n < 2048 then [192 + n / 64, 128 + n % 64]
  else if n < 65536 then [224 + n / 4096, 128 + n / 64 % 64, 128 + n % 64]
  else [240 + n / 262144, 128 + n / 4096 % 64, 128 + n / 64 % 64, 128 + n % 64]

/-- A string literal as the bytes Go holds for it. -/
def lit (s : String) : Str := s.toList.flatMap (fun c => encodeRune c.toNat)

/-! ## `strings` -/

/-- Go `strings.HasPrefix`. -/
def HasPrefix : Str → Str → Bool
  | _, [] => true
  | [], _ :: _ => false
  | a :: s, b :: p => a == b && HasPrefix s p

/-- Go `strings.HasSuffix`. -/
def HasSuffix (s suf : Str) : Bool := HasPrefix s.reverse suf.reverse

/-- Go `strings.Index`, with `-1` for "not found". -/
def Index : Str → Str → Int
  | [], sub => if sub = [] then 0 else -1
  | a :: s, sub =>
    if HasPrefix (a :: s) sub then 0
    else
      let i := Index s sub
      if i < 0 then -1 else i + 1

/-- Go `strings.Contains`. -/
def Contains (s sub : Str) : Bool := decide (0 ≤ Index s sub)

/-- Go slice expression `s[i:j]`. -/
def slice (s : Str) (i j : Nat) : Str := (s.take j).drop i

/-- Go `strings.TrimRight(s, cutset)`. -/
def TrimRight (s cutset : Str) : Str :=
  (s.reverse.dropWhile (fun b => cutset.contains b)).reverse

/-- Go `strings.TrimLeft(s, cutset)`. -/
def TrimLeft (s cutset : Str) : Str := s.dropWhile (fun b => cutset.contains b)

/-- UTF-8 encodings of the runes for which `unicode.IsSpace` holds: tab, LF, VT, FF,
CR, space, U+0085, U+00A0, U+1680, U+2000 to U+200A, U+2028, U+2029, U+202F, U+205F,
U+3000. -/
def spaceRunes : List Str :=
  [[9], [10], [11], [12], [13], [32], [194, 133], [194, 160], [225, 154, 128],
   [226, 128, 128], [226, 128, 129], [226, 128, 130], [226, 128, 131], [226, 128, 132],
   [226, 128, 133], [226, 128, 134], [226, 128, 135], [226, 128, 136], [226, 128, 137],
   [226, 128, 138], [226, 128, 168], [226, 128, 169], [226, 128, 175], [226, 129, 159],
   [227, 128, 128]]

/-- Width of the white-space rune that starts `s`, or `0` when `s` starts with none. -/
def spaceLen (s : Str) : Nat :=
  match spaceRunes.find? (fun r => HasPrefix s r) with
  | some r => r.length
  | none => 0

/-- Width of the white-space rune that ends the string whose reversal is `s`. -/
def spaceLenRev (s : Str) : Nat :=
  match spaceRunes.find? (fun r => HasPrefix s r.reverse) with
  | some r => r.length
  | none => 0

/-- Drop `k` bytes, then every white-space rune at the front (`width` finds them). -/
def dropSpaces (width : Str → Nat) : Str → Nat → Str
  | [], _ => []
  | _ :: rest, k + 1 => dropSpaces width rest k
  | b :: rest, 0 =>
    if 0 < width (b :: rest) then dropSpaces width rest (width (b :: rest) - 1)
    else b :: rest

/-- Go `strings.TrimSpace`. -/
def TrimSpace (s : Str) : Str :=
  (dropSpaces spaceLenRev (dropSpaces spaceLen s 0).reverse 0).reverse

/-- Go `strings.TrimLeftFunc(s, unicode.IsSpace)`. -/
def TrimLeftSpace (s : Str) : Str := dropSpaces spaceLen s 0

/-- Loop of `strings.Fields`: `skip` bytes of a separator remain, `cur` is the field
being collected. -/
def FieldsAux : Str → Nat → Str → List Str
  | [], _, cur => if cur = [] then [] else [cur]
  | _ :: rest, skip + 1, cur => FieldsAux rest skip cur
  | b :: rest, 0, cur =>
    if 0 < spaceLen (b :: rest) then
      (if cur = [] then [] else [cur]) ++ FieldsAux rest (spaceLen (b :: rest) - 1) []
    else FieldsAux rest 0 (cur ++ [b])

/-- Go `strings.Fields`. -/
def Fields (s : Str) : List Str := FieldsAux s 0 []

/-- Go `strings.Cut`: the text before and after the first `sep`, if `sep` occurs. -/
def Cut (s sep : Str) : Option (Str × Str) :=
  if 0 ≤ Index s sep then
    some (s.take (Index s sep).toNat, s.drop ((Index s sep).toNat + sep.length))
  else none

/-- Loop of `strings.ReplaceAll` for a non-empty `old`; `skip` bytes of a match remain. -/
def ReplaceAllAux (old new : Str) : Str → Nat → Str
  | [], _ => []
  | _ :: rest, skip + 1 => ReplaceAllAux old new rest skip
  | b :: rest, 0 =>
    if HasPrefix (b :: rest) old then new ++ ReplaceAllAux old new rest (old.length - 1)
    else b :: ReplaceAllAux old new rest 0

/-- Go `strings.ReplaceAll` (used with non-empty `old` only). -/
def ReplaceAll (s old new : Str) : Str := ReplaceAllAux old new s 0

/-- Go `strings.Join(parts, "")`. -/
def Join (parts : List Str) : Str := parts.flatten

/-! ## `unicode/utf8` and case mapping -/

/-- The replacement rune `utf8.RuneError`. -/
def RuneError : Nat := 65533

/-- Is `b` a continuation byte in the range `lo..hi`. -/
def inRange (lo hi b : Nat) : Bool := decide (lo ≤ b) && decide (b ≤ hi)

/-- Go `utf8.DecodeRune`: the rune at the front of `s` and its width; an invalid or
truncated encoding is `RuneError` of width 1. -/
def DecodeRune : Str → Nat × Nat
  | [] => (RuneError, 0)
  | b0 :: rest =>
    if b0 < 128 then (b0, 1)
    else if inRange 194 223 b0 then
      match rest with
      | b1 :: _ => if inRange 128 191 b1 then ((b0 - 192) * 64 + (b1 - 128), 2) else (RuneError, 1)
      | _ => (RuneError, 1)
    else if inRange 224 239 b0 then
      match rest with
      | b1 :: b2 :: _ =>
        if inRange (if b0 = 224 then 160 else 128) (if b0 = 237 then 159 else 191) b1
            && inRange 128 191 b2 then
          ((b0 - 224) * 4096 + (b1 - 128) * 64 + (b2 - 128), 3)
        else (RuneError, 1)
      | _ => (RuneError, 1)
    else if inRange 240 244 b0 then
      match rest with
      | b1 :: b2 :: b3 :: _ =>
        if inRange (if b0 = 240 then 144 else 128) (if b0 = 244 then 143 else 191) b1
            && inRange 128 191 b2 && inRange 128 191 b3 then
          ((b0 - 240) * 262144 + (b1 - 128) * 4096 + (b2 - 128) * 64 + (b3 - 128), 4)
        else (RuneError, 1)
      | _ => (RuneError, 1)
    else (RuneError, 1)

/-- Go `utf8.AppendRune`: surrogates and values above U+10FFFF become `RuneError`. -/
def AppendRune (r : Nat) : Str :=
  if (55296 ≤ r ∧ r ≤ 57343) ∨ 1114111 < r then encodeRune RuneError else encodeRune r

/-- The Unicode case tables of the Go runtime (`unicode.ToUpper`, `unicode.ToLower`),
which are data outside the repository: taken as a parameter. -/
structure CaseTables where
  upper : Nat → Nat
  lower : Nat → Nat

/-- Case tables that map the ASCII letters only. -/
def asciiCase : CaseTables where
  upper := fun r => if 97 ≤ r ∧ r ≤ 122 then r - 32 else r
  lower := fun r => if 65 ≤ r ∧ r ≤ 90 then r + 32 else r

/-- Go `strings.Map` for a mapping that drops no rune; `skip` bytes of the current rune
remain. -/
def MapRunes (f : Nat → Nat) : Str → Nat → Str
  | [], _ => []
  | _ :: rest, skip + 1 => MapRunes f rest skip
  | b :: rest, 0 =>
    let d := DecodeRune (b :: rest)
    (if f d.1 = d.1 ∧ d.1 ≠ RuneError then (b :: rest).take d.2 else AppendRune (f d.1))
      ++ MapRunes f rest (d.2 - 1)

/-- Go `strings.ToUpper`: bytes are mapped directly in an all-ASCII string, runes
otherwise. -/
def ToUpper (T : CaseTables) (s : Str) : Str :=
  if s.all (fun b => decide (b < 128)) then
    s.map (fun b => if 97 ≤ b ∧ b ≤ 122 then b - 32 else b)
  else MapRunes T.upper s 0

/-- Go `strings.ToLower`. -/
def ToLower (T : CaseTables) (s : Str) : Str :=
  if s.all (fun b => decide (b < 128)) then
    s.map (fun b => if 65 ≤ b ∧ b ≤ 90 then b + 32 else b)
  else MapRunes T.lower s 0

/-! ## `encoding/base64`, `StdEncoding` -/

/-- The alphabet of `base64.StdEncoding`. -/
def encodeStd : Str := lit "ABCDEFGHIJKLMNOPQRSTUVWXYZabcdefghijklmnopqrstuvwxyz0123456789+/"

/-- Character for a six-bit value. -/
def encChar (i : Nat) : Nat := encodeStd.getD i 0

/-- Six-bit value of an alphabet character (`decodeMap`), `none` outside the alphabet. -/
def decChar (c : Nat) : Option Nat :=
  if encodeStd.contains c then some (encodeStd.indexOf c) else none

/-- Go `base64.StdEncoding.EncodeToString`. -/
def EncodeToString : Str → Str
  | a :: b :: c :: rest =>
    encChar (a / 4) :: encChar (a % 4 * 16 + b / 16) :: encChar (b % 16 * 4 + c / 64)
      :: encChar (c % 64) :: EncodeToString rest
  | [a, b] => [encChar (a / 4), encChar (a % 4 * 16 + b / 16), encChar (b % 16 * 4), 61]
  | [a] => [encChar (a / 4), encChar (a % 4 * 16), 61, 61]
  | [] => []

/-- Decoding of padded quanta (non-strict: unused low bits of a padded quantum are
dropped); padding may only close the input, an incomplete quantum is an error. `none`
is the decoding error. -/
def decodeQuanta : Str → Option Str
  | a :: b :: c :: d :: rest =>
    match decChar a, decChar b with
    | some x, some y =>
      if c = 61 then
        if d = 61 ∧ rest = [] then some [x * 4 + y / 16] else none
      else
        match decChar c with
        | none => none
        | some z =>
          if d = 61 then
            if rest = [] then some [x * 4 + y / 16, y % 16 * 16 + z / 4] else none
          else
            match decChar d with
            | none => none
            | some w =>
              (decodeQuanta rest).map
                (fun t => (x * 4 + y / 16) :: (y % 16 * 16 + z / 4) :: (z % 4 * 64 + w) :: t)
    | _, _ => none
  | [] => some []
  | _ => none

/-- Carriage returns and line feeds are skipped by the base64 decoder. -/
def stripNewlines (s : Str) : Str := s.filter (fun b => !(b == 13 || b == 10))

/-- Go `base64.StdEncoding.DecodeString`, and what `io.ReadAll` gets from
`base64.NewDecoder(base64.StdEncoding, r)` over the same bytes. -/
def DecodeString (s : Str) : Option Str := decodeQuanta (stripNewlines s)

/-! ## `io.Reader` -/

/-- A finite `io.Reader`: the bytes it yields, and whether the stream then ends with a
read error instead of `io.EOF`. -/
structure Reader where
  data : Str
  fails : Bool
deriving DecidableEq, Repr

/-- Go `strings.NewReader`. -/
def NewReader (s : Str) : Reader := ⟨s, false⟩

/-! ## `mime/quotedprintable` -/

/-- Value of a hexadecimal digit, either case (`fromHex`). -/
def fromHex (b : Nat) : Option Nat :=
  if 48 ≤ b ∧ b ≤ 57 then some (b - 48)
  else if 65 ≤ b ∧ b ≤ 70 then some (b - 55)
  else if 97 ≤ b ∧ b ≤ 102 then some (b - 87)
  else none

/-- The byte loop of `quotedprintable.Reader.Read` over one prepared line. -/
def qpLineBytes : Str → Option Str
  | [] => some []
  | b :: h1 :: h2 :: rest2 =>
    if b = 61 then
      match fromHex h1, fromHex h2 with
      | some x, some y => (qpLineBytes rest2).map (fun t => (x * 16 + y) :: t)
      | _, _ =>
        if h1 ≠ 13 ∧ h1 ≠ 10 then (qpLineBytes (h1 :: h2 :: rest2)).map (fun t => 61 :: t)
        else none
    else if b = 9 ∨ b = 13 ∨ b = 10 ∨ 128 ≤ b then
      (qpLineBytes (h1 :: h2 :: rest2)).map (fun t => b :: t)
    else if b < 32 ∨ 126 < b then none
    else (qpLineBytes (h1 :: h2 :: rest2)).map (fun t => b :: t)
  | b :: rest =>
    if b = 61 then
      match rest with
      | [] => none
      | h1 :: _ => if h1 ≠ 13 ∧ h1 ≠ 10 then (qpLineBytes rest).map (fun t => 61 :: t) else none
    else if b = 9 ∨ b = 13 ∨ b = 10 ∨ 128 ≤ b then (qpLineBytes rest).map (fun t => b :: t)
    else if b < 32 ∨ 126 < b then none
    else (qpLineBytes rest).map (fun t => b :: t)

/-- Split after every line feed, as successive `ReadSlice('\n')` calls do; the last
element is the unterminated remainder (possibly empty). -/
def splitLines : Str → List Str × Str
  | [] => ([], [])
  | b :: rest =>
    let r := splitLines rest
    if b = 10 then ([b] :: r.1, r.2)
    else
      match r.1 with
      | [] => ([], b :: r.2)
      | l :: ls => ((b :: l) :: ls, r.2)

/-- Preparation of one raw line by `quotedprintable.Reader.Read`: trailing white space
is dropped, a closing `=` is a soft line break, otherwise the line ending is kept.
`atEOF` says the line was the unterminated end of the input. -/
def qpLine (whole : Str) (atEOF : Bool) : Option Str :=
  let line := TrimRight whole [10, 13, 32, 9]
  if HasSuffix line [61] then
    let rightStripped := whole.drop line.length
    let line1 := line.dropLast
    if !HasPrefix rightStripped [10] && !HasPrefix rightStripped [13, 10]
        && !(rightStripped.length == 0 && decide (0 < line1.length) && atEOF) then none
    else qpLineBytes line1
  else if HasSuffix whole [10] then
    if HasSuffix whole [13, 10] then qpLineBytes (line ++ [13, 10])
    else qpLineBytes (line ++ [10])
  else qpLineBytes line

/-- All lines of a quoted-printable body, in order. -/
def qpLines : List Str → Option Str
  | [] => some []
  | l :: ls =>
    match qpLine l false, qpLines ls with
    | some a, some b => some (a ++ b)
    | _, _ => none

/-- Result of `io.ReadAll(quotedprintable.NewReader(r))` over the bytes `s`. -/
def qpDecode (s : Str) : Option Str :=
  let r := splitLines s
  match qpLines r.1, qpLine r.2 true with
  | some a, some b => some (a ++ b)
  | _, _ => none

/-! ## `bufio`, `net/textproto`, `net/mail` -/

/-- Go `bufio.Reader.ReadString(10)`: the bytes up to and including the first line
feed, whether the input ended first (a read error), and the unread rest. -/
def ReadString : Str → Str × Bool × Str
  | [] => ([], true, [])
  | b :: rest =>
    if b = 10 then ([10], false, rest)
    else ((b :: (ReadString rest).1), (ReadString rest).2.1, (ReadString rest).2.2)

/-- The raw lines of a stream, each with its terminator; an unterminated remainder is
the last line. -/
def rawLines (s : Str) : List Str :=
  (splitLines s).1 ++ (if (splitLines s).2 = [] then [] else [(splitLines s).2])

/-- A raw line as `bufio.Reader.ReadLine` returns it: without its final LF or CRLF. -/
def chomp (l : Str) : Str :=
  if HasSuffix l [13, 10] then l.take (l.length - 2)
  else if HasSuffix l [10] then l.take (l.length - 1)
  else l

/-- The `trim` of `net/textproto`: leading and trailing spaces and tabs removed. -/
def trim (s : Str) : Str := TrimRight (TrimLeft s [32, 9]) [32, 9]

/-- Does the raw line start with a space or a tab (a continuation line). -/
def startsWithLWSP (l : Str) : Bool := HasPrefix l [32] || HasPrefix l [9]

/-- Fold continuation lines into the logical lines of `ReadContinuedLine`; `cur` is the
logical line being built, if any. -/
def continuedLines : List Str → Option Str → List Str
  | [], none => []
  | [], some cur => [cur]
  | l :: ls, none => continuedLines ls (some (trim (chomp l)))
  | l :: ls, some cur =>
    if startsWithLWSP l then continuedLines ls (some (cur ++ [32] ++ trim (chomp l)))
    else cur :: continuedLines ls (some (trim (chomp l)))

/-- Token bytes of a header field name (`validHeaderFieldByte`). -/
def validHeaderFieldByte (c : Nat) : Bool :=
  inRange 48 57 c || inRange 65 90 c || inRange 97 122 c
    || (lit "!#$%&*+-.^_|~").contains c || c == 39 || c == 96

/-- Bytes allowed in a header value (`validHeaderValueByte`). -/
def validHeaderValueByte (c : Nat) : Bool :=
  decide (128 ≤ c) || c == 9 || inRange 32 126 c

/-- The case loop of `canonicalMIMEHeaderKey`; `upper` says the next letter is to be
upper case. -/
def canonCase : Str → Bool → Str
  | [], _ => []
  | c :: rest, upper =>
    let c1 := if upper ∧ 97 ≤ c ∧ c ≤ 122 then c - 32
              else if ¬ upper ∧ 65 ≤ c ∧ c ≤ 90 then c + 32 else c
    c1 :: canonCase rest (c1 == 45)

/-- Go `textproto.CanonicalMIMEHeaderKey`: a key with a byte outside the token set is
returned unchanged. -/
def CanonicalMIMEHeaderKey (k : Str) : Str :=
  if k.all validHeaderFieldByte then canonCase k true else k

/-- A header: the fields in order of appearance, under their canonical keys. -/
abbrev MIMEHeader := List (Str × Str)

/-- Go `Header.Get`: the first value stored under the canonical form of `key`, or the
empty string. -/
def MIMEHeader.Get (h : MIMEHeader) (key : Str) : Str :=
  match h.find? (fun kv => kv.1 == CanonicalMIMEHeaderKey key) with
  | some kv => kv.2
  | none => []

/-- The raw lines before the blank line that ends a header block, the raw lines after
it, and whether a blank line was found. -/
def splitHeaderBlock : List Str → List Str × List Str × Bool
  | [] => ([], [], false)
  | l :: ls =>
    if chomp l = [] then ([], ls, true)
    else (l :: (splitHeaderBlock ls).1, (splitHeaderBlock ls).2.1, (splitHeaderBlock ls).2.2)

/-- The field loop of `readHeader` in `net/mail` over logical lines: a line without a
colon is an error, a field with an empty key is dropped. -/
def mailFields : List Str → Option MIMEHeader
  | [] => some []
  | kv :: rest =>
    match Cut kv [58] with
    | none => none
    | some (k, v) =>
      match mailFields rest with
      | none => none
      | some m =>
        if CanonicalMIMEHeaderKey k = [] then some m
        else some ((CanonicalMIMEHeaderKey k, TrimLeft v [32, 9]) :: m)

/-- Go `mail.ReadMessage`: the header and the unread body, or `none` for a framing
error (an initial line starting with white space, a header line without a colon, or an
input that ends before any header field was read). -/
def ReadMessage (s : Str) : Option (MIMEHeader × Str) :=
  if startsWithLWSP s then none
  else
    let b := splitHeaderBlock (rawLines s)
    match mailFields (continuedLines b.1 none) with
    | none => none
    | some m =>
      if !b.2.2 && m.isEmpty then none
      else some (m, Join b.2.1)

/-! ## `mime`: media types -/

/-- The `tspecials` of RFC 2045 (`isTSpecial`). -/
def isTSpecial (r : Nat) : Bool := (lit "()<>@,;:\\\"/[]?=").contains r

/-- Token characters (`isTokenChar`). -/
def isTokenChar (r : Nat) : Bool := decide (32 < r) && decide (r < 127) && !isTSpecial r

/-- The `consumeToken` of package `mime`: the longest token at the front, and the rest. -/
def consumeToken (v : Str) : Str × Str := (v.takeWhile isTokenChar, v.dropWhile isTokenChar)

/-- The `checkMediaTypeDisposition` of package `mime`: `type` or `type/subtype`, both tokens. -/
def checkMediaTypeDisposition (s : Str) : Bool :=
  let t := consumeToken s
  if t.1 = [] then false
  else if t.2 = [] then true
  else if !HasPrefix t.2 [47] then false
  else
    let u := consumeToken (t.2.drop 1)
    if u.1 = [] then false else decide (u.2 = [])

/-- Body of a quoted string after the opening quote (`consumeValue`): the unescaped
value and the rest after the closing quote; `none` when no closing quote is found or a
line break occurs. -/
def consumeQuoted : Str → Option (Str × Str)
  | [] => none
  | r :: n :: rest =>
    if r = 34 then some ([], n :: rest)
    else if r = 92 ∧ isTSpecial n then
      (consumeQuoted rest).map (fun q => (n :: q.1, q.2))
    else if r = 13 ∨ r = 10 then none
    else (consumeQuoted (n :: rest)).map (fun q => (r :: q.1, q.2))
  | [r] =>
    if r = 34 then some ([], []) else none

/-- The `consumeValue` of package `mime`: a token or a quoted string. -/
def consumeValue (v : Str) : Str × Str :=
  match v with
  | [] => ([], [])
  | c :: rest =>
    if c ≠ 34 then consumeToken v
    else
      match consumeQuoted rest with
      | some q => q
      | none => ([], v)

/-- The `consumeMediaParam` of package `mime`: one `; name=value`, with the name in lower case; an
empty name reports "no parameter here". -/
def consumeMediaParam (T : CaseTables) (v : Str) : Str × Str × Str :=
  let rest := TrimLeftSpace v
  if !HasPrefix rest [59] then ([], [], v)
  else
    let t := consumeToken (TrimLeftSpace (rest.drop 1))
    let param := ToLower T t.1
    if param = [] then ([], [], v)
    else
      let rest1 := TrimLeftSpace t.2
      if !HasPrefix rest1 [61] then ([], [], v)
      else
        let rest2 := TrimLeftSpace (rest1.drop 1)
        let val := consumeValue rest2
        if val.1 = [] ∧ val.2 = rest2 then ([], [], v)
        else (param, val.1, val.2)

/-- Value stored under `key` in a Go map kept as an association list. -/
def mapGet (m : List (Str × Str)) (key : Str) : Option Str :=
  (m.find? (fun kv => kv.1 == key)).map (fun kv => kv.2)

/-- Parameters read by the loop of `mime.ParseMediaType`: plain ones and, apart, those
whose name holds a `*`. `none` is a parse error. Every pass consumes at least the `;` of
a parameter, so a `fuel` above the length of `v` is never used up. -/
def mediaParams (T : CaseTables) : Nat → Str → List (Str × Str) → List (Str × Str) →
    Option (List (Str × Str) × List (Str × Str))
  | 0, _, _, _ => none
  | fuel + 1, v, params, cont =>
    let v1 := TrimLeftSpace v
    if v1 = [] then some (params, cont)
    else
      let p := consumeMediaParam T v1
      if p.1 = [] then
        if TrimSpace p.2.2 = [59] then some (params, cont) else none
      else if (p.1).contains 42 then
        match mapGet cont p.1 with
        | some old =>
          if old ≠ p.2.1 then none else mediaParams T fuel p.2.2 params cont
        | none => mediaParams T fuel p.2.2 params ((p.1, p.2.1) :: cont)
      else
        match mapGet params p.1 with
        | some old =>
          if old ≠ p.2.1 then none else mediaParams T fuel p.2.2 params cont
        | none => mediaParams T fuel p.2.2 ((p.1, p.2.1) :: params) cont

/-- The `percentHexUnescape` of package `mime`; `none` when a `%` lacks two hex digits. -/
def percentHexUnescape : Str → Option Str
  | [] => some []
  | c :: h1 :: h2 :: rest =>
    if c = 37 then
      match fromHex h1, fromHex h2 with
      | some x, some y => (percentHexUnescape rest).map (fun t => (x * 16 + y) :: t)
      | _, _ => none
    else (percentHexUnescape (h1 :: h2 :: rest)).map (fun t => c :: t)
  | c :: rest =>
    if c = 37 then none else (percentHexUnescape rest).map (fun t => c :: t)

/-- The `decode2231Enc` of package `mime`: `charset'language'percent-encoded`, for the charsets
`us-ascii` and `utf-8`. -/
def decode2231Enc (T : CaseTables) (v : Str) : Option Str :=
  match Cut v [39] with
  | none => none
  | some (cs, r1) =>
    match Cut r1 [39] with
    | none => none
    | some (_, enc) =>
      if ToLower T cs = lit "us-ascii" ∨ ToLower T cs = lit "utf-8" then percentHexUnescape enc
      else none

/-- Decimal digits of `n`, as `%d` prints them. -/
def decimal (n : Nat) : Str := (Nat.toDigits 10 n).map Char.toNat

/-- Concatenation of the numbered pieces `key*n` / `key*n*` of a continued parameter,
from `n` on, and whether any piece was found. -/
def stitchPieces (T : CaseTables) (cont : List (Str × Str)) (key : Str) :
    Nat → Nat → Str → Bool → Str × Bool
  | 0, _, buf, valid => (buf, valid)
  | fuel + 1, n, buf, valid =>
    match mapGet cont (key ++ [42] ++ decimal n) with
    | some v => stitchPieces T cont key fuel (n + 1) (buf ++ v) true
    | none =>
      match mapGet cont (key ++ [42] ++ decimal n ++ [42]) with
      | none => (buf, valid)
      | some v =>
        if n = 0 then
          stitchPieces T cont key fuel (n + 1) (buf ++ (decode2231Enc T v).getD []) true
        else
          stitchPieces T cont key fuel (n + 1) (buf ++ (percentHexUnescape v).getD []) true

/-- Text of a parameter name before its first `*`. -/
def baseName (key : Str) : Str := key.takeWhile (fun c => c != 42)

/-- The closing loop of `mime.ParseMediaType`: parameters given in the RFC 2231 forms
`name*=` and `name*0`, `name*1`, ... are decoded and stored under `name`. -/
def stitch (T : CaseTables) (cont : List (Str × Str)) :
    List Str → List (Str × Str) → List (Str × Str)
  | [], params => params
  | key :: keys, params =>
    match mapGet cont (key ++ [42]) with
    | some v =>
      match decode2231Enc T v with
      | some d => stitch T cont keys ((key, d) :: params)
      | none => stitch T cont keys params
    | none =>
      let r := stitchPieces T cont key (cont.length + 1) 0 [] false
      if r.2 then stitch T cont keys ((key, r.1) :: params) else stitch T cont keys params

/-- Go `mime.ParseMediaType`: the media type in lower case and its parameters; `none`
when the value does not parse. -/
def ParseMediaType (T : CaseTables) (v : Str) : Option (Str × List (Str × Str)) :=
  let base := match Cut v [59] with
    | some c => c.1
    | none => v
  let mediatype := TrimSpace (ToLower T base)
  if !checkMediaTypeDisposition mediatype then none
  else
    match mediaParams T (v.length + 1) (v.drop base.length) [] [] with
    | none => none
    | some pc => some (mediatype, stitch T pc.2 ((pc.2.map (fun kv => baseName kv.1)).eraseDups) pc.1)

/-! ## `mime`: encoded words -/

/-- Go `strings.EqualFold(t, s)` for a lower-case ASCII `t`: ASCII letters match in
either case, and so do the two non-ASCII runes that fold to an ASCII letter, U+017F
with `s` and U+212A with `k`. -/
def EqualFoldAscii : Str → Str → Bool
  | [], s => s.isEmpty
  | c :: t, s =>
    match s with
    | [] => false
    | b :: rest =>
      if (if 65 ≤ b ∧ b ≤ 90 then b + 32 else b) = c then EqualFoldAscii t rest
      else if c = 115 ∧ HasPrefix s [197, 191] then EqualFoldAscii t (s.drop 2)
      else if c = 107 ∧ HasPrefix s [226, 132, 170] then EqualFoldAscii t (s.drop 3)
      else false

/-- The `qDecode` of package `mime`: the Q encoding of RFC 2047. -/
def qDecode : Str → Option Str
  | [] => some []
  | c :: h1 :: h2 :: rest =>
    if c = 95 then (qDecode (h1 :: h2 :: rest)).map (fun t => 32 :: t)
    else if c = 61 then
      match fromHex h1, fromHex h2 with
      | some x, some y => (qDecode rest).map (fun t => (x * 16 + y) :: t)
      | _, _ => none
    else if (32 ≤ c ∧ c ≤ 126) ∨ c = 10 ∨ c = 13 ∨ c = 9 then
      (qDecode (h1 :: h2 :: rest)).map (fun t => c :: t)
    else none
  | c :: rest =>
    if c = 95 then (qDecode rest).map (fun t => 32 :: t)
    else if c = 61 then none
    else if (32 ≤ c ∧ c ≤ 126) ∨ c = 10 ∨ c = 13 ∨ c = 9 then (qDecode rest).map (fun t => c :: t)
    else none

/-- The `decode` of package `mime`: the text of an encoded word under encoding `B` or `Q`. -/
def decodeWord (encoding : Nat) (text : Str) : Option Str :=
  if encoding = 66 ∨ encoding = 98 then DecodeString text
  else if encoding = 81 ∨ encoding = 113 then qDecode text
  else none

/-- The `convert` of `mime.WordDecoder` without a `CharsetReader`: content in `utf-8`,
`iso-8859-1` or `us-ascii` as UTF-8; `none` for an unhandled charset. -/
def convert (charset content : Str) : Option Str :=
  if EqualFoldAscii (lit "utf-8") charset then some content
  else if EqualFoldAscii (lit "iso-8859-1") charset then some (content.flatMap AppendRune)
  else if EqualFoldAscii (lit "us-ascii") charset then
    some (content.flatMap (fun c => if 128 ≤ c then AppendRune RuneError else [c]))
  else none

/-- Is there a byte other than space, tab, LF and CR (`hasNonWhitespace`). -/
def hasNonWhitespace (s : Str) : Bool := s.any (fun b => !(b == 32 || b == 9 || b == 10 || b == 13))

/-- The scan for the next encoded word in `mime.WordDecoder.DecodeHeader`: the index
of its `=?`, its charset, its encoding letter, its text, and the index after its `?=`;
`none` where the Go loop breaks. -/
def findWord (header : Str) : Option (Nat × Str × Nat × Str × Nat) :=
  let start := Index header (lit "=?")
  if start < 0 then none
  else
    let cur := start.toNat + 2
    let i := Index (header.drop cur) (lit "?")
    if i < 0 then none
    else
      let cur1 := cur + i.toNat + 1
      if header.length < cur1 + 4 then none
      else if header.getD (cur1 + 1) 0 ≠ 63 then none
      else
        let j := Index (header.drop (cur1 + 2)) (lit "?=")
        if j < 0 then none
        else
          some (start.toNat, slice header cur (cur + i.toNat), header.getD cur1 0,
            slice header (cur1 + 2) (cur1 + 2 + j.toNat), cur1 + 2 + j.toNat + 2)

/-- The word loop of `mime.WordDecoder.DecodeHeader`: `header` is the unread text,
`between` says the previous item was a decoded word, `buf` is the output so far.
`none` is the charset error. Every pass consumes at least the `=?` it found, so a
`fuel` of the length of the header is never used up. -/
def decodeHeaderLoop : Nat → Str → Bool → Str → Option Str
  | 0, header, _, buf => some (buf ++ header)
  | fuel + 1, header, between, buf =>
    match findWord header with
    | none => some (buf ++ header)
    | some (start, charset, encoding, text, stop) =>
      match decodeWord encoding text with
      | none =>
        decodeHeaderLoop fuel (header.drop (start + 2)) false (buf ++ header.take (start + 2))
      | some content =>
        match convert charset content with
        | none => none
        | some c =>
          decodeHeaderLoop fuel (header.drop stop) true
            ((if 0 < start ∧ (!between ∨ hasNonWhitespace (header.take start))
              then buf ++ header.take start else buf) ++ c)

/-- Go `mime.WordDecoder.DecodeHeader`: every RFC 2047 encoded word of `header`
decoded to UTF-8. -/
def DecodeHeader (header : Str) : Option Str :=
  let i := Index header (lit "=?")
  if i < 0 then some header
  else decodeHeaderLoop header.length (header.drop i.toNat) false (header.take i.toNat)

/-! ## `path/filepath`, `mime/multipart` -/

/-- Go `filepath.Base` with `/` as the only separator (the non-Windows build): the last
element of a path. -/
def Base (path : Str) : Str :=
  if path = [] then [46]
  else
    let last := ((TrimRight path [47]).reverse.takeWhile (fun c => c != 47)).reverse
    if last = [] then [47] else last

/-- Outcome of reading the header block of a part. -/
inductive HeaderResult where
  | ok (h : MIMEHeader)
  | malformed
  | eof
deriving DecidableEq, Repr

/-- One field of `textproto.ReadMIMEHeader` from its logical line, added to `acc`;
`none` for a key or value with a forbidden byte. A field with an empty key is dropped. -/
def addField (kv : Str) (acc : MIMEHeader) : Option MIMEHeader :=
  match Cut kv [58] with
  | none => none
  | some (k, v) =>
    if !k.all (fun c => validHeaderFieldByte c || c == 32) then none
    else if !v.all validHeaderValueByte then none
    else if k = [] then some acc
    else some (acc ++ [(CanonicalMIMEHeaderKey k, TrimLeft v [32, 9])])

/-- The field loop of `textproto.ReadMIMEHeader` over raw lines; `cur` is the logical
line being folded. Returns the outcome and the raw lines left unread. -/
def readMIMEHeaderAux : List Str → Option Str → MIMEHeader → HeaderResult × List Str
  | [], none, _ => (HeaderResult.eof, [])
  | [], some cur, acc =>
    match addField cur acc with
    | none => (HeaderResult.malformed, [])
    | some _ => (HeaderResult.eof, [])
  | l :: ls, none, acc =>
    if chomp l = [] then (HeaderResult.ok acc, ls)
    else if !(chomp l).contains 58 then (HeaderResult.malformed, ls)
    else readMIMEHeaderAux ls (some (trim (chomp l))) acc
  | l :: ls, some cur, acc =>
    if startsWithLWSP l then readMIMEHeaderAux ls (some (cur ++ [32] ++ trim (chomp l))) acc
    else
      match addField cur acc with
      | none => (HeaderResult.malformed, l :: ls)
      | some acc1 =>
        if chomp l = [] then (HeaderResult.ok acc1, ls)
        else if !(chomp l).contains 58 then (HeaderResult.malformed, ls)
        else readMIMEHeaderAux ls (some (trim (chomp l))) acc1

/-- Go `textproto.Reader.ReadMIMEHeader` (size limits apart). -/
def readMIMEHeader (lines : List Str) : HeaderResult × List Str :=
  match lines with
  | [] => (HeaderResult.eof, [])
  | l :: ls => if startsWithLWSP l then (HeaderResult.malformed, ls) else readMIMEHeaderAux (l :: ls) none []

/-- The `matchAfterPrefix` of `mime/multipart` at the end of a boundary candidate: it is a boundary
when followed by the end of input, a space, tab, CR, LF, or `--`. -/
def matchAfterPrefix (after : Str) : Bool :=
  match after with
  | [] => true
  | c :: t =>
    if c = 32 ∨ c = 9 ∨ c = 13 ∨ c = 10 then true
    else if c = 45 then
      match t with
      | d :: _ => d == 45
      | [] => false
    else false

/-- The part body found by `scanUntilBoundary`: the bytes before the first occurrence of
`nlDash` that is a boundary, the unread rest starting at that occurrence, and whether one
was found; `skip` bytes of a rejected candidate remain to be copied. -/
def scanBody (nlDash : Str) : Str → Nat → Str × Str × Bool
  | [], _ => ([], [], false)
  | b :: rest, skip + 1 =>
    (b :: (scanBody nlDash rest skip).1, (scanBody nlDash rest skip).2.1,
      (scanBody nlDash rest skip).2.2)
  | b :: rest, 0 =>
    if HasPrefix (b :: rest) nlDash then
      if matchAfterPrefix ((b :: rest).drop nlDash.length) then ([], b :: rest, true)
      else
        (b :: (scanBody nlDash rest (nlDash.length - 1)).1,
          (scanBody nlDash rest (nlDash.length - 1)).2.1,
          (scanBody nlDash rest (nlDash.length - 1)).2.2)
    else (b :: (scanBody nlDash rest 0).1, (scanBody nlDash rest 0).2.1, (scanBody nlDash rest 0).2.2)

/-- Go `multipart.Reader`: the unread input, the boundary, whether line ends were seen
to be bare LF, and the number of parts started. -/
structure MultipartReader where
  input : Str
  boundary : Str
  lfOnly : Bool
  partsRead : Nat
deriving DecidableEq, Repr

/-- Go `multipart.NewReader`. -/
def MultipartReader.NewReader (body boundary : Str) : MultipartReader := ⟨body, boundary, false, 0⟩

/-- Go `multipart.Part`: its header and what reading it yields. -/
structure Part where
  Header : MIMEHeader
  r : Reader
deriving DecidableEq, Repr

/-- Result of `multipart.Reader.NextPart`. -/
inductive NextResult where
  | part (p : Part)
  | eof
  | err
deriving DecidableEq, Repr

/-- The line terminator the reader expects. -/
def MultipartReader.nl (lfOnly : Bool) : Str := if lfOnly then [10] else [13, 10]

/-- A raw line is `--boundary`, optional spaces and tabs, and the line terminator
(`isBoundaryDelimiterLine`); the second component is the terminator mode afterwards. -/
def isBoundaryDelimiterLine (mr : MultipartReader) (line : Str) : Bool × Bool :=
  if !HasPrefix line (lit "--" ++ mr.boundary) then (false, mr.lfOnly)
  else
    let rest := TrimLeft (line.drop (mr.boundary.length + 2)) [32, 9]
    let lf := mr.lfOnly || (mr.partsRead == 0 && rest == [10])
    (rest == MultipartReader.nl lf, lf)

/-- A raw line is `--boundary--`, optional spaces and tabs, and nothing or the line
terminator (`isFinalBoundary`). -/
def isFinalBoundary (mr : MultipartReader) (lf : Bool) (line : Str) : Bool :=
  if !HasPrefix line (lit "--" ++ mr.boundary ++ lit "--") then false
  else
    let rest := TrimLeft (line.drop (mr.boundary.length + 4)) [32, 9]
    rest.isEmpty || rest == MultipartReader.nl lf

/-- The `newPart` of `mime/multipart`: header and body of the part that starts at `lines`; a
quoted-printable part is decoded by the reader and loses its transfer-encoding field.
The body is taken whole, as it is once the part has been read to its end or closed by
the next call of `NextPart`. -/
def newPart (mr : MultipartReader) (lf : Bool) (lines : List Str) : NextResult × MultipartReader :=
  match readMIMEHeader lines with
  | (HeaderResult.malformed, rest) => (NextResult.err, ⟨Join rest, mr.boundary, lf, mr.partsRead + 1⟩)
  | (HeaderResult.eof, rest) => (NextResult.eof, ⟨Join rest, mr.boundary, lf, mr.partsRead + 1⟩)
  | (HeaderResult.ok h, rest) =>
    let dash := lit "--" ++ mr.boundary
    let body :=
      if HasPrefix (Join rest) dash ∧ matchAfterPrefix ((Join rest).drop dash.length) then
        (([] : Str), Join rest, true)
      else scanBody (MultipartReader.nl lf ++ dash) (Join rest) 0
    let mr1 : MultipartReader := ⟨body.2.1, mr.boundary, lf, mr.partsRead + 1⟩
    if EqualFoldAscii (lit "quoted-printable") (h.Get (lit "Content-Transfer-Encoding")) then
      let h1 := h.filter (fun kv => kv.1 != lit "Content-Transfer-Encoding")
      match qpDecode body.1 with
      | some d => (NextResult.part ⟨h1, ⟨d, !body.2.2⟩⟩, mr1)
      | none => (NextResult.part ⟨h1, ⟨[], true⟩⟩, mr1)
    else (NextResult.part ⟨h, ⟨body.1, !body.2.2⟩⟩, mr1)

/-- The line loop of `nextPart` over the raw lines of the unread input. -/
def nextPartLines (mr : MultipartReader) : List Str → Bool → NextResult × MultipartReader
  | [], _ => (NextResult.err, { mr with input := [] })
  | l :: ls, expectNewPart =>
    if !HasSuffix l [10] then
      if isFinalBoundary mr mr.lfOnly l then (NextResult.eof, { mr with input := Join ls })
      else (NextResult.err, { mr with input := Join ls })
    else if (isBoundaryDelimiterLine mr l).1 then newPart mr (isBoundaryDelimiterLine mr l).2 ls
    else if isFinalBoundary mr mr.lfOnly l then (NextResult.eof, { mr with input := Join ls })
    else if expectNewPart then (NextResult.err, { mr with input := Join ls })
    else if mr.partsRead = 0 then nextPartLines mr ls false
    else if l = MultipartReader.nl mr.lfOnly then nextPartLines mr ls true
    else (NextResult.err, { mr with input := Join ls })

/-- Go `multipart.Reader.NextPart`: the next part, `io.EOF`, or another error, and the
reader afterwards. An empty boundary is an error that consumes nothing. -/
def MultipartReader.NextPart (mr : MultipartReader) : NextResult × MultipartReader :=
  if mr.boundary = [] then (NextResult.err, mr)
  else nextPartLines mr (rawLines mr.input) false

/-- Go `multipart.Part.FileName`: the base name of the `filename` parameter of the
Content-Disposition field, or the empty string. -/
def Part.FileName (T : CaseTables) (p : Part) : Str :=
  match ParseMediaType T (p.Header.Get (lit "Content-Disposition")) with
  | none => []
  | some d =>
    match mapGet d.2 (lit "filename") with
    | none => []
    | some f => if f = [] then [] else Base f

/-! ## `smtp.go`: `decodeMessage`, `decodeBase64` -/

/-- Source `decodeMessage`: the content of `r` decoded by the transfer encoding `c`;
`none` is the wrapped read error. -/
def decodeMessage (c : Str) (r : Reader) : Option Str :=
  if r.fails then none
  else if c = lit "base64" then DecodeString r.data
  else if c = lit "quoted-printable" then qpDecode r.data
  else some r.data

/-- Source `decodeBase64`: the decoded text, or the empty string on a decoding error. -/
def decodeBase64 (s : Str) : Str :=
  match DecodeString s with
  | some b => b
  | none => []

/-! ## `smtp.go`: `parseSubjectBodyAndAttachments` -/

/-- Source `Attachment`: file name, content type, and the content in base64. -/
structure Attachment where
  Filename : Str
  ContentType : Str
  Content : Str
deriving DecidableEq, Repr

/-- The values `parseSubjectBodyAndAttachments` returns with a nil error. -/
structure Parsed where
  subject : Str
  body : Str
  isHTML : Bool
  attachments : List Attachment
deriving DecidableEq, Repr

/-- The two errors `parseSubjectBodyAndAttachments` returns. -/
inductive ParseError where
  | readMessageFailed
  | decodeBodyFailed
deriving DecidableEq, Repr

deriving instance DecidableEq for Except

/-- The variables the part loop assigns: `body`, `isHTML`, `attachments`. -/
structure PartAcc where
  body : Str
  isHTML : Bool
  attachments : List Attachment
deriving DecidableEq, Repr

/-- File name of an attachment part (source lines 264 to 275): `p.FileName()`, or the
non-empty `name` parameter of a Content-Type that parses. -/
def attachmentFilename (T : CaseTables) (p : Part) : Str :=
  if p.FileName T = [] then
    match ParseMediaType T (p.Header.Get (lit "Content-Type")) with
    | some ct =>
      match mapGet ct.2 (lit "name") with
      | some n => if n ≠ [] then n else p.FileName T
      | none => p.FileName T
    | none => p.FileName T
  else p.FileName T

/-- Content type of an attachment part (source lines 276 to 279). -/
def attachmentCtype (p : Part) : Str :=
  if p.Header.Get (lit "Content-Type") = [] then lit "application/octet-stream"
  else p.Header.Get (lit "Content-Type")

/-- One pass of the part loop for a part that `NextPart` returned (source lines 263
to 306). -/
def processPart (T : CaseTables) (p : Part) (acc : PartAcc) : PartAcc :=
  if HasPrefix (p.Header.Get (lit "Content-Disposition")) (lit "attachment") then
    match decodeMessage (ToLower T (p.Header.Get (lit "Content-Transfer-Encoding"))) p.r with
    | none => acc
    | some dataContent =>
      if attachmentFilename T p = [] ∨ attachmentCtype p = [] ∨ dataContent.length = 0 then acc
      else
        { acc with attachments := acc.attachments ++
            [⟨attachmentFilename T p, attachmentCtype p, EncodeToString dataContent⟩] }
  else
    match decodeMessage (ToLower T (p.Header.Get (lit "Content-Transfer-Encoding"))) p.r with
    | none => acc
    | some dataContent =>
      { acc with
        body := dataContent
        isHTML := acc.isHTML || Contains (ToLower T (p.Header.Get (lit "Content-Type"))) (lit "html") }

/-- The `for` loop over `mr.NextPart()` (source lines 254 to 307): `io.EOF` ends it,
any other error is skipped. `none` when `fuel` passes do not reach `io.EOF`. -/
def partLoop (T : CaseTables) : Nat → MultipartReader → PartAcc → Option PartAcc
  | 0, _, _ => none
  | fuel + 1, mr, acc =>
    match mr.NextPart with
    | (NextResult.eof, _) => some acc
    | (NextResult.err, mr1) => partLoop T fuel mr1 acc
    | (NextResult.part p, mr1) => partLoop T fuel mr1 (processPart T p acc)

/-- The message as `mail.ReadMessage` receives it (source lines 231 to 233). -/
def withNewline (msg : Str) : Str := if !HasSuffix msg [10] then msg ++ [10] else msg

/-- Subject (source lines 240 to 244): the decoded header, or the raw one when decoding
fails. -/
def subjectOf (h : MIMEHeader) : Str :=
  match DecodeHeader (h.Get (lit "Subject")) with
  | some s => s
  | none => h.Get (lit "Subject")

/-- The non-multipart path (source lines 311 to 316). -/
def parseSingle (T : CaseTables) (h : MIMEHeader) (body : Str) : Except ParseError Parsed :=
  match decodeMessage (ToLower T (h.Get (lit "Content-Transfer-Encoding"))) (NewReader body) with
  | none => Except.error ParseError.decodeBodyFailed
  | some dataContent =>
    Except.ok ⟨subjectOf h, dataContent,
      Contains (ToLower T (h.Get (lit "Content-Type"))) (lit "html"), []⟩

/-- Is the top-level media type `multipart/*`, and with which boundary (source lines
250 to 253). -/
def multipartBoundary (T : CaseTables) (h : MIMEHeader) : Option Str :=
  match ParseMediaType T (h.Get (lit "Content-Type")) with
  | some mt =>
    if HasPrefix mt.1 (lit "multipart/") then some ((mapGet mt.2 (lit "boundary")).getD [])
    else none
  | none => none

/-- Source `parseSubjectBodyAndAttachments`. The outer `none` means the part loop did
not end within `fuel` passes. -/
def parseSubjectBodyAndAttachments (T : CaseTables) (fuel : Nat) (msg : Str) :
    Option (Except ParseError Parsed) :=
  match ReadMessage (withNewline msg) with
  | none => some (Except.error ParseError.readMessageFailed)
  | some (h, body) =>
    match multipartBoundary T h with
    | some boundary =>
      (partLoop T fuel (MultipartReader.NewReader body boundary)
        ⟨[], Contains (ToLower T (h.Get (lit "Content-Type"))) (lit "html"), []⟩).map
        (fun acc => Except.ok ⟨subjectOf h, acc.body, acc.isHTML, acc.attachments⟩)
    | none => some (parseSingle T h body)

/-! ## `smtp.go`: `extractAddress`, the token cache -/

/-- Source `extractAddress`. -/
def extractAddress (line : Str) : Str :=
  let start := Index line (lit "<")
  let stop := Index line (lit ">")
  if start ≠ -1 ∧ stop ≠ -1 ∧ stop > start then slice line (start.toNat + 1) stop.toNat
  else
    match Cut line (lit ":") with
    | some parts => TrimSpace parts.2
    | none => []

/-- Source `cachedToken`; `expiresAt` is an instant of the process clock in nanoseconds. -/
structure cachedToken where
  token : Str
  expiresAt : Int
deriving DecidableEq, Repr

/-- The fields of `config` that `smtp.go` reads. -/
structure Config where
  FallbackSMTPuser : Str
  FallbackSMTPpass : Str
  SaveToSent : Bool
deriving DecidableEq, Repr

/-- The request `sendMailGraphAPI` posts: bearer token, sender in the URL, and the
fields of the JSON document. -/
structure GraphRequest where
  token : Str
  sender : Str
  mailFrom : Str
  rcptTo : List Str
  subject : Str
  contentType : Str
  body : Str
  attachments : List Attachment
  saveToSentItems : Bool
deriving DecidableEq, Repr

/-- Process-wide state and the record of calls made outside the process: the source's
`TokenCache` (a `sync.Map`, kept as an association list), how often `time.Now` was read,
and the requests sent to the identity provider and to the Graph API, oldest first. -/
structure World where
  TokenCache : List (Str × cachedToken)
  clockReads : Nat
  tokenRequests : List (Str × Str)
  sendRequests : List GraphRequest
deriving DecidableEq, Repr

/-- What lies outside the repository: the Unicode case tables, the loaded `config`, the
clock (`now k` is the `k`-th reading of `time.Now`, in nanoseconds), the identity
provider (`tokenEndpoint k u p` answers the `k`-th request with the `access_token` and
`expires_in` of its JSON reply, `none` when the call or the JSON decoding fails), and the
Graph API (`graphEndpoint k r` is the error of the `k`-th submission, `none` on
success). -/
structure Env where
  T : CaseTables
  config : Config
  now : Nat → Int
  tokenEndpoint : Nat → Str → Str → Option (Str × Int)
  graphEndpoint : Nat → GraphRequest → Option Str

/-- A value of Go type `int64` (and of `int` on a 64-bit platform) after wrap-around. -/
def toInt64 (x : Int) : Int := (x + 9223372036854775808) % 18446744073709551616 - 9223372036854775808

/-- `sync.Map.Load`. -/
def World.Load (w : World) (key : Str) : Option cachedToken :=
  (w.TokenCache.find? (fun kv => kv.1 == key)).map (fun kv => kv.2)

/-- `sync.Map.Store`: the entry for `key` is replaced. -/
def World.Store (w : World) (key : Str) (v : cachedToken) : World :=
  { w with TokenCache := (key, v) :: w.TokenCache.filter (fun kv => kv.1 != key) }

/-- Source `getOAuth2TokenWithExpiry`: one request to the identity provider; a reply
without an access token is an error. -/
def getOAuth2TokenWithExpiry (E : Env) (w : World) (username password : Str) :
    Option (Str × Int) × World :=
  let w1 := { w with tokenRequests := w.tokenRequests ++ [(username, password)] }
  match E.tokenEndpoint w.tokenRequests.length username password with
  | none => (none, w1)
  | some result => if result.1 = [] then (none, w1) else (some result, w1)

/-- The second half of `getCachedOAuth2Token` (source lines 412 to 421): fetch, store
with expiry `time.Now().Add(time.Duration(expiresIn-60) * time.Second)`, return. -/
def fetchAndStore (E : Env) (w : World) (username password : Str) : Option Str × World :=
  match getOAuth2TokenWithExpiry E w username password with
  | (none, w1) => (none, w1)
  | (some (token, expiresIn), w1) =>
    (some token,
      { (w1.Store username
          ⟨token, E.now w1.clockReads + toInt64 (toInt64 (expiresIn - 60) * 1000000000)⟩) with
        clockReads := w1.clockReads + 1 })

/-- Source `getCachedOAuth2Token`: the token, or `none` for an error, and the world
afterwards. -/
def getCachedOAuth2Token (E : Env) (w : World) (username password : Str) : Option Str × World :=
  match w.Load username with
  | some tok =>
    if E.now w.clockReads < tok.expiresAt then
      (some tok.token, { w with clockReads := w.clockReads + 1 })
    else fetchAndStore E { w with clockReads := w.clockReads + 1 } username password
  | none => fetchAndStore E w username password

/-- Source `sendMailGraphAPI`: one submission; the body content type is always `html`.
Returns the error text, `none` on success. -/
def sendMailGraphAPI (E : Env) (w : World) (token sender mailFrom : Str) (rcptTo : List Str)
    (subject body : Str) (_isHTML : Bool) (attachments : List Attachment) : Option Str × World :=
  let req : GraphRequest :=
    ⟨token, sender, mailFrom, rcptTo, subject, lit "html", body, attachments, E.config.SaveToSent⟩
  (E.graphEndpoint w.sendRequests.length req, { w with sendRequests := w.sendRequests ++ [req] })

/-! ## `smtp.go`: `handleSMTPConnection` -/

/-- The local variables of `handleSMTPConnection` (source lines 41 to 45). -/
structure Session where
  username : Str
  password : Str
  authenticated : Bool
  mailFrom : Str
  rcptTo : List Str
  dataLines : List Str
deriving DecidableEq, Repr

/-- A connection being served: the session variables, the bytes the client has sent
and the handler has not read, the responses written so far (oldest first), and the
world. -/
structure Conn where
  sess : Session
  input : Str
  out : List Str
  world : World
deriving DecidableEq, Repr

/-- How a pass of the command loop ends: `continue` (the connection stays open for the
next command), `return` (the connection is closed), or never (the part loop of the MIME
decoder did not end within the fuel given). -/
inductive Status where
  | open
  | closed
  | hung
deriving DecidableEq, Repr

/-- Write one response (`fmt.Fprintf` and `writer.Flush`). -/
def Conn.write (c : Conn) (resp : Str) : Conn := { c with out := c.out ++ [resp] }

/-- The inner loop of `DATA` (source lines 144 to 154) over the unread input: `cur` is
the line being read, `acc` the lines collected. Returns the lines, whether the
terminating line was read (`false`: the input ended first, a read error), and the
unread rest. -/
def readDataLines : Str → Str → List Str → List Str × Bool × Str
  | [], _, acc => (acc, false, [])
  | b :: rest, cur, acc =>
    if b = 10 then
      if TrimSpace (cur ++ [10]) = lit "." then (acc, true, rest)
      else readDataLines rest [] (acc ++ [cur ++ [10]])
    else readDataLines rest (cur ++ [b]) acc

/-- Text of a parse error as the repository words it (the library's detail is left
out). -/
def ParseError.text : ParseError → Str
  | ParseError.readMessageFailed => lit "mail.ReadMessage failed"
  | ParseError.decodeBodyFailed => lit "failed to decode message body: failed to read part"

/-- The `AUTH LOGIN` branch (source lines 66 to 116); `rest` is the input after the
command line. -/
def authLogin (E : Env) (c : Conn) (line rest : Str) : Status × Conn :=
  let parts := Fields line
  -- user name and password, the prompts written, and the input left
  let creds : Str × Str × List Str × Str :=
    if parts.length = 3 then
      (decodeBase64 (TrimSpace (parts.getD 2 [])),
        decodeBase64 (TrimSpace (ReadString rest).1),
        [lit "334 UGFzc3dvcmQ6\r\n"], (ReadString rest).2.2)
    else
      (decodeBase64 (TrimSpace (ReadString rest).1),
        decodeBase64 (TrimSpace (ReadString (ReadString rest).2.2).1),
        [lit "334 VXNlcm5hbWU6\r\n", lit "334 UGFzc3dvcmQ6\r\n"],
        (ReadString (ReadString rest).2.2).2.2)
  let c1 : Conn :=
    { c with input := creds.2.2.2, out := c.out ++ creds.2.2.1,
             sess := { c.sess with username := creds.1, password := creds.2.1 } }
  if (creds.1 = [] ∨ creds.2.1 = []) ∧
      (E.config.FallbackSMTPuser = [] ∨ E.config.FallbackSMTPpass = []) then
    (Status.closed, c1.write (lit "535 5.7.8 Authentication credentials invalid\r\n"))
  else
    let c2 : Conn :=
      if creds.1 = [] ∨ creds.2.1 = [] then
        { c1 with sess := { c1.sess with username := E.config.FallbackSMTPuser,
                                         password := E.config.FallbackSMTPpass } }
      else c1
    match getCachedOAuth2Token E c2.world c2.sess.username c2.sess.password with
    | (none, w) => (Status.closed, { c2 with world := w })
    | (some _, w) =>
      (Status.open,
        { ({ c2 with world := w }.write (lit "235 2.7.0 Authentication successful\r\n")) with
          sess := { c2.sess with authenticated := true } })

/-- The `DATA` branch (source lines 140 to 193); `rest` is the input after the command
line. -/
def dataCommand (E : Env) (fuel : Nat) (c : Conn) (rest : Str) : Status × Conn :=
  let c1 := c.write (lit "354 End data with <CR><LF>.<CR><LF>\r\n")
  let d := readDataLines rest [] []
  let c2 : Conn := { c1 with input := d.2.2, sess := { c1.sess with dataLines := d.1 } }
  if !d.2.1 then (Status.closed, c2)
  else
    let msg := ReplaceAll (ReplaceAll (ReplaceAll (Join d.1) (lit "\r\n") (lit "\n"))
      (lit "\r") (lit "\n")) (lit "\n") (lit "\r\n")
    match parseSubjectBodyAndAttachments E.T fuel msg with
    | none => (Status.hung, c2)
    | some (Except.error e) =>
      (Status.closed, c2.write (lit "550 5.6.0 Message parsing failed: " ++ e.text ++ lit "\r\n"))
    | some (Except.ok m) =>
      match getCachedOAuth2Token E c2.world c2.sess.username c2.sess.password with
      | (none, w) =>
        (Status.closed, { c2 with world := w }.write (lit "451 4.7.0 Temporary authentication failure\r\n"))
      | (some token, w) =>
        match sendMailGraphAPI E w token c2.sess.username c2.sess.mailFrom c2.sess.rcptTo
            m.subject m.body m.isHTML m.attachments with
        | (some e, w1) =>
          (Status.closed,
            { c2 with world := w1 }.write (lit "550 5.7.0 Delivery failed: " ++ e ++ lit "\r\n"))
        | (none, w1) =>
          (Status.open,
            { ({ c2 with world := w1 }.write (lit "250 2.0.0 Ok: queued as graphapi\r\n")) with
              sess := { c2.sess with mailFrom := [], rcptTo := [], dataLines := [] } })

/-- One pass of the command loop of `handleSMTPConnection` (source lines 46 to 202). -/
def handleCommand (E : Env) (fuel : Nat) (c : Conn) : Status × Conn :=
  let rd := ReadString c.input
  let c0 : Conn := { c with input := rd.2.2 }
  if rd.2.1 then (Status.closed, c0.write (lit "421 4.7.0 Service not available\r\n"))
  else
    let line := TrimRight rd.1 (lit "\r\n")
    if line = [] then (Status.open, c0)
    else if HasPrefix (ToUpper E.T line) (lit "EHLO") || HasPrefix (ToUpper E.T line) (lit "HELO") then
      (Status.open, c0.write (lit "250-smtpRelay\r\n250-AUTH LOGIN\r\n250 STARTTLS\r\n"))
    else if HasPrefix (ToUpper E.T line) (lit "AUTH LOGIN") then authLogin E c0 line rd.2.2
    else if !c0.sess.authenticated then
      (Status.open, c0.write (lit "530 5.7.0 Authentication required\r\n"))
    else if HasPrefix (ToUpper E.T line) (lit "MAIL FROM:") then
      (Status.open,
        { (c0.write (lit "250 2.1.0 Ok\r\n")) with
          sess := { c0.sess with mailFrom := extractAddress line } })
    else if HasPrefix (ToUpper E.T line) (lit "RCPT TO:") then
      (Status.open,
        { (c0.write (lit "250 2.1.5 Ok\r\n")) with
          sess := { c0.sess with
            rcptTo := if extractAddress line ≠ [] then c0.sess.rcptTo ++ [extractAddress line]
                      else c0.sess.rcptTo } })
    else if HasPrefix (ToUpper E.T line) (lit "DATA") then dataCommand E fuel c0 rd.2.2
    else if HasPrefix (ToUpper E.T line) (lit "QUIT") then
      (Status.closed, c0.write (lit "221 2.0.0 Bye\r\n"))
    else (Status.open, c0.write (lit "502 5.5.2 Command not implemented\r\n"))

/-- The command loop: passes are made until one ends the connection; at most `n`. -/
def serve (E : Env) (fuel : Nat) : Nat → Conn → Status × Conn
  | 0, c => (Status.open, c)
  | n + 1, c =>
    match handleCommand E fuel c with
    | (Status.open, c1) => serve E fuel n c1
    | r => r

/-- The session variables when a connection is accepted. -/
def Session.init : Session := ⟨[], [], false, [], [], []⟩

/-- Source `handleSMTPConnection` on a client that sends `input` and then closes its
side: the greeting, then the command loop. Each pass reads at least one byte or ends the
connection, so `input.length + 1` passes are enough. -/
def handleSMTPConnection (E : Env) (fuel : Nat) (input : Str) (w : World) : Status × Conn :=
  serve E fuel (input.length + 1) ⟨Session.init, input, [lit "220 SMTP Relay Ready\r\n"], w⟩

/-! ## Vocabulary for the properties of the MIME decoder -/

/-- A model string that is a Go byte string: every element is below 256. -/
def IsBytes (s : Str) : Prop := ∀ b ∈ s, b < 256

instance (s : Str) : Decidable (IsBytes s) := by
  unfold IsBytes
  infer_instance

/-- The test of source line 263: the Content-Disposition field begins with
`attachment`. -/
def isAttachmentPart (p : Part) : Bool :=
  HasPrefix (p.Header.Get (lit "Content-Disposition")) (lit "attachment")

/-- The content of a part decoded by its Content-Transfer-Encoding (source lines 280,
281 and 296, 297); `none` when decoding fails. -/
def partContent (T : CaseTables) (p : Part) : Option Str :=
  decodeMessage (ToLower T (p.Header.Get (lit "Content-Transfer-Encoding"))) p.r

/-- The parts `NextPart` returns before it reports `io.EOF`, errors skipped; `none`
when `io.EOF` is not reached within `n` calls. -/
def partsBefore : Nat → MultipartReader → Option (List Part)
  | 0, _ => none
  | n + 1, mr =>
    match mr.NextPart with
    | (NextResult.eof, _) => some []
    | (NextResult.err, mr1) => partsBefore n mr1
    | (NextResult.part p, mr1) => (partsBefore n mr1).map (fun ps => p :: ps)

/-- The `filename` parameter of the Content-Disposition field as written in the part,
the file name in the words of the specification. -/
def dispositionFilename (T : CaseTables) (p : Part) : Str :=
  match ParseMediaType T (p.Header.Get (lit "Content-Disposition")) with
  | some d => (mapGet d.2 (lit "filename")).getD []
  | none => []

/-- The `name` parameter of the Content-Type field of a part, empty when the field
does not parse or has no such parameter. -/
def contentTypeName (T : CaseTables) (p : Part) : Str :=
  match ParseMediaType T (p.Header.Get (lit "Content-Type")) with
  | some ct => (mapGet ct.2 (lit "name")).getD []
  | none => []

/-- The header, the body and the parts of a multipart message with the given boundary,
read with `n` calls of `NextPart`; empty when the message does not parse that far. -/
def partsOf (n : Nat) (msg boundary : Str) : List Part :=
  match ReadMessage (withNewline msg) with
  | some hb => (partsBefore n (MultipartReader.NewReader hb.2 boundary)).getD []
  | none => []

/-- Header and body that `mail.ReadMessage` finds in a message, both empty when the
framing does not parse. -/
def framing (msg : Str) : MIMEHeader × Str := (ReadMessage (withNewline msg)).getD ([], [])

/-- The values the Go function returns, the zero values beside an error. -/
def returnValues (r : Except ParseError Parsed) : Parsed :=
  match r with
  | Except.ok p => p
  | Except.error _ => ⟨[], [], false, []⟩

/-- A header field as it is written on one line: `key: value` and CRLF. -/
def fieldLine (kv : Str × Str) : Str := kv.1 ++ lit ": " ++ kv.2 ++ lit "\r\n"

/-- A message written from its header fields, the blank line, and the body text. -/
def renderMessage (fields : List (Str × Str)) (body : Str) : Str :=
  Join (fields.map fieldLine) ++ lit "\r\n" ++ body

/-- A header field that one unfolded line can carry: a non-empty key without colon or
line feed that does not start with a space or tab, and a value without line feed that
neither starts nor ends with a space or tab. -/
def WellFormedField (kv : Str × Str) : Prop :=
  kv.1 ≠ [] ∧ 10 ∉ kv.1 ∧ 58 ∉ kv.1 ∧ kv.1.head? ≠ some 32 ∧ kv.1.head? ≠ some 9 ∧
  10 ∉ kv.2 ∧ kv.2.head? ≠ some 32 ∧ kv.2.head? ≠ some 9 ∧
  kv.2.getLast? ≠ some 32 ∧ kv.2.getLast? ≠ some 9

instance (kv : Str × Str) : Decidable (WellFormedField kv) := by
  unfold WellFormedField
  infer_instance

/-- The header fields as `mail.ReadMessage` stores them: under canonical keys. -/
def storedFields (fields : List (Str × Str)) : MIMEHeader :=
  fields.map (fun kv => (CanonicalMIMEHeaderKey kv.1, kv.2))

/-- Is the attachment part kept: a file name was found and the content decoded to at
least one byte. -/
def keptAttachment (T : CaseTables) (p : Part) : Bool :=
  isAttachmentPart p && (attachmentFilename T p != []) &&
    (match partContent T p with
     | some d => d != []
     | none => false)

/-! ## Example messages -/

/-- The message of `TestParseSubjectBodyAndAttachments_Simple`. -/
def plainMessage : Str :=
  lit "From: test@example.com\r\nTo: you@example.com\r\nSubject: Hello\r\n\r\nThis is the body."

/-- The message of `TestParseSubjectBodyAndAttachments_SimpleHTML`. -/
def htmlMessage : Str :=
  lit "From: test@example.com\r\nTo: you@example.com\r\nSubject: Hello\r\nContent-Type: text/html\r\n\r\n<html><body>Hi!</body></html>"

/-- The message of `TestParseSubjectBodyAndAttachments_MultipartWithAttachment`, as
`multipart.Writer` lays it out, with the boundary `BOUNDARY`. -/
def mixedMessage : Str :=
  lit "From: test@example.com\r\nTo: you@example.com\r\nSubject: Multipart\r\nMIME-Version: 1.0\r\nContent-Type: multipart/mixed; boundary=\"BOUNDARY\"\r\n\r\n--BOUNDARY\r\nContent-Transfer-Encoding: 7bit\r\nContent-Type: text/plain\r\n\r\nThis is the body.\r\n--BOUNDARY\r\nContent-Disposition: attachment; filename=\"file.txt\"\r\nContent-Transfer-Encoding: base64\r\nContent-Type: text/plain; name=\"file.txt\"\r\n\r\nZmlsZSBjb250ZW50\r\n--BOUNDARY--\r\n"

/-- The message of `TestParseSubjectBodyAndAttachments_MultipartHTMLBody`. -/
def alternativeMessage : Str :=
  lit "From: test@example.com\r\nTo: you@example.com\r\nSubject: HTMLMultipart\r\nMIME-Version: 1.0\r\nContent-Type: multipart/alternative; boundary=\"BOUNDARY\"\r\n\r\n--BOUNDARY\r\nContent-Transfer-Encoding: 7bit\r\nContent-Type: text/html\r\n\r\n<b>HTML Body</b>\r\n--BOUNDARY--\r\n"

/-- The message of `TestParseSubjectBodyAndAttachments_MultipartNoBody`. -/
def onlyAttachmentMessage : Str :=
  lit "From: test@example.com\r\nTo: you@example.com\r\nSubject: OnlyAttachment\r\nMIME-Version: 1.0\r\nContent-Type: multipart/mixed; boundary=\"BOUNDARY\"\r\n\r\n--BOUNDARY\r\nContent-Disposition: attachment; filename=\"file.bin\"\r\nContent-Transfer-Encoding: base64\r\nContent-Type: application/octet-stream; name=\"file.bin\"\r\n\r\nYmluYXJ5ZGF0YQ==\r\n--BOUNDARY--\r\n"

/-- The message of `TestParseSubjectBodyAndAttachments_EncodedSubject`. -/
def encodedSubjectMessage : Str :=
  lit "From: test@example.com\r\nTo: you@example.com\r\nSubject: =?UTF-8?B?SGVsbG8g8J+agA==?=\r\n\r\nBody"

/-- A multipart message whose attachment is named with a directory:
`filename="dir/file.txt"`. -/
def pathFilenameMessage : Str :=
  lit "Subject: Path\r\nContent-Type: multipart/mixed; boundary=\"BOUNDARY\"\r\n\r\n--BOUNDARY\r\nContent-Disposition: attachment; filename=\"dir/file.txt\"\r\nContent-Transfer-Encoding: base64\r\nContent-Type: text/plain\r\n\r\nZmlsZSBjb250ZW50\r\n--BOUNDARY--\r\n"

/-- A multipart message whose attachment part has no Content-Type field. -/
def untypedAttachmentMessage : Str :=
  lit "Subject: Untyped\r\nContent-Type: multipart/mixed; boundary=\"BOUNDARY\"\r\n\r\n--BOUNDARY\r\nContent-Disposition: attachment; filename=\"file.bin\"\r\nContent-Transfer-Encoding: base64\r\n\r\nYmluYXJ5ZGF0YQ==\r\n--BOUNDARY--\r\n"

/-- A multipart message with an empty attachment `empty.txt` followed by the attachment
`file.txt`. -/
def emptyAttachmentMessage : Str :=
  lit "Subject: S\r\nContent-Type: multipart/mixed; boundary=\"BOUNDARY\"\r\n\r\n--BOUNDARY\r\nContent-Disposition: attachment; filename=\"empty.txt\"\r\n\r\n\r\n--BOUNDARY\r\nContent-Disposition: attachment; filename=\"file.txt\"\r\nContent-Transfer-Encoding: base64\r\n\r\nZmlsZSBjb250ZW50\r\n--BOUNDARY--\r\n"

/-- A message whose framing parses and whose base64 body does not decode. -/
def undecodableBodyMessage : Str :=
  lit "Subject: Hello\r\nContent-Transfer-Encoding: base64\r\n\r\n!!!\r\n"

/-- A multipart message whose Content-Type field names no boundary. -/
def noBoundaryMessage : Str :=
  lit "Subject: Hi\r\nContent-Type: multipart/mixed\r\n\r\n--x\r\nContent-Type: text/plain\r\n\r\nbody\r\n--x--\r\n"

/-- A multipart message whose boundary parameter is the empty string. -/
def emptyBoundaryMessage : Str :=
  lit "Subject: Hi\r\nContent-Type: multipart/mixed; boundary=\"\"\r\n\r\n--x\r\nContent-Type: text/plain\r\n\r\nbody\r\n--x--\r\n"

/-- A multipart message with one part and no closing boundary line. -/
def unclosedMessage : Str :=
  lit "Subject: Hi\r\nContent-Type: multipart/mixed; boundary=x\r\n\r\n--x\r\nContent-Type: text/plain\r\n\r\nbody\r\n"

/-! ## Example environments -/

/-- A world with an empty token cache and no calls made. -/
def emptyWorld : World := ⟨[], 0, [], []⟩

/-- An environment without fallback credentials whose identity provider refuses every
request; the clock stands at 1000 s. -/
def rejectingEnv : Env :=
  ⟨asciiCase, ⟨[], [], false⟩, fun _ => 1000000000000, fun _ _ _ => none, fun _ _ => none⟩

/-- An environment whose identity provider issues the token `tok` with the lifetime
`expiresIn` seconds; the `k`-th clock reading is `1000 s + k ns`. -/
def issuingEnv (expiresIn : Int) : Env :=
  ⟨asciiCase, ⟨[], [], false⟩, fun k => 1000000000000 + k,
    fun _ _ _ => some (lit "tok", expiresIn), fun _ _ => none⟩

/-! ## Quoted-printable encodings (RFC 2045, section 6.7) -/

/-- Upper-case hexadecimal digit of a value below 16. -/
def hexDigit (i : Nat) : Nat := (lit "0123456789ABCDEF").getD i 0

/-- One octet of the content as a quoted-printable encoder writes it: as itself
(`literal`, rules 2 and 3 of RFC 2045, 6.7) or as `=` and two upper-case hexadecimal
digits (`escaped`, rule 1). -/
inductive QPOctet where
  | literal (b : Nat)
  | escaped (b : Nat)
deriving DecidableEq, Repr

/-- The octet that is represented. -/
def QPOctet.octet : QPOctet → Nat
  | QPOctet.literal b => b
  | QPOctet.escaped b => b

/-- The characters written for the octet. -/
def QPOctet.text : QPOctet → Str
  | QPOctet.literal b => [b]
  | QPOctet.escaped b => [61, hexDigit (b / 16), hexDigit (b % 16)]

/-- Which representations the RFC allows: any octet may be escaped (rule 1); the
octets 33 to 60 and 62 to 126 (rule 2) and tab and space (rule 3) may be written as
themselves. -/
def QPOctet.valid : QPOctet → Bool
  | QPOctet.literal b => decide ((33 ≤ b ∧ b ≤ 126 ∧ b ≠ 61) ∨ b = 9 ∨ b = 32)
  | QPOctet.escaped b => decide (b < 256)

/-- Is the octet written as a literal tab or space. -/
def QPOctet.isSpace : QPOctet → Bool
  | QPOctet.literal b => b == 9 || b == 32
  | QPOctet.escaped _ => false

/-- The characters of a run of octets. -/
def octetsText (os : List QPOctet) : Str := os.flatMap QPOctet.text

/-- The octets a run represents. -/
def octetsContent (os : List QPOctet) : Str := os.map QPOctet.octet

/-- Does the run end in a literal tab or space. -/
def endsInSpace (os : List QPOctet) : Bool :=
  match os.getLast? with
  | some o => o.isSpace
  | none => false

/-- An encoded line that is terminated: its octets, and whether it ends in a soft line
break `=` CR LF, which stands for nothing (rule 5), or in CR LF, which stands for a
line break CR LF of the content (rule 4). -/
structure QPLine where
  octets : List QPOctet
  soft : Bool
deriving DecidableEq, Repr

/-- The characters of the line, terminator included. -/
def QPLine.text (l : QPLine) : Str :=
  octetsText l.octets ++ (if l.soft then [61, 13, 10] else [13, 10])

/-- The content the line represents. -/
def QPLine.content (l : QPLine) : Str :=
  octetsContent l.octets ++ (if l.soft then [] else [13, 10])

/-- The line obeys the RFC: every octet is validly written, a literal tab or space is
not the last character before CR LF (rule 3; before the `=` of a soft line break it may
stand), and the line is at most 76 characters long, the `=` of a soft line break
counted and CR LF not (rule 5). -/
def QPLine.valid (l : QPLine) : Bool :=
  l.octets.all QPOctet.valid && (l.soft || !endsInSpace l.octets)
    && decide ((octetsText l.octets).length + (if l.soft then 1 else 0) ≤ 76)

/-- A quoted-printable encoding as the encoder's choices: the terminated lines and the
octets after the last line terminator. -/
structure QPEncoding where
  lines : List QPLine
  last : List QPOctet
deriving DecidableEq, Repr

/-- The encoded text. -/
def QPEncoding.text (e : QPEncoding) : Str := e.lines.flatMap QPLine.text ++ octetsText e.last

/-- The content that is encoded. -/
def QPEncoding.content (e : QPEncoding) : Str :=
  e.lines.flatMap QPLine.content ++ octetsContent e.last

/-- Every line obeys the RFC, the unterminated last one included. -/
def QPEncoding.valid (e : QPEncoding) : Bool :=
  e.lines.all QPLine.valid && e.last.all QPOctet.valid && !endsInSpace e.last
    && decide ((octetsText e.last).length ≤ 76)

/-- The text `Q` is an RFC 2045 quoted-printable encoding of the content `C` (the
specification's `qp(C)`, for any encoder). -/
def IsQPEncoding (Q C : Str) : Prop :=
  ∃ e : QPEncoding, e.valid = true ∧ e.text = Q ∧ e.content = C

/-- The encoding of `hello world!` in the repository's test: `hello=20world=21`. -/
def helloEncoding : QPEncoding :=
  ⟨[], (lit "hello").map QPOctet.literal ++ [QPOctet.escaped 32]
    ++ (lit "world").map QPOctet.literal ++ [QPOctet.escaped 33]⟩

/-- An encoding of the lines `a=b ` and `c` with a soft line break, a space before it,
and an escaped trailing tab. -/
def linesEncoding : QPEncoding :=
  ⟨[⟨[QPOctet.literal 97, QPOctet.escaped 61, QPOctet.literal 32], true⟩,
    ⟨[QPOctet.literal 98, QPOctet.literal 32, QPOctet.escaped 9], false⟩],
    [QPOctet.literal 99]⟩

/-! ## Theorems -/

theorem decChar_encChar : ∀ i, i < 64 → decChar (encChar i) = some i := by decide

theorem encChar_ne_pad : ∀ i, i < 64 → encChar i ≠ 61 := by decide

theorem encChar_not_newline : ∀ i, i < 64 → (encChar i == 13 || encChar i == 10) = false := by
  decide

theorem stripNewlines_cons_keep (x : Nat) (s : Str) (h : (x == 13 || x == 10) = false) :
    stripNewlines (x :: s) = x :: stripNewlines s := by
  unfold stripNewlines
  rw [List.filter_cons, h]
  rfl

theorem stripNewlines_EncodeToString (C : Str) (h : ∀ b ∈ C, b < 256) :
    stripNewlines (EncodeToString C) = EncodeToString C := by
  induction C using EncodeToString.induct with
  | case1 a b c rest ih =>
    have ha : a < 256 := h a (by simp)
    have hb : b < 256 := h b (by simp)
    have hc : c < 256 := h c (by simp)
    have ih1 := ih (fun x hx => h x (by simp [hx]))
    rw [EncodeToString,
      stripNewlines_cons_keep _ _ (encChar_not_newline (a / 4) (by omega)),
      stripNewlines_cons_keep _ _ (encChar_not_newline (a % 4 * 16 + b / 16) (by omega)),
      stripNewlines_cons_keep _ _ (encChar_not_newline (b % 16 * 4 + c / 64) (by omega)),
      stripNewlines_cons_keep _ _ (encChar_not_newline (c % 64) (by omega)), ih1]
  | case2 a b =>
    have ha : a < 256 := h a (by simp)
    have hb : b < 256 := h b (by simp)
    rw [EncodeToString,
      stripNewlines_cons_keep _ _ (encChar_not_newline (a / 4) (by omega)),
      stripNewlines_cons_keep _ _ (encChar_not_newline (a % 4 * 16 + b / 16) (by omega)),
      stripNewlines_cons_keep _ _ (encChar_not_newline (b % 16 * 4) (by omega))]
    rfl
  | case3 a =>
    have ha : a < 256 := h a (by simp)
    rw [EncodeToString,
      stripNewlines_cons_keep _ _ (encChar_not_newline (a / 4) (by omega)),
      stripNewlines_cons_keep _ _ (encChar_not_newline (a % 4 * 16) (by omega))]
    rfl
  | case4 => rfl

theorem decodeQuanta_EncodeToString (C : Str) (h : ∀ b ∈ C, b < 256) :
    decodeQuanta (EncodeToString C) = some C := by
  induction C using EncodeToString.induct with
  | case1 a b c rest ih =>
    have ha : a < 256 := h a (by simp)
    have hb : b < 256 := h b (by simp)
    have hc : c < 256 := h c (by simp)
    have ih1 := ih (fun x hx => h x (by simp [hx]))
    simp only [EncodeToString, decodeQuanta,
      decChar_encChar (a / 4) (by omega),
      decChar_encChar (a % 4 * 16 + b / 16) (by omega),
      decChar_encChar (b % 16 * 4 + c / 64) (by omega),
      decChar_encChar (c % 64) (by omega),
      encChar_ne_pad (b % 16 * 4 + c / 64) (by omega),
      encChar_ne_pad (c % 64) (by omega), ih1, if_false, Option.map_some']
    have e1 : a / 4 * 4 + (a % 4 * 16 + b / 16) / 16 = a := by omega
    have e2 : (a % 4 * 16 + b / 16) % 16 * 16 + (b % 16 * 4 + c / 64) / 4 = b := by omega
    have e3 : (b % 16 * 4 + c / 64) % 4 * 64 + c % 64 = c := by omega
    rw [e1, e2, e3]
  | case2 a b =>
    have ha : a < 256 := h a (by simp)
    have hb : b < 256 := h b (by simp)
    simp only [EncodeToString, decodeQuanta,
      decChar_encChar (a / 4) (by omega),
      decChar_encChar (a % 4 * 16 + b / 16) (by omega),
      decChar_encChar (b % 16 * 4) (by omega),
      encChar_ne_pad (b % 16 * 4) (by omega), if_false, if_true]
    have e1 : a / 4 * 4 + (a % 4 * 16 + b / 16) / 16 = a := by omega
    have e2 : (a % 4 * 16 + b / 16) % 16 * 16 + (b % 16 * 4) / 4 = b := by omega
    rw [e1, e2]
  | case3 a =>
    have ha : a < 256 := h a (by simp)
    simp only [EncodeToString, decodeQuanta,
      decChar_encChar (a / 4) (by omega),
      decChar_encChar (a % 4 * 16) (by omega), if_true, and_self]
    have e1 : a / 4 * 4 + (a % 4 * 16) / 16 = a := by omega
    rw [e1]
  | case4 => rfl

/-! ### The command loop before authentication -/

theorem ReadString_line (cmd rest : Str) (h : 10 ∉ cmd) :
    ReadString (cmd ++ 10 :: rest) = (cmd ++ [10], false, rest) := by
  induction cmd with
  | nil => simp [ReadString]
  | cons b t ih =>
    have hb : b ≠ 10 := fun e => h (by simp [e])
    have ht : 10 ∉ t := fun m => h (by simp [m])
    simp [ReadString, hb, ih ht]

/-- C1: before a successful `AUTH LOGIN`, a non-empty command line that does not begin
(after upper-casing) with `EHLO`, `HELO` or `AUTH LOGIN` is answered with exactly
`530 5.7.0 Authentication required`; the session variables and the world (token cache,
identity-provider and mail-submission calls) are unchanged and the connection stays
open with the rest of the input unread. -/
theorem unauthenticated_command_gets_530 (E : Env) (fuel : Nat) (c : Conn) (cmd rest : Str)
    (hin : c.input = cmd ++ 10 :: rest) (hcmd : 10 ∉ cmd)
    (hauth : c.sess.authenticated = false)
    (hne : TrimRight (cmd ++ [10]) (lit "\r\n") ≠ [])
    (h1 : HasPrefix (ToUpper E.T (TrimRight (cmd ++ [10]) (lit "\r\n"))) (lit "EHLO") = false)
    (h2 : HasPrefix (ToUpper E.T (TrimRight (cmd ++ [10]) (lit "\r\n"))) (lit "HELO") = false)
    (h3 : HasPrefix (ToUpper E.T (TrimRight (cmd ++ [10]) (lit "\r\n"))) (lit "AUTH LOGIN")
      = false) :
    handleCommand E fuel c
      = (Status.open,
          { c with input := rest,
                   out := c.out ++ [lit "530 5.7.0 Authentication required\r\n"] }) := by
  unfold handleCommand
  simp only [hin, ReadString_line cmd rest hcmd, hne, h1, h2, h3, hauth, Conn.write]
  simp

/-- C1, at a concrete input: `MAIL FROM` sent to a fresh connection. -/
theorem unauthenticated_command_gets_530_witness :
    handleCommand rejectingEnv 0
        ⟨Session.init, lit "MAIL FROM:<a@b.com>\r\nQUIT\r\n", [lit "220 SMTP Relay Ready\r\n"],
          emptyWorld⟩
      = (Status.open,
          ⟨Session.init, lit "QUIT\r\n",
            [lit "220 SMTP Relay Ready\r\n", lit "530 5.7.0 Authentication required\r\n"],
            emptyWorld⟩) :=
  unauthenticated_command_gets_530 rejectingEnv 0
    ⟨Session.init, lit "MAIL FROM:<a@b.com>\r\nQUIT\r\n", [lit "220 SMTP Relay Ready\r\n"],
      emptyWorld⟩
    (lit "MAIL FROM:<a@b.com>\r") (lit "QUIT\r\n")
    (by decide) (by decide) (by decide) (by decide) (by decide) (by decide) (by decide)

/-- C2: an `AUTH LOGIN` whose credentials the identity provider refuses ends the
connection after the two `334` prompts, with no `535` written. -/
theorem auth_token_failure_writes_no_535 :
    handleSMTPConnection rejectingEnv 0 (lit "AUTH LOGIN\r\ndXNlcg==\r\ncGFzcw==\r\n") emptyWorld
      = (Status.closed,
          ⟨⟨lit "user", lit "pass", false, [], [], []⟩, [],
            [lit "220 SMTP Relay Ready\r\n", lit "334 VXNlcm5hbWU6\r\n",
              lit "334 UGFzc3dvcmQ6\r\n"],
            ⟨[], 0, [(lit "user", lit "pass")], []⟩⟩) := by
  decide

/-! ### The token cache -/

theorem toInt64_of_range (x : Int) (h1 : -9223372036854775808 ≤ x)
    (h2 : x < 9223372036854775808) : toInt64 x = x := by
  unfold toInt64
  omega

theorem Load_Store (w : World) (key : Str) (v : cachedToken) :
    (w.Store key v).Load key = some v := by
  simp [World.Store, World.Load]

/-- C3, as stated, fails: with an empty cache and a provider reply of lifetime 30 s,
the token is returned at clock reading 1000 s although its expiry threshold,
1000 s + (30 - 60) s = 970 s, has already passed. -/
theorem fresh_token_returned_after_threshold :
    (getCachedOAuth2Token (issuingEnv 30) emptyWorld (lit "user") (lit "pass")).1
        = some (lit "tok") ∧
      (getCachedOAuth2Token (issuingEnv 30) emptyWorld (lit "user") (lit "pass")).2.Load
          (lit "user") = some ⟨lit "tok", 970000000000⟩ ∧
      (970000000000 : Int) < (issuingEnv 30).now 0 := by
  decide

theorem find_filter_other (l : List (Str × cachedToken)) (key k : Str) (h : k ≠ key) :
    (l.filter (fun kv => kv.1 != key)).find? (fun kv => kv.1 == k)
      = l.find? (fun kv => kv.1 == k) := by
  induction l with
  | nil => rfl
  | cons x t ih =>
    by_cases hx : x.1 = key
    · have hk : ¬ x.1 = k := fun e => h (e.symm.trans hx)
      have hf : (x.1 != key) = false := by simp [hx]
      have hg : (x.1 == k) = false := by simp [hk]
      rw [List.filter_cons, List.find?_cons, hf, hg]
      exact ih
    · have hf : (x.1 != key) = true := by simp [hx]
      rw [List.filter_cons, hf]
      simp only [if_true, List.find?_cons, ih]

theorem Load_Store_other (w : World) (key k : Str) (v : cachedToken) (h : k ≠ key) :
    (w.Store key v).Load k = w.Load k := by
  have hk : (key == k) = false := by
    simp only [beq_eq_false_iff_ne, ne_eq]
    exact fun e => h e.symm
  unfold World.Store World.Load
  simp only [List.find?_cons, hk, find_filter_other _ key k h]

/-- What `fetchAndStore` does, from a world `w0` with the request list of `w`: one
request; without a token in the reply an error and an unchanged cache; with one, the
token is returned and stored for the account, other accounts keep their entries. -/
theorem fetchAndStore_spec (E : Env) (w0 : World) (username password : Str) :
    (fetchAndStore E w0 username password).2.tokenRequests
        = w0.tokenRequests ++ [(username, password)] ∧
    (fetchAndStore E w0 username password).2.sendRequests = w0.sendRequests ∧
    (∀ key, key ≠ username → (fetchAndStore E w0 username password).2.Load key = w0.Load key) ∧
    ((∀ token expiresIn,
        E.tokenEndpoint w0.tokenRequests.length username password = some (token, expiresIn) →
        token = []) →
      (fetchAndStore E w0 username password).1 = none ∧
      (fetchAndStore E w0 username password).2.TokenCache = w0.TokenCache ∧
      (fetchAndStore E w0 username password).2.clockReads = w0.clockReads) ∧
    (∀ token expiresIn,
      E.tokenEndpoint w0.tokenRequests.length username password = some (token, expiresIn) →
      token ≠ [] →
      (fetchAndStore E w0 username password).1 = some token ∧
      (fetchAndStore E w0 username password).2.Load username
        = some ⟨token, E.now w0.clockReads + toInt64 (toInt64 (expiresIn - 60) * 1000000000)⟩ ∧
      (fetchAndStore E w0 username password).2.clockReads = w0.clockReads + 1) := by
  unfold fetchAndStore getOAuth2TokenWithExpiry
  cases hep : E.tokenEndpoint w0.tokenRequests.length username password with
  | none =>
    refine ⟨by simp, by simp, ?_, ?_, ?_⟩
    · intro key _; simp [World.Load]
    · intro _; simp
    · intro token expiresIn h; simp at h
  | some r =>
    by_cases hr : r.1 = []
    · refine ⟨by simp [hr], by simp [hr], ?_, ?_, ?_⟩
      · intro key _; simp [hr, World.Load]
      · intro _; simp [hr]
      · intro token expiresIn h hne
        simp only [Option.some.injEq] at h
        rw [h] at hr
        exact absurd hr hne
    · refine ⟨by simp [hr, World.Store], by simp [hr, World.Store], ?_, ?_, ?_⟩
      · intro key hkey
        simp only [hr, if_false]
        have := Load_Store_other
          { w0 with tokenRequests := w0.tokenRequests ++ [(username, password)] } username key
          ⟨r.1, E.now w0.clockReads + toInt64 (toInt64 (r.2 - 60) * 1000000000)⟩ hkey
        simpa [World.Load, World.Store] using this
      · intro hfail
        exact absurd (hfail r.1 r.2 rfl) hr
      · intro token expiresIn h hne
        simp only [Option.some.injEq] at h
        subst h
        simp [hr, World.Store, World.Load]

/-- C3, amended. A cached entry for the account whose expiry lies strictly after the
clock reading is returned, and that is the one case in which no request goes to the
identity provider. Otherwise exactly one request is made and the entries of other
accounts stay as they are. If the reply carries no token, an error is returned and the
cache is unchanged. If it carries one, that token is returned, whatever its lifetime,
and replaces the entry of the account, with expiry the clock reading taken at the
store plus `(expiresIn - 60)` seconds as a 64-bit duration, which is that sum itself
when it fits. So every token returned is either the cached one before its expiry or
the one the provider issued in this call. -/
theorem getCachedOAuth2Token_contract (E : Env) (w : World) (username password : Str) :
    (∀ tok, w.Load username = some tok → E.now w.clockReads < tok.expiresAt →
        getCachedOAuth2Token E w username password
          = (some tok.token, { w with clockReads := w.clockReads + 1 })) ∧
    ((getCachedOAuth2Token E w username password).2.tokenRequests = w.tokenRequests ↔
        ∃ tok, w.Load username = some tok ∧ E.now w.clockReads < tok.expiresAt) ∧
    ((¬ ∃ tok, w.Load username = some tok ∧ E.now w.clockReads < tok.expiresAt) →
        (getCachedOAuth2Token E w username password).2.tokenRequests
            = w.tokenRequests ++ [(username, password)] ∧
        (getCachedOAuth2Token E w username password).2.sendRequests = w.sendRequests ∧
        (∀ key, key ≠ username →
          (getCachedOAuth2Token E w username password).2.Load key = w.Load key) ∧
        ((∀ token expiresIn,
            E.tokenEndpoint w.tokenRequests.length username password = some (token, expiresIn) →
            token = []) →
          (getCachedOAuth2Token E w username password).1 = none ∧
          (getCachedOAuth2Token E w username password).2.TokenCache = w.TokenCache) ∧
        ∀ token expiresIn,
          E.tokenEndpoint w.tokenRequests.length username password = some (token, expiresIn) →
          token ≠ [] →
          (getCachedOAuth2Token E w username password).1 = some token ∧
          (getCachedOAuth2Token E w username password).2.Load username
            = some ⟨token,
                E.now (if (w.Load username).isSome then w.clockReads + 1 else w.clockReads)
                  + toInt64 (toInt64 (expiresIn - 60) * 1000000000)⟩ ∧
          (-9223372036854775808 ≤ (expiresIn - 60) * 1000000000 →
            (expiresIn - 60) * 1000000000 < 9223372036854775808 →
            (getCachedOAuth2Token E w username password).2.Load username
              = some ⟨token,
                  E.now (if (w.Load username).isSome then w.clockReads + 1 else w.clockReads)
                    + (expiresIn - 60) * 1000000000⟩)) ∧
    (∀ t, (getCachedOAuth2Token E w username password).1 = some t →
        (∃ tok, w.Load username = some tok ∧ E.now w.clockReads < tok.expiresAt ∧
          tok.token = t ∧
          (getCachedOAuth2Token E w username password).2.tokenRequests = w.tokenRequests) ∨
        (∃ expiresIn,
          E.tokenEndpoint w.tokenRequests.length username password = some (t, expiresIn) ∧
          t ≠ [] ∧
          (getCachedOAuth2Token E w username password).2.tokenRequests
            = w.tokenRequests ++ [(username, password)])) := by
  have hit : ∀ tok, w.Load username = some tok → E.now w.clockReads < tok.expiresAt →
      getCachedOAuth2Token E w username password
        = (some tok.token, { w with clockReads := w.clockReads + 1 }) := by
    intro tok hload hlt
    simp [getCachedOAuth2Token, hload, hlt]
  -- the fetch path, from the world `w0` in which it starts
  have miss : ∀ w0 : World, w0.tokenRequests = w.tokenRequests →
      w0.sendRequests = w.sendRequests → w0.TokenCache = w.TokenCache →
      getCachedOAuth2Token E w username password = fetchAndStore E w0 username password →
      ((getCachedOAuth2Token E w username password).2.tokenRequests
            = w.tokenRequests ++ [(username, password)] ∧
        (getCachedOAuth2Token E w username password).2.sendRequests = w.sendRequests ∧
        (∀ key, key ≠ username →
          (getCachedOAuth2Token E w username password).2.Load key = w.Load key) ∧
        ((∀ token expiresIn,
            E.tokenEndpoint w.tokenRequests.length username password = some (token, expiresIn) →
            token = []) →
          (getCachedOAuth2Token E w username password).1 = none ∧
          (getCachedOAuth2Token E w username password).2.TokenCache = w.TokenCache) ∧
        ∀ token expiresIn,
          E.tokenEndpoint w.tokenRequests.length username password = some (token, expiresIn) →
          token ≠ [] →
          (getCachedOAuth2Token E w username password).1 = some token ∧
          (getCachedOAuth2Token E w username password).2.Load username
            = some ⟨token, E.now w0.clockReads
                + toInt64 (toInt64 (expiresIn - 60) * 1000000000)⟩ ∧
          (-9223372036854775808 ≤ (expiresIn - 60) * 1000000000 →
            (expiresIn - 60) * 1000000000 < 9223372036854775808 →
            (getCachedOAuth2Token E w username password).2.Load username
              = some ⟨token, E.now w0.clockReads + (expiresIn - 60) * 1000000000⟩)) ∧
      (∀ t, (getCachedOAuth2Token E w username password).1 = some t →
        ∃ expiresIn,
          E.tokenEndpoint w.tokenRequests.length username password = some (t, expiresIn) ∧
          t ≠ [] ∧
          (getCachedOAuth2Token E w username password).2.tokenRequests
            = w.tokenRequests ++ [(username, password)]) := by
    intro w0 hreq hsend hcache heq
    obtain ⟨s1, s2, s3, s4, s5⟩ := fetchAndStore_spec E w0 username password
    have hLoad : ∀ key, w0.Load key = w.Load key := by
      intro key
      unfold World.Load
      rw [hcache]
    rw [heq]
    rw [hreq] at s1 s4 s5
    rw [hsend] at s2
    rw [hcache] at s4
    refine ⟨⟨s1, s2, fun key hkey => (s3 key hkey).trans (hLoad key),
      fun hfail => ⟨(s4 hfail).1, (s4 hfail).2.1⟩, ?_⟩, ?_⟩
    · intro token expiresIn hep hne
      obtain ⟨a1, a2, _⟩ := s5 token expiresIn hep hne
      refine ⟨a1, a2, ?_⟩
      intro hlo hhi
      have e1 : toInt64 (expiresIn - 60) = expiresIn - 60 :=
        toInt64_of_range _ (by omega) (by omega)
      have e2 : toInt64 ((expiresIn - 60) * 1000000000) = (expiresIn - 60) * 1000000000 :=
        toInt64_of_range _ hlo hhi
      rw [a2, e1, e2]
    · intro t ht
      cases hep : E.tokenEndpoint w.tokenRequests.length username password with
      | none =>
        have := (s4 (fun token expiresIn h => by rw [hep] at h; simp at h)).1
        rw [this] at ht
        simp at ht
      | some r =>
        by_cases hr : r.1 = []
        · have := (s4 (fun token expiresIn h => by
            rw [hep] at h
            simp only [Option.some.injEq] at h
            rw [h] at hr
            exact hr)).1
          rw [this] at ht
          simp at ht
        · have := (s5 r.1 r.2 hep hr).1
          rw [this] at ht
          simp only [Option.some.injEq] at ht
          exact ⟨r.2, by rw [← ht], by rw [← ht]; exact hr, s1⟩
  cases hload : w.Load username with
  | none =>
    have heq : getCachedOAuth2Token E w username password = fetchAndStore E w username password := by
      simp [getCachedOAuth2Token, hload]
    obtain ⟨m1, m2⟩ := miss w rfl rfl rfl heq
    refine ⟨fun tok h => by simp at h, ?_, fun _ => ?_, fun t ht => Or.inr (m2 t ht)⟩
    · rw [m1.1]
      simp
    · simpa using m1
  | some tok =>
    by_cases hlt : E.now w.clockReads < tok.expiresAt
    · have hv := hit tok hload hlt
      refine ⟨fun tok1 h1 h2 => hit tok1 (hload ▸ h1) h2, ?_, fun hmiss => ?_, fun t ht => ?_⟩
      · rw [hv]
        exact ⟨fun _ => ⟨tok, rfl, hlt⟩, fun _ => rfl⟩
      · exact absurd ⟨tok, rfl, hlt⟩ hmiss
      · rw [hv] at ht ⊢
        simp only [Option.some.injEq] at ht
        exact Or.inl ⟨tok, rfl, hlt, ht, rfl⟩
    · have heq : getCachedOAuth2Token E w username password
          = fetchAndStore E { w with clockReads := w.clockReads + 1 } username password := by
        simp [getCachedOAuth2Token, hload, hlt]
      obtain ⟨m1, m2⟩ := miss { w with clockReads := w.clockReads + 1 } rfl rfl rfl heq
      refine ⟨fun tok1 h1 h2 => ?_, ?_, fun _ => ?_, fun t ht => Or.inr (m2 t ht)⟩
      · simp only [Option.some.injEq] at h1
        rw [← h1] at h2
        exact absurd h2 hlt
      · rw [m1.1]
        constructor
        · intro h; simp at h
        · rintro ⟨tok1, h1, h2⟩
          simp only [Option.some.injEq] at h1
          rw [← h1] at h2
          exact absurd h2 hlt
      · simpa using m1

/-- C3, amended, at concrete inputs, the clock at 1000 s. A cached token `old` that
expires at 2000 s is returned without a request. With an empty cache a token of
lifetime 3600 s is fetched, returned and stored with expiry 1000 s + 3540 s, and the
entry of the account `other` stays. With a cached token that expired at 500 s and a
provider that refuses, the result is an error, not `old`, and the cache is unchanged. -/
theorem getCachedOAuth2Token_contract_witness :
    getCachedOAuth2Token (issuingEnv 3600)
        ⟨[(lit "user", ⟨lit "old", 2000000000000⟩)], 0, [], []⟩ (lit "user") (lit "pass")
      = (some (lit "old"), ⟨[(lit "user", ⟨lit "old", 2000000000000⟩)], 1, [], []⟩) ∧
    (getCachedOAuth2Token (issuingEnv 3600) emptyWorld (lit "user") (lit "pass")).2.tokenRequests
      = [(lit "user", lit "pass")] ∧
    (getCachedOAuth2Token (issuingEnv 3600) emptyWorld (lit "user") (lit "pass")).1
      = some (lit "tok") ∧
    (getCachedOAuth2Token (issuingEnv 3600) emptyWorld (lit "user") (lit "pass")).2.Load
        (lit "user") = some ⟨lit "tok", 4540000000000⟩ ∧
    (getCachedOAuth2Token (issuingEnv 3600)
        ⟨[(lit "other", ⟨lit "theirs", 2000000000000⟩)], 0, [], []⟩ (lit "user")
        (lit "pass")).2.Load (lit "other") = some ⟨lit "theirs", 2000000000000⟩ ∧
    ((getCachedOAuth2Token rejectingEnv
        ⟨[(lit "user", ⟨lit "old", 500000000000⟩)], 0, [], []⟩ (lit "user") (lit "pass")).1
        = none ∧
      (getCachedOAuth2Token rejectingEnv
        ⟨[(lit "user", ⟨lit "old", 500000000000⟩)], 0, [], []⟩ (lit "user")
        (lit "pass")).2.TokenCache = [(lit "user", ⟨lit "old", 500000000000⟩)]) :=
  ⟨(getCachedOAuth2Token_contract (issuingEnv 3600)
        ⟨[(lit "user", ⟨lit "old", 2000000000000⟩)], 0, [], []⟩ (lit "user") (lit "pass")).1
      ⟨lit "old", 2000000000000⟩ (by decide) (by decide),
    ((getCachedOAuth2Token_contract (issuingEnv 3600) emptyWorld (lit "user")
      (lit "pass")).2.2.1 (by decide)).1,
    (((getCachedOAuth2Token_contract (issuingEnv 3600) emptyWorld (lit "user")
      (lit "pass")).2.2.1 (by decide)).2.2.2.2 (lit "tok") 3600 (by decide) (by decide)).1,
    (((getCachedOAuth2Token_contract (issuingEnv 3600) emptyWorld (lit "user")
      (lit "pass")).2.2.1 (by decide)).2.2.2.2 (lit "tok") 3600 (by decide) (by decide)).2.2
      (by decide) (by decide),
    ((getCachedOAuth2Token_contract (issuingEnv 3600)
        ⟨[(lit "other", ⟨lit "theirs", 2000000000000⟩)], 0, [], []⟩ (lit "user")
        (lit "pass")).2.2.1 (by decide)).2.2.1 (lit "other") (by decide),
    ((getCachedOAuth2Token_contract rejectingEnv
        ⟨[(lit "user", ⟨lit "old", 500000000000⟩)], 0, [], []⟩ (lit "user")
        (lit "pass")).2.2.1 (by decide)).2.2.2.1
      (fun _ _ h => Option.noConfusion h)⟩

/-! ### The part loop of the MIME decoder -/

theorem partLoop_eq_foldl (T : CaseTables) (fuel : Nat) :
    ∀ (mr : MultipartReader) (acc : PartAcc),
      partLoop T fuel mr acc
        = (partsBefore fuel mr).map (fun ps => ps.foldl (fun a p => processPart T p a) acc) := by
  induction fuel with
  | zero => intro mr acc; rfl
  | succ n ih =>
    intro mr acc
    unfold partLoop partsBefore
    rcases hnp : mr.NextPart with ⟨res, mr1⟩
    cases res with
    | eof => simp
    | err => simpa using ih mr1 acc
    | part p =>
      simp only [ih mr1 (processPart T p acc)]
      cases partsBefore n mr1 <;> simp

/-- More calls than the part sequence needs give the same parts. -/
theorem partsBefore_mono (n : Nat) : ∀ (m : Nat) (mr : MultipartReader) (ps : List Part),
    n ≤ m → partsBefore n mr = some ps → partsBefore m mr = some ps := by
  induction n with
  | zero => intro m mr ps _ h; simp [partsBefore] at h
  | succ n ih =>
    intro m mr ps hle h
    obtain ⟨k, rfl⟩ : ∃ k, m = k + 1 := ⟨m - 1, by omega⟩
    unfold partsBefore at h ⊢
    rcases hnp : mr.NextPart with ⟨res, mr1⟩
    rw [hnp] at h
    cases res with
    | eof => exact h
    | err => exact ih k mr1 ps (by omega) h
    | part q =>
      simp only at h ⊢
      cases hrec : partsBefore n mr1 with
      | none => simp [hrec] at h
      | some t =>
        rw [hrec] at h
        rw [ih k mr1 t (by omega) hrec]
        exact h

theorem attachmentCtype_ne_nil (p : Part) : attachmentCtype p ≠ [] := by
  unfold attachmentCtype
  split
  · decide
  · assumption

theorem processPart_attachments (T : CaseTables) (p : Part) (acc : PartAcc) :
    (processPart T p acc).attachments
      = acc.attachments ++
          (if keptAttachment T p then
            [⟨attachmentFilename T p, attachmentCtype p,
              EncodeToString ((partContent T p).getD [])⟩]
           else []) := by
  unfold processPart keptAttachment isAttachmentPart partContent
  by_cases hatt : HasPrefix (p.Header.Get (lit "Content-Disposition")) (lit "attachment") = true
  · cases hdec : decodeMessage (ToLower T (p.Header.Get (lit "Content-Transfer-Encoding"))) p.r with
    | none => simp [hatt]
    | some d =>
      by_cases hf : attachmentFilename T p = []
      · simp [hatt, hf]
      · by_cases hd : d = []
        · simp [hatt, hd]
        · simp [hatt, hf, hd, attachmentCtype_ne_nil]
  · cases hdec : decodeMessage (ToLower T (p.Header.Get (lit "Content-Transfer-Encoding"))) p.r <;>
      simp [hatt]

theorem foldl_processPart_attachments (T : CaseTables) (ps : List Part) :
    ∀ acc : PartAcc,
      (ps.foldl (fun a p => processPart T p a) acc).attachments
        = acc.attachments ++
            (ps.filter (keptAttachment T)).map (fun p =>
              (⟨attachmentFilename T p, attachmentCtype p,
                EncodeToString ((partContent T p).getD [])⟩ : Attachment)) := by
  induction ps with
  | nil => intro acc; simp
  | cons p ps ih =>
    intro acc
    rw [List.foldl_cons, ih, processPart_attachments]
    by_cases hk : keptAttachment T p = true
    · simp [hk, List.filter_cons]
    · simp [hk, List.filter_cons]

theorem processPart_body (T : CaseTables) (p : Part) (acc : PartAcc) :
    (processPart T p acc).body
      = if isAttachmentPart p then acc.body else (partContent T p).getD acc.body := by
  unfold processPart isAttachmentPart partContent
  by_cases hatt : HasPrefix (p.Header.Get (lit "Content-Disposition")) (lit "attachment") = true
  · cases hdec : decodeMessage (ToLower T (p.Header.Get (lit "Content-Transfer-Encoding"))) p.r with
    | none => simp [hatt]
    | some d =>
      simp only [hatt, if_true]
      split <;> rfl
  · cases hdec : decodeMessage (ToLower T (p.Header.Get (lit "Content-Transfer-Encoding"))) p.r <;>
      simp [hatt]

theorem foldl_processPart_body (T : CaseTables) (ps : List Part) :
    ∀ acc : PartAcc,
      (ps.foldl (fun a p => processPart T p a) acc).body
        = ((ps.filter (fun p => !isAttachmentPart p)).filterMap (partContent T)).getLastD
            acc.body := by
  induction ps with
  | nil => intro acc; simp
  | cons p ps ih =>
    intro acc
    rw [List.foldl_cons, ih, processPart_body]
    by_cases hatt : isAttachmentPart p = true
    · have hf : (p :: ps).filter (fun p => !isAttachmentPart p)
          = ps.filter (fun p => !isAttachmentPart p) := by
        simp [List.filter_cons, hatt]
      rw [hf, if_pos hatt]
    · have hf : (p :: ps).filter (fun p => !isAttachmentPart p)
          = p :: ps.filter (fun p => !isAttachmentPart p) := by
        simp [List.filter_cons, hatt]
      rw [hf, if_neg hatt]
      cases hc : partContent T p with
      | none => rw [List.filterMap_cons_none hc]; rfl
      | some d => rw [List.filterMap_cons_some hc, List.getLastD_cons]; rfl

theorem processPart_isHTML (T : CaseTables) (p : Part) (acc : PartAcc) :
    (processPart T p acc).isHTML
      = (acc.isHTML || (!isAttachmentPart p && (partContent T p).isSome &&
          Contains (ToLower T (p.Header.Get (lit "Content-Type"))) (lit "html"))) := by
  unfold processPart isAttachmentPart partContent
  by_cases hatt : HasPrefix (p.Header.Get (lit "Content-Disposition")) (lit "attachment") = true
  · cases hdec : decodeMessage (ToLower T (p.Header.Get (lit "Content-Transfer-Encoding"))) p.r with
    | none => simp [hatt]
    | some d =>
      simp only [hatt, if_true]
      split <;> simp
  · cases hdec : decodeMessage (ToLower T (p.Header.Get (lit "Content-Transfer-Encoding"))) p.r <;>
      simp [hatt]

theorem foldl_processPart_isHTML (T : CaseTables) (ps : List Part) :
    ∀ acc : PartAcc,
      (ps.foldl (fun a p => processPart T p a) acc).isHTML
        = (acc.isHTML || ps.any (fun p => !isAttachmentPart p && (partContent T p).isSome &&
            Contains (ToLower T (p.Header.Get (lit "Content-Type"))) (lit "html"))) := by
  induction ps with
  | nil => intro acc; simp
  | cons p ps ih =>
    intro acc
    rw [List.foldl_cons, ih, processPart_isHTML, List.any_cons, Bool.or_assoc]

theorem parse_multipart (T : CaseTables) (fuel : Nat) (msg : Str) (h : MIMEHeader)
    (body boundary : Str) (ps : List Part)
    (hread : ReadMessage (withNewline msg) = some (h, body))
    (hmp : multipartBoundary T h = some boundary)
    (hparts : partsBefore fuel (MultipartReader.NewReader body boundary) = some ps) :
    parseSubjectBodyAndAttachments T fuel msg
      = some (Except.ok
          ⟨subjectOf h,
            (ps.foldl (fun a p => processPart T p a)
              ⟨[], Contains (ToLower T (h.Get (lit "Content-Type"))) (lit "html"), []⟩).body,
            (ps.foldl (fun a p => processPart T p a)
              ⟨[], Contains (ToLower T (h.Get (lit "Content-Type"))) (lit "html"), []⟩).isHTML,
            (ps.foldl (fun a p => processPart T p a)
              ⟨[], Contains (ToLower T (h.Get (lit "Content-Type"))) (lit "html"), []⟩).attachments⟩) := by
  unfold parseSubjectBodyAndAttachments
  simp only [hread, hmp, partLoop_eq_foldl, hparts, Option.map_some']

/-! ### Body -/

/-- C5: for a multipart message whose framing parses and whose part sequence `ps` ends
with `io.EOF`, decoding succeeds and the body is the decoded content of the last part
that is not an attachment and decodes; it is empty when there is none, in particular
when every part is an attachment. -/
theorem body_is_last_decoded_body_part (T : CaseTables) (fuel : Nat) (msg : Str)
    (h : MIMEHeader) (body boundary : Str) (ps : List Part)
    (hread : ReadMessage (withNewline msg) = some (h, body))
    (hmp : multipartBoundary T h = some boundary)
    (hparts : partsBefore fuel (MultipartReader.NewReader body boundary) = some ps) :
    ∃ r, parseSubjectBodyAndAttachments T fuel msg = some (Except.ok r) ∧
      r.body = ((ps.filter (fun p => !isAttachmentPart p)).filterMap (partContent T)).getLastD [] ∧
      ((∀ p ∈ ps, isAttachmentPart p = true) → r.body = []) := by
  refine ⟨_, parse_multipart T fuel msg h body boundary ps hread hmp hparts, ?_, ?_⟩
  · exact foldl_processPart_body T ps _
  · intro hall
    have hnil : ps.filter (fun p => !isAttachmentPart p) = [] := by
      rw [List.filter_eq_nil_iff]
      intro p hp
      simp [hall p hp]
    show (ps.foldl (fun a p => processPart T p a) _).body = []
    rw [foldl_processPart_body, hnil]
    rfl

/-- C5 at the messages of the repository's tests: a body part and an attachment give
the body `This is the body.`; an attachment alone gives an empty body and one
attachment. -/
theorem body_is_last_decoded_body_part_witness :
    (∃ r, parseSubjectBodyAndAttachments asciiCase 3 mixedMessage = some (Except.ok r) ∧
      r.body = lit "This is the body.") ∧
    (∃ r, parseSubjectBodyAndAttachments asciiCase 2 onlyAttachmentMessage = some (Except.ok r) ∧
      r.body = [] ∧ r.attachments.length = 1) := by
  constructor
  · obtain ⟨r, hr, hb, _⟩ := body_is_last_decoded_body_part asciiCase 3 mixedMessage
      (framing mixedMessage).1 (framing mixedMessage).2 (lit "BOUNDARY")
      (partsOf 3 mixedMessage (lit "BOUNDARY"))
      (by set_option maxRecDepth 100000 in decide)
      (by set_option maxRecDepth 100000 in decide)
      (by set_option maxRecDepth 100000 in decide)
    exact ⟨r, hr, hb.trans (by set_option maxRecDepth 100000 in decide)⟩
  · obtain ⟨r, hr, _, hb⟩ := body_is_last_decoded_body_part asciiCase 2 onlyAttachmentMessage
      (framing onlyAttachmentMessage).1 (framing onlyAttachmentMessage).2 (lit "BOUNDARY")
      (partsOf 2 onlyAttachmentMessage (lit "BOUNDARY"))
      (by set_option maxRecDepth 100000 in decide)
      (by set_option maxRecDepth 100000 in decide)
      (by set_option maxRecDepth 100000 in decide)
    refine ⟨r, hr, hb (by set_option maxRecDepth 100000 in decide), ?_⟩
    have hv : parseSubjectBodyAndAttachments asciiCase 2 onlyAttachmentMessage
        = some (Except.ok ⟨lit "OnlyAttachment", [], false,
            [⟨lit "file.bin", lit "application/octet-stream; name=\"file.bin\"",
              lit "YmluYXJ5ZGF0YQ=="⟩]⟩) := by
      set_option maxRecDepth 100000 in decide
    rw [hv] at hr
    cases hr
    rfl

/-! ### Attachments that are left out -/

/-- C7, as stated, fails: an attachment part without a Content-Type field is not left
out; it is listed with the type `application/octet-stream`. -/
theorem untyped_attachment_is_kept :
    (partsOf 2 untypedAttachmentMessage (lit "BOUNDARY")).map
        (fun p => p.Header.Get (lit "Content-Type")) = [[]] ∧
    parseSubjectBodyAndAttachments asciiCase 2 untypedAttachmentMessage
      = some (Except.ok ⟨lit "Untyped", [], false,
          [⟨lit "file.bin", lit "application/octet-stream", lit "YmluYXJ5ZGF0YQ=="⟩]⟩) := by
  set_option maxRecDepth 100000 in decide

/-- C7, amended. For a multipart message whose framing parses and whose part sequence
`ps` ends with `io.EOF`, decoding succeeds; the attachment list holds, in part order,
one entry for every attachment part with a file name and a non-empty decoded content
and nothing else, so an attachment part whose content is empty or does not decode, or
whose file name is empty, is left out while the other parts are processed as usual. A
part without a Content-Type is not left out: its entry has the type
`application/octet-stream`. -/
theorem invalid_attachments_left_out (T : CaseTables) (fuel : Nat) (msg : Str) (h : MIMEHeader)
    (body boundary : Str) (ps : List Part)
    (hread : ReadMessage (withNewline msg) = some (h, body))
    (hmp : multipartBoundary T h = some boundary)
    (hparts : partsBefore fuel (MultipartReader.NewReader body boundary) = some ps) :
    ∃ r, parseSubjectBodyAndAttachments T fuel msg = some (Except.ok r) ∧
      r.attachments
        = (ps.filter (fun p => isAttachmentPart p && (attachmentFilename T p != []) &&
            (match partContent T p with
             | some d => d != []
             | none => false))).map
          (fun p => ⟨attachmentFilename T p,
            if p.Header.Get (lit "Content-Type") = [] then lit "application/octet-stream"
            else p.Header.Get (lit "Content-Type"),
            EncodeToString ((partContent T p).getD [])⟩) ∧
      ∀ p ∈ ps, isAttachmentPart p = true →
        (partContent T p = some [] ∨ partContent T p = none ∨ attachmentFilename T p = []) →
        (ps.filter (fun q => decide (q ≠ p))).foldl (fun a q => processPart T q a)
            ⟨[], Contains (ToLower T (h.Get (lit "Content-Type"))) (lit "html"), []⟩
          = ⟨r.body, r.isHTML, r.attachments⟩ := by
  refine ⟨_, parse_multipart T fuel msg h body boundary ps hread hmp hparts, ?_, ?_⟩
  · simp only [foldl_processPart_attachments, List.nil_append]
    rfl
  · intro p _ hatt hbad
    have hskip : ∀ acc, processPart T p acc = acc := by
      intro acc
      unfold processPart
      unfold isAttachmentPart at hatt
      unfold partContent at hbad
      rw [if_pos hatt]
      rcases hbad with h1 | h1 | h1
      · rw [h1]; simp
      · rw [h1]
      · cases decodeMessage (ToLower T (p.Header.Get (lit "Content-Transfer-Encoding"))) p.r with
        | none => rfl
        | some d => simp [h1]
    have hfold : ∀ (l : List Part) (acc : PartAcc),
        (l.filter (fun q => decide (q ≠ p))).foldl (fun a q => processPart T q a) acc
          = l.foldl (fun a q => processPart T q a) acc := by
      intro l
      induction l with
      | nil => intro acc; rfl
      | cons q l ih =>
        intro acc
        by_cases hq : q = p
        · subst hq
          simp only [List.filter_cons, ne_eq, not_true_eq_false, decide_False, List.foldl_cons,
            hskip]
          exact ih acc
        · simp only [List.filter_cons, ne_eq, hq, not_false_eq_true, decide_True, if_true,
            List.foldl_cons]
          exact ih _
    rw [hfold]

/-- C7, amended, at a concrete message: the empty attachment `empty.txt` is left out,
the attachment `file.txt` after it is kept. -/
theorem invalid_attachments_left_out_witness :
    ∃ r, parseSubjectBodyAndAttachments asciiCase 3 emptyAttachmentMessage
          = some (Except.ok r) ∧
      r.attachments
        = [⟨lit "file.txt", lit "application/octet-stream", lit "ZmlsZSBjb250ZW50"⟩] := by
  obtain ⟨r, hr, ha, _⟩ := invalid_attachments_left_out asciiCase 3
    emptyAttachmentMessage
    (framing emptyAttachmentMessage).1
    (framing emptyAttachmentMessage).2
    (lit "BOUNDARY")
    (partsOf 3 emptyAttachmentMessage (lit "BOUNDARY"))
    (by set_option maxRecDepth 100000 in decide)
    (by set_option maxRecDepth 100000 in decide)
    (by set_option maxRecDepth 100000 in decide)
  exact ⟨r, hr, ha.trans (by set_option maxRecDepth 100000 in decide)⟩

/-! ### The HTML flag -/

/-- C9: when decoding succeeds, `isHTML` is true exactly when the lower-cased top-level
Content-Type contains `html`, or the message is multipart and one of the parts read
before `io.EOF` is not an attachment, decodes, and has a lower-cased Content-Type that
contains `html`. Part order does not enter: a later plain-text part cannot reset the
flag. -/
theorem isHTML_iff (T : CaseTables) (fuel : Nat) (msg : Str) (r : Parsed)
    (hok : parseSubjectBodyAndAttachments T fuel msg = some (Except.ok r)) :
    ∃ h body, ReadMessage (withNewline msg) = some (h, body) ∧
      (r.isHTML = true ↔
        Contains (ToLower T (h.Get (lit "Content-Type"))) (lit "html") = true ∨
        ∃ boundary ps, multipartBoundary T h = some boundary ∧
          partsBefore fuel (MultipartReader.NewReader body boundary) = some ps ∧
          ∃ p ∈ ps, isAttachmentPart p = false ∧ (partContent T p).isSome = true ∧
            Contains (ToLower T (p.Header.Get (lit "Content-Type"))) (lit "html") = true) := by
  unfold parseSubjectBodyAndAttachments at hok
  cases hread : ReadMessage (withNewline msg) with
  | none => simp [hread] at hok
  | some hb =>
    obtain ⟨h, body⟩ := hb
    refine ⟨h, body, rfl, ?_⟩
    simp only [hread] at hok
    cases hmp : multipartBoundary T h with
    | some boundary =>
      simp only [hmp, partLoop_eq_foldl] at hok
      cases hparts : partsBefore fuel (MultipartReader.NewReader body boundary) with
      | none => simp [hparts] at hok
      | some ps =>
        simp only [hparts, Option.map_some', Option.some.injEq, Except.ok.injEq] at hok
        subst hok
        simp only [foldl_processPart_isHTML, Bool.or_eq_true, List.any_eq_true,
          Bool.and_eq_true, Bool.not_eq_true', Option.some.injEq, exists_and_left,
          exists_eq_left']
        constructor
        · rintro (h1 | ⟨p, hp, ⟨ha, hs⟩, hc⟩)
          · exact Or.inl h1
          · exact Or.inr ⟨ps, hparts, p, hp, ha, hs, hc⟩
        · rintro (h1 | ⟨ps1, hps, p, hp, ha, hs, hc⟩)
          · exact Or.inl h1
          · rw [hparts] at hps
            cases hps
            exact Or.inr ⟨p, hp, ⟨ha, hs⟩, hc⟩
    | none =>
      simp only [hmp, parseSingle] at hok
      cases hdec : decodeMessage (ToLower T (h.Get (lit "Content-Transfer-Encoding")))
          (NewReader body) with
      | none => simp [hdec] at hok
      | some d =>
        simp only [hdec, Option.some.injEq, Except.ok.injEq] at hok
        subst hok
        simp

/-- C9 at the messages of the repository's tests: `text/html` without multipart gives
true, a multipart/alternative message with a `text/html` part gives true, a message
without Content-Type gives false. -/
theorem isHTML_iff_witness :
    (∃ r, parseSubjectBodyAndAttachments asciiCase 0 htmlMessage = some (Except.ok r) ∧
      r.isHTML = true) ∧
    (∃ r, parseSubjectBodyAndAttachments asciiCase 2 alternativeMessage = some (Except.ok r) ∧
      r.isHTML = true) ∧
    (∃ r, parseSubjectBodyAndAttachments asciiCase 0 plainMessage = some (Except.ok r) ∧
      r.isHTML = false) := by
  have e1 : parseSubjectBodyAndAttachments asciiCase 0 htmlMessage
      = some (Except.ok ⟨lit "Hello", lit "<html><body>Hi!</body></html>\n", true, []⟩) := by
    set_option maxRecDepth 100000 in decide
  have e2 : parseSubjectBodyAndAttachments asciiCase 2 alternativeMessage
      = some (Except.ok ⟨lit "HTMLMultipart", lit "<b>HTML Body</b>", true, []⟩) := by
    set_option maxRecDepth 100000 in decide
  have e3 : parseSubjectBodyAndAttachments asciiCase 0 plainMessage
      = some (Except.ok ⟨lit "Hello", lit "This is the body.\n", false, []⟩) := by
    set_option maxRecDepth 100000 in decide
  refine ⟨⟨_, e1, ?_⟩, ⟨_, e2, ?_⟩, ⟨_, e3, ?_⟩⟩
  · obtain ⟨h, body, hread, hiff⟩ := isHTML_iff asciiCase 0 htmlMessage _ e1
    have hh : (h, body) = framing htmlMessage := by
      unfold framing; rw [hread]; rfl
    cases hh
    exact hiff.2 (Or.inl (by set_option maxRecDepth 100000 in decide))
  · rfl
  · rfl

/-! ### Base64 transfer decoding -/

/-- C10: `decodeMessage("base64", r)` on a reader over the standard base64 encoding of
the bytes `C` returns `C` without an error. -/
theorem decodeMessage_base64_roundtrip (C : Str) (hC : IsBytes C) :
    decodeMessage (lit "base64") (NewReader (EncodeToString C)) = some C := by
  have h1 : (NewReader (EncodeToString C)).fails = false := rfl
  have h2 : (NewReader (EncodeToString C)).data = EncodeToString C := rfl
  unfold decodeMessage DecodeString
  rw [h1, h2, stripNewlines_EncodeToString C hC, decodeQuanta_EncodeToString C hC]
  simp

/-- C10 at `hello world`, whose base64 text is `aGVsbG8gd29ybGQ=`. -/
theorem decodeMessage_base64_roundtrip_witness :
    EncodeToString (lit "hello world") = lit "aGVsbG8gd29ybGQ=" ∧
    decodeMessage (lit "base64") (NewReader (EncodeToString (lit "hello world")))
      = some (lit "hello world") :=
  ⟨by decide, decodeMessage_base64_roundtrip (lit "hello world") (by decide)⟩

/-! ### Framing of a message written field by field -/

theorem splitLines_line (l rest : Str) (h : 10 ∉ l) :
    splitLines (l ++ 10 :: rest) = ((l ++ [10]) :: (splitLines rest).1, (splitLines rest).2) := by
  induction l with
  | nil => simp [splitLines]
  | cons b t ih =>
    have hb : b ≠ 10 := fun e => h (by simp [e])
    have ht : 10 ∉ t := fun m => h (by simp [m])
    simp [splitLines, hb, ih ht]

theorem rawLines_line (l rest : Str) (h : 10 ∉ l) :
    rawLines (l ++ 10 :: rest) = (l ++ [10]) :: rawLines rest := by
  unfold rawLines
  rw [splitLines_line l rest h]
  rfl

theorem Join_splitLines (s : Str) : Join (splitLines s).1 ++ (splitLines s).2 = s := by
  induction s with
  | nil => rfl
  | cons b rest ih =>
    unfold splitLines
    by_cases hb : b = 10
    · simp only [hb, if_true]
      show 10 :: (Join (splitLines rest).1 ++ (splitLines rest).2) = 10 :: rest
      rw [ih]
    · simp only [hb, if_false]
      cases h1 : (splitLines rest).1 with
      | nil =>
        rw [h1] at ih
        simp only [Join, List.flatten_nil, List.nil_append] at ih ⊢
        rw [ih]
      | cons l ls =>
        rw [h1] at ih
        show b :: (Join (l :: ls) ++ (splitLines rest).2) = b :: rest
        rw [ih]

theorem Join_rawLines (s : Str) : Join (rawLines s) = s := by
  have h := Join_splitLines s
  unfold rawLines
  by_cases h2 : (splitLines s).2 = []
  · simp only [h2, if_true, List.append_nil] at h ⊢
    exact h
  · simp only [h2, if_false]
    unfold Join at h ⊢
    rw [List.flatten_append]
    simpa using h

theorem chomp_crlf (x : Str) : chomp (x ++ [13, 10]) = x := by
  unfold chomp HasSuffix
  simp [List.reverse_append, HasPrefix]

theorem chomp_nonterminated_crlf : chomp [13, 10] = [] := by decide

theorem fieldLine_eq (kv : Str × Str) :
    fieldLine kv = (kv.1 ++ 58 :: 32 :: kv.2) ++ [13, 10] := by
  unfold fieldLine
  have h1 : lit ": " = [58, 32] := by decide
  have h2 : lit "\r\n" = [13, 10] := by decide
  rw [h1, h2]
  simp

theorem fieldLine_eq_line (kv : Str × Str) :
    fieldLine kv = (kv.1 ++ 58 :: 32 :: kv.2 ++ [13]) ++ 10 :: [] := by
  rw [fieldLine_eq]
  simp

theorem rawLines_renderMessage (fields : List (Str × Str)) (body : Str)
    (hwf : ∀ kv ∈ fields, WellFormedField kv) :
    rawLines (renderMessage fields body) = fields.map fieldLine ++ [13, 10] :: rawLines body := by
  unfold renderMessage
  induction fields with
  | nil =>
    have h2 : lit "\r\n" = [13, 10] := by decide
    simp only [List.map_nil, Join, List.flatten_nil, List.nil_append, h2]
    exact rawLines_line [13] body (by decide)
  | cons kv rest ih =>
    have hkv := hwf kv (by simp)
    have hno : 10 ∉ kv.1 ++ 58 :: 32 :: kv.2 ++ [13] := by
      have h10 := hkv.2.1
      have h20 := hkv.2.2.2.2.2.1
      simp [h10, h20]
    have ih1 := ih (fun x hx => hwf x (by simp [hx]))
    simp only [List.map_cons, Join, List.flatten_cons] at ih1 ⊢
    rw [fieldLine_eq_line kv]
    simp only [List.append_assoc, List.cons_append, List.nil_append] at ih1 ⊢
    have := rawLines_line (kv.1 ++ 58 :: 32 :: (kv.2 ++ [13]))
      ((List.map fieldLine rest).flatten ++ (lit "\r\n" ++ body)) (by simpa using hno)
    simp only [List.append_assoc, List.cons_append, List.nil_append] at this
    rw [this, ih1]

theorem splitHeaderBlock_fields (fields : List (Str × Str)) (restLines : List Str)
    (hwf : ∀ kv ∈ fields, WellFormedField kv) :
    splitHeaderBlock (fields.map fieldLine ++ [13, 10] :: restLines)
      = (fields.map fieldLine, restLines, true) := by
  induction fields with
  | nil => simp [splitHeaderBlock, chomp_nonterminated_crlf]
  | cons kv rest ih =>
    have hkv := hwf kv (by simp)
    have hne : chomp (fieldLine kv) ≠ [] := by
      rw [fieldLine_eq, chomp_crlf]
      simp
    have ih1 := ih (fun x hx => hwf x (by simp [hx]))
    have e : (fieldLine kv :: rest.map fieldLine) ++ [13, 10] :: restLines
        = fieldLine kv :: (rest.map fieldLine ++ [13, 10] :: restLines) := rfl
    rw [List.map_cons, e, splitHeaderBlock, if_neg hne, ih1]

theorem TrimLeft_of_head (a : Nat) (t : Str) (h1 : a ≠ 32) (h2 : a ≠ 9) :
    TrimLeft (a :: t) [32, 9] = a :: t := by
  unfold TrimLeft
  simp [List.dropWhile, h1, h2]

theorem TrimRight_of_last (s : Str) (z : Nat) (h1 : z ≠ 32) (h2 : z ≠ 9) :
    TrimRight (s ++ [z]) [32, 9] = s ++ [z] := by
  unfold TrimRight
  simp [List.dropWhile, h1, h2]

theorem trim_chomp_fieldLine (kv : Str × Str) (hwf : WellFormedField kv) :
    trim (chomp (fieldLine kv)) = kv.1 ++ 58 :: (if kv.2 = [] then [] else 32 :: kv.2) := by
  obtain ⟨k, v⟩ := kv
  obtain ⟨hk, -, -, hk32, hk9, -, -, -, hv32, hv9⟩ := hwf
  rw [fieldLine_eq, chomp_crlf]
  simp only at hk hk32 hk9 hv32 hv9 ⊢
  cases k with
  | nil => exact absurd rfl hk
  | cons a t =>
    have ha32 : a ≠ 32 := fun e => hk32 (by simp [e])
    have ha9 : a ≠ 9 := fun e => hk9 (by simp [e])
    unfold trim
    rw [List.cons_append, TrimLeft_of_head a _ ha32 ha9]
    rcases List.eq_nil_or_concat v with hv | ⟨L, z, hv⟩
    · subst hv
      simp only [if_true]
      unfold TrimRight
      simp [List.dropWhile]
    · rw [List.concat_eq_append] at hv
      subst hv
      have hz32 : z ≠ 32 := fun e => hv32 (by simp [e])
      have hz9 : z ≠ 9 := fun e => hv9 (by simp [e])
      have hne : L ++ [z] ≠ [] := by simp
      simp only [hne, if_false]
      have e : a :: (t ++ 58 :: 32 :: (L ++ [z])) = (a :: (t ++ 58 :: 32 :: L)) ++ [z] := by simp
      rw [e, TrimRight_of_last _ z hz32 hz9]
      simp

theorem startsWithLWSP_fieldLine (kv : Str × Str) (hwf : WellFormedField kv) :
    startsWithLWSP (fieldLine kv) = false := by
  obtain ⟨k, v⟩ := kv
  obtain ⟨hk, -, -, hk32, hk9, -⟩ := hwf
  rw [fieldLine_eq]
  simp only at hk hk32 hk9 ⊢
  cases k with
  | nil => exact absurd rfl hk
  | cons a t =>
    have ha32 : a ≠ 32 := fun e => hk32 (by simp [e])
    have ha9 : a ≠ 9 := fun e => hk9 (by simp [e])
    simp [startsWithLWSP, HasPrefix, ha32, ha9]

theorem continuedLines_fields (fields : List (Str × Str))
    (hwf : ∀ kv ∈ fields, WellFormedField kv) :
    (∀ cur, continuedLines (fields.map fieldLine) (some cur)
        = cur :: fields.map (fun kv => kv.1 ++ 58 :: (if kv.2 = [] then [] else 32 :: kv.2))) ∧
    continuedLines (fields.map fieldLine) none
        = fields.map (fun kv => kv.1 ++ 58 :: (if kv.2 = [] then [] else 32 :: kv.2)) := by
  induction fields with
  | nil => exact ⟨fun cur => rfl, rfl⟩
  | cons kv rest ih =>
    have hkv := hwf kv (by simp)
    have ih1 := ih (fun x hx => hwf x (by simp [hx]))
    constructor
    · intro cur
      rw [List.map_cons, continuedLines, startsWithLWSP_fieldLine kv hkv]
      simp only [Bool.false_eq_true, if_false, trim_chomp_fieldLine kv hkv, ih1.1, List.map_cons]
    · rw [List.map_cons, continuedLines, trim_chomp_fieldLine kv hkv, ih1.1, List.map_cons]

theorem Index_colon (k rest : Str) (h : 58 ∉ k) : Index (k ++ 58 :: rest) [58] = k.length := by
  induction k with
  | nil => simp [Index, HasPrefix]
  | cons a t ih =>
    have ha : a ≠ 58 := fun e => h (by simp [e])
    have ht : 58 ∉ t := fun m => h (by simp [m])
    have ih1 := ih ht
    rw [List.cons_append, Index]
    simp only [HasPrefix, beq_iff_eq, ha, Bool.false_and, Bool.false_eq_true, if_false, ih1]
    have : ¬ ((t.length : Int) < 0) := by omega
    simp [this, ha]

theorem Cut_colon (k rest : Str) (h : 58 ∉ k) : Cut (k ++ 58 :: rest) [58] = some (k, rest) := by
  unfold Cut
  rw [Index_colon k rest h]
  simp

theorem CanonicalMIMEHeaderKey_ne_nil (k : Str) (h : k ≠ []) : CanonicalMIMEHeaderKey k ≠ [] := by
  unfold CanonicalMIMEHeaderKey
  split
  · cases k with
    | nil => exact absurd rfl h
    | cons a t => simp [canonCase]
  · exact h

theorem TrimLeft_value (v : Str) (h32 : v.head? ≠ some 32) (h9 : v.head? ≠ some 9) :
    TrimLeft (if v = [] then [] else 32 :: v) [32, 9] = v := by
  cases v with
  | nil => rfl
  | cons a t =>
    have ha32 : a ≠ 32 := fun e => h32 (by simp [e])
    have ha9 : a ≠ 9 := fun e => h9 (by simp [e])
    unfold TrimLeft
    simp [List.dropWhile, ha32, ha9]

theorem mailFields_fields (fields : List (Str × Str))
    (hwf : ∀ kv ∈ fields, WellFormedField kv) :
    mailFields (fields.map (fun kv => kv.1 ++ 58 :: (if kv.2 = [] then [] else 32 :: kv.2)))
      = some (storedFields fields) := by
  induction fields with
  | nil => rfl
  | cons kv rest ih =>
    have hkv := hwf kv (by simp)
    have ih1 := ih (fun x hx => hwf x (by simp [hx]))
    obtain ⟨hk, -, hcolon, -, -, -, hv32, hv9, -⟩ := hkv
    rw [List.map_cons, mailFields, Cut_colon kv.1 _ hcolon]
    simp only [ih1, CanonicalMIMEHeaderKey_ne_nil kv.1 hk, if_false, TrimLeft_value kv.2 hv32 hv9]
    rfl

theorem startsWithLWSP_renderMessage (fields : List (Str × Str)) (body : Str)
    (hwf : ∀ kv ∈ fields, WellFormedField kv) :
    startsWithLWSP (renderMessage fields body) = false := by
  cases fields with
  | nil => rfl
  | cons kv rest =>
    have hkv := hwf kv (by simp)
    have h := startsWithLWSP_fieldLine kv hkv
    obtain ⟨hk, -⟩ := hkv
    unfold renderMessage
    rw [List.map_cons, Join, List.flatten_cons]
    rw [fieldLine_eq] at h ⊢
    cases hk1 : kv.1 with
    | nil => exact absurd hk1 hk
    | cons a t =>
      rw [hk1] at h
      simpa [startsWithLWSP, HasPrefix] using h

/-- Framing of a message written field by field: `mail.ReadMessage` finds the fields, in
order and under canonical keys, and the text after the blank line as the body. -/
theorem ReadMessage_renderMessage (fields : List (Str × Str)) (body : Str)
    (hwf : ∀ kv ∈ fields, WellFormedField kv) :
    ReadMessage (renderMessage fields body) = some (storedFields fields, body) := by
  unfold ReadMessage
  rw [startsWithLWSP_renderMessage fields body hwf, rawLines_renderMessage fields body hwf,
    splitHeaderBlock_fields fields _ hwf]
  simp only [Bool.false_eq_true, if_false, (continuedLines_fields fields hwf).2,
    mailFields_fields fields hwf, Join_rawLines]
  simp

theorem ToLower_nil (T : CaseTables) : ToLower T [] = [] := rfl

theorem ParseMediaType_nil (T : CaseTables) : ParseMediaType T [] = none := rfl

theorem withNewline_renderMessage (fields : List (Str × Str)) (B : Str) :
    withNewline (renderMessage fields B)
      = renderMessage fields (if HasSuffix (renderMessage fields B) [10] then B else B ++ [10]) := by
  unfold withNewline
  by_cases h : HasSuffix (renderMessage fields B) [10] = true
  · simp [h]
  · simp only [h, Bool.not_eq_true] at *
    simp [h, renderMessage]

/-- C6, as stated, fails: the message of the repository's test does not end with a
line feed, and the body returned is `This is the body.` followed by a line feed. -/
theorem plain_body_gains_newline :
    plainMessage
        = renderMessage
            [(lit "From", lit "test@example.com"), (lit "To", lit "you@example.com"),
              (lit "Subject", lit "Hello")]
            (lit "This is the body.") ∧
    parseSubjectBodyAndAttachments asciiCase 0 plainMessage
      = some (Except.ok ⟨lit "Hello", lit "This is the body.\n", false, []⟩) := by
  set_option maxRecDepth 100000 in decide

/-- C6, amended. A message written as well-formed header fields, a blank line and the
body text `B`, without a Content-Type or Content-Transfer-Encoding value and with a
Subject that holds no encoded-word marker `=?`, decodes successfully: the subject is the
Subject value, `isHTML` is false, there are no attachments, and the body is `B` when the
input ends with a line feed and `B` followed by one line feed otherwise. -/
theorem plain_message_decodes (T : CaseTables) (fuel : Nat) (fields : List (Str × Str))
    (B : Str)
    (hwf : ∀ kv ∈ fields, WellFormedField kv)
    (hct : (storedFields fields).Get (lit "Content-Type") = [])
    (hcte : (storedFields fields).Get (lit "Content-Transfer-Encoding") = [])
    (hS : Index ((storedFields fields).Get (lit "Subject")) (lit "=?") < 0) :
    parseSubjectBodyAndAttachments T fuel (renderMessage fields B)
      = some (Except.ok
          ⟨(storedFields fields).Get (lit "Subject"),
            if HasSuffix (renderMessage fields B) [10] then B else B ++ [10],
            false, []⟩) := by
  unfold parseSubjectBodyAndAttachments
  rw [withNewline_renderMessage, ReadMessage_renderMessage fields _ hwf]
  have hmp : multipartBoundary T (storedFields fields) = none := by
    unfold multipartBoundary
    rw [hct, ParseMediaType_nil]
  have hsub : subjectOf (storedFields fields) = (storedFields fields).Get (lit "Subject") := by
    unfold subjectOf DecodeHeader
    simp only [hS, if_true]
  have hdec : ∀ b : Str, decodeMessage [] (NewReader b) = some b := by
    intro b
    unfold decodeMessage NewReader
    have h1 : ([] : Str) ≠ lit "base64" := by decide
    have h2 : ([] : Str) ≠ lit "quoted-printable" := by decide
    simp [h1, h2]
  simp only [hmp, parseSingle, hcte, hct, ToLower_nil, hdec, hsub]
  rfl

/-- C6, amended, at the message of the repository's test and at the same message with a
final line feed. -/
theorem plain_message_decodes_witness :
    parseSubjectBodyAndAttachments asciiCase 0
        (renderMessage
          [(lit "From", lit "test@example.com"), (lit "To", lit "you@example.com"),
            (lit "Subject", lit "Hello")]
          (lit "This is the body."))
      = some (Except.ok ⟨lit "Hello", lit "This is the body.\n", false, []⟩) ∧
    parseSubjectBodyAndAttachments asciiCase 0
        (renderMessage
          [(lit "From", lit "test@example.com"), (lit "To", lit "you@example.com"),
            (lit "Subject", lit "Hello")]
          (lit "This is the body.\n"))
      = some (Except.ok ⟨lit "Hello", lit "This is the body.\n", false, []⟩) :=
  ⟨plain_message_decodes asciiCase 0
      [(lit "From", lit "test@example.com"), (lit "To", lit "you@example.com"),
        (lit "Subject", lit "Hello")]
      (lit "This is the body.") (by decide) (by decide) (by decide) (by decide),
    plain_message_decodes asciiCase 0
      [(lit "From", lit "test@example.com"), (lit "To", lit "you@example.com"),
        (lit "Subject", lit "Hello")]
      (lit "This is the body.\n") (by decide) (by decide) (by decide) (by decide)⟩

/-! ### Subject -/

theorem encChar_ne_qmark : ∀ i, i < 64 → encChar i ≠ 63 := by decide

theorem EncodeToString_no_qmark (C : Str) (h : IsBytes C) : 63 ∉ EncodeToString C := by
  induction C using EncodeToString.induct with
  | case1 a b c rest ih =>
    have ha : a < 256 := h a (by simp)
    have hb : b < 256 := h b (by simp)
    have hc : c < 256 := h c (by simp)
    have ih1 := ih (fun x hx => h x (by simp [hx]))
    have h1 := encChar_ne_qmark (a / 4) (by omega)
    have h2 := encChar_ne_qmark (a % 4 * 16 + b / 16) (by omega)
    have h3 := encChar_ne_qmark (b % 16 * 4 + c / 64) (by omega)
    have h4 := encChar_ne_qmark (c % 64) (by omega)
    simp only [EncodeToString, List.mem_cons, not_or]
    exact ⟨fun e => h1 e.symm, fun e => h2 e.symm, fun e => h3 e.symm, fun e => h4 e.symm, ih1⟩
  | case2 a b =>
    have ha : a < 256 := h a (by simp)
    have hb : b < 256 := h b (by simp)
    have h1 := encChar_ne_qmark (a / 4) (by omega)
    have h2 := encChar_ne_qmark (a % 4 * 16 + b / 16) (by omega)
    have h3 := encChar_ne_qmark (b % 16 * 4) (by omega)
    simp only [EncodeToString, List.mem_cons, not_or, List.not_mem_nil, not_false_eq_true,
      and_true]
    exact ⟨fun e => h1 e.symm, fun e => h2 e.symm, fun e => h3 e.symm, by decide⟩
  | case3 a =>
    have ha : a < 256 := h a (by simp)
    have h1 := encChar_ne_qmark (a / 4) (by omega)
    have h2 := encChar_ne_qmark (a % 4 * 16) (by omega)
    simp only [EncodeToString, List.mem_cons, not_or, List.not_mem_nil, not_false_eq_true,
      and_true]
    exact ⟨fun e => h1 e.symm, fun e => h2 e.symm, by decide, by decide⟩
  | case4 => simp [EncodeToString]

theorem Index_closing (E : Str) (h : 63 ∉ E) : Index (E ++ [63, 61]) [63, 61] = E.length := by
  induction E with
  | nil => simp [Index, HasPrefix]
  | cons a t ih =>
    have ha : a ≠ 63 := fun e => h (by simp [e])
    have ht : 63 ∉ t := fun m => h (by simp [m])
    have ih1 := ih ht
    rw [List.cons_append, Index]
    simp only [HasPrefix, beq_iff_eq, ha, Bool.false_and, Bool.false_eq_true, if_false, ih1]
    have : ¬ ((t.length : Int) < 0) := by omega
    simp [this, ha]

theorem decodeHeaderLoop_nil (n : Nat) (between : Bool) (buf : Str) :
    decodeHeaderLoop n [] between buf = some buf := by
  cases n with
  | zero => simp [decodeHeaderLoop]
  | succ m =>
    have h : findWord [] = none := by decide
    simp [decodeHeaderLoop, h]

theorem findWord_B_word (E : Str) (hj : Index (E ++ [63, 61]) [63, 61] = E.length) :
    findWord (61 :: 63 :: 85 :: 84 :: 70 :: 45 :: 56 :: 63 :: 66 :: 63 :: (E ++ [63, 61]))
      = some (0, [85, 84, 70, 45, 56], 66, E, E.length + 12) := by
  have l2 : lit "?=" = [63, 61] := by decide
  have l3 : lit "=?" = [61, 63] := by decide
  have l4 : lit "?" = [63] := by decide
  have hi : Index (61 :: 63 :: 85 :: 84 :: 70 :: 45 :: 56 :: 63 :: 66 :: 63 :: (E ++ [63, 61]))
      [61, 63] = 0 := by
    simp [Index, HasPrefix]
  have hq : Index (85 :: 84 :: 70 :: 45 :: 56 :: 63 :: 66 :: 63 :: (E ++ [63, 61])) [63] = 5 := by
    simp [Index, HasPrefix]
  unfold findWord
  rw [l2, l3, l4, hi]
  simp only [lt_self_iff_false, if_false, Int.toNat_zero, Nat.zero_add, List.drop_succ_cons,
    List.drop_zero, hq]
  have e5 : (5 : Int).toNat = 5 := rfl
  simp only [e5, Nat.reduceAdd, List.drop_succ_cons, List.drop_zero, hj]
  simp only [slice, Int.toNat_ofNat, not_lt_zero', Int.natCast_nonneg, not_lt.mpr, if_false]
  have ht : List.take (10 + E.length)
      (61 :: 63 :: 85 :: 84 :: 70 :: 45 :: 56 :: 63 :: 66 :: 63 :: (E ++ [63, 61]))
        = 61 :: 63 :: 85 :: 84 :: 70 :: 45 :: 56 :: 63 :: 66 :: 63 :: E := by
    have e : 10 + E.length = E.length + 1 + 1 + 1 + 1 + 1 + 1 + 1 + 1 + 1 + 1 := by omega
    rw [e]
    simp only [List.take_succ_cons]
    simp
  simp [ht]
  omega

theorem DecodeHeader_B_word (C : Str) (hC : IsBytes C) :
    DecodeHeader (lit "=?UTF-8?B?" ++ EncodeToString C ++ lit "?=") = some C := by
  have hdec : DecodeString (EncodeToString C) = some C := by
    unfold DecodeString
    rw [stripNewlines_EncodeToString C hC, decodeQuanta_EncodeToString C hC]
  have hj := Index_closing (EncodeToString C) (EncodeToString_no_qmark C hC)
  generalize EncodeToString C = E at hdec hj
  have l1 : lit "=?UTF-8?B?" = [61, 63, 85, 84, 70, 45, 56, 63, 66, 63] := by decide
  have l2 : lit "?=" = [63, 61] := by decide
  have l3 : lit "=?" = [61, 63] := by decide
  have hconv : convert [85, 84, 70, 45, 56] C = some C := by
    have : EqualFoldAscii (lit "utf-8") [85, 84, 70, 45, 56] = true := by decide
    simp [convert, this]
  have hw : decodeWord 66 E = some C := by
    simp [decodeWord, hdec]
  unfold DecodeHeader
  rw [l1, l2, l3]
  simp only [List.cons_append, List.nil_append, List.append_assoc]
  have hi : Index (61 :: 63 :: 85 :: 84 :: 70 :: 45 :: 56 :: 63 :: 66 :: 63 :: (E ++ [63, 61]))
      [61, 63] = 0 := by
    simp [Index, HasPrefix]
  rw [hi]
  simp only [lt_self_iff_false, if_false, Int.toNat_zero, List.drop_zero, List.take_zero,
    List.length_cons]
  rw [decodeHeaderLoop, findWord_B_word E hj]
  simp only [hw, hconv]
  have hdrop : List.drop (E.length + 12)
      (61 :: 63 :: 85 :: 84 :: 70 :: 45 :: 56 :: 63 :: 66 :: 63 :: (E ++ [63, 61])) = [] := by
    apply List.drop_eq_nil_of_le
    simp
  rw [hdrop, decodeHeaderLoop_nil]
  simp

/-- C8, as stated, fails: the framing of this message parses and its Subject is `Hello`,
but its base64 body does not decode, and the function returns the empty subject beside
the error. -/
theorem subject_empty_when_body_undecodable :
    (framing undecodableBodyMessage).1.Get (lit "Subject") = lit "Hello" ∧
    parseSubjectBodyAndAttachments asciiCase 0 undecodableBodyMessage
      = some (Except.error ParseError.decodeBodyFailed) ∧
    (returnValues (Except.error ParseError.decodeBodyFailed)).subject = [] := by
  set_option maxRecDepth 100000 in decide

/-- C8, amended. When the framing of a message parses: a successful decode returns as
subject the Subject field with its encoded words decoded by `DecodeHeader`, or the raw
field when `DecodeHeader` fails; the Subject never makes the decode fail, the only error
being a non-multipart body that does not decode. For every byte string `C` the encoded
word `=?UTF-8?B?`, base64 of `C`, `?=` decodes to `C`. -/
theorem subject_decoded_or_raw (T : CaseTables) (fuel : Nat) (msg : Str) (h : MIMEHeader)
    (body : Str) (hread : ReadMessage (withNewline msg) = some (h, body)) :
    (∀ r, parseSubjectBodyAndAttachments T fuel msg = some (Except.ok r) →
      r.subject = (DecodeHeader (h.Get (lit "Subject"))).getD (h.Get (lit "Subject"))) ∧
    (∀ e, parseSubjectBodyAndAttachments T fuel msg = some (Except.error e) →
      e = ParseError.decodeBodyFailed ∧ multipartBoundary T h = none ∧
      decodeMessage (ToLower T (h.Get (lit "Content-Transfer-Encoding"))) (NewReader body)
        = none) ∧
    (∀ C, IsBytes C →
      DecodeHeader (lit "=?UTF-8?B?" ++ EncodeToString C ++ lit "?=") = some C) := by
  have hsub : subjectOf h = (DecodeHeader (h.Get (lit "Subject"))).getD (h.Get (lit "Subject")) := by
    unfold subjectOf
    cases DecodeHeader (h.Get (lit "Subject")) <;> rfl
  refine ⟨?_, ?_, DecodeHeader_B_word⟩
  · intro r hok
    unfold parseSubjectBodyAndAttachments at hok
    simp only [hread] at hok
    cases hmp : multipartBoundary T h with
    | some boundary =>
      simp only [hmp] at hok
      cases hl : partLoop T fuel (MultipartReader.NewReader body boundary)
          ⟨[], Contains (ToLower T (h.Get (lit "Content-Type"))) (lit "html"), []⟩ with
      | none => simp [hl] at hok
      | some acc =>
        simp only [hl, Option.map_some', Option.some.injEq, Except.ok.injEq] at hok
        rw [← hok]
        exact hsub
    | none =>
      simp only [hmp, parseSingle] at hok
      cases hdec : decodeMessage (ToLower T (h.Get (lit "Content-Transfer-Encoding")))
          (NewReader body) with
      | none => simp [hdec] at hok
      | some d =>
        simp only [hdec, Option.some.injEq, Except.ok.injEq] at hok
        rw [← hok]
        exact hsub
  · intro e herr
    unfold parseSubjectBodyAndAttachments at herr
    simp only [hread] at herr
    cases hmp : multipartBoundary T h with
    | some boundary =>
      simp only [hmp] at herr
      cases hl : partLoop T fuel (MultipartReader.NewReader body boundary)
          ⟨[], Contains (ToLower T (h.Get (lit "Content-Type"))) (lit "html"), []⟩ with
      | none => simp [hl] at herr
      | some acc => simp [hl] at herr
    | none =>
      simp only [hmp, parseSingle] at herr
      cases hdec : decodeMessage (ToLower T (h.Get (lit "Content-Transfer-Encoding")))
          (NewReader body) with
      | none =>
        simp only [hdec, Option.some.injEq, Except.error.injEq] at herr
        exact ⟨herr.symm, rfl, rfl⟩
      | some d => simp [hdec] at herr

/-- C8, amended, at the message of the repository's test: the subject
`=?UTF-8?B?SGVsbG8g8J+agA==?=` is returned as `Hello ` followed by U+1F680. -/
theorem subject_decoded_or_raw_witness :
    ∃ r, parseSubjectBodyAndAttachments asciiCase 0 encodedSubjectMessage = some (Except.ok r) ∧
      r.subject = lit "Hello 🚀" := by
  have hv : parseSubjectBodyAndAttachments asciiCase 0 encodedSubjectMessage
      = some (Except.ok ⟨lit "Hello 🚀", lit "Body\n", false, []⟩) := by
    set_option maxRecDepth 100000 in decide
  refine ⟨_, hv, ?_⟩
  exact ((subject_decoded_or_raw asciiCase 0 encodedSubjectMessage
    (framing encodedSubjectMessage).1 (framing encodedSubjectMessage).2
    (by set_option maxRecDepth 100000 in decide)).1 _ hv).trans
    (by set_option maxRecDepth 100000 in decide)

/-! ### Byte strings stay byte strings -/

theorem IsBytes_of_subset (s t : Str) (hs : IsBytes s) (h : ∀ b ∈ t, b ∈ s) : IsBytes t :=
  fun b hb => hs b (h b hb)

theorem IsBytes_append (s t : Str) (hs : IsBytes s) (ht : IsBytes t) : IsBytes (s ++ t) := by
  intro b hb
  rcases List.mem_append.mp hb with h | h
  · exact hs b h
  · exact ht b h

theorem mem_of_mem_rawLines (s l : Str) (hl : l ∈ rawLines s) : ∀ b ∈ l, b ∈ s := by
  intro b hb
  have h : b ∈ Join (rawLines s) := List.mem_flatten.mpr ⟨l, hl, hb⟩
  rwa [Join_rawLines] at h

theorem IsBytes_Join (ls : List Str) (h : ∀ l ∈ ls, IsBytes l) : IsBytes (Join ls) := by
  intro b hb
  obtain ⟨l, hl, hbl⟩ := List.mem_flatten.mp hb
  exact h l hl b hbl

theorem IsBytes_rawLines (s : Str) (hs : IsBytes s) : ∀ l ∈ rawLines s, IsBytes l :=
  fun l hl => IsBytes_of_subset s l hs (mem_of_mem_rawLines s l hl)

theorem splitHeaderBlock_rest (ls : List Str) : ∀ l ∈ (splitHeaderBlock ls).2.1, l ∈ ls := by
  induction ls with
  | nil => intro l hl; simp [splitHeaderBlock] at hl
  | cons a t ih =>
    intro l hl
    unfold splitHeaderBlock at hl
    by_cases hc : chomp a = []
    · simp only [hc, if_true] at hl
      exact List.mem_cons_of_mem _ hl
    · simp only [hc, if_false] at hl
      exact List.mem_cons_of_mem _ (ih l hl)

theorem IsBytes_ReadMessage (s : Str) (h : MIMEHeader) (body : Str) (hs : IsBytes s)
    (hread : ReadMessage s = some (h, body)) : IsBytes body := by
  unfold ReadMessage at hread
  by_cases h1 : startsWithLWSP s = true
  · simp [h1] at hread
  · simp only [h1, if_false] at hread
    cases hm : mailFields (continuedLines (splitHeaderBlock (rawLines s)).1 none) with
    | none => simp [hm] at hread
    | some m =>
      simp only [hm, Bool.false_eq_true, if_false] at hread
      split at hread
      · exact absurd hread (by simp)
      · simp only [Option.some.injEq, Prod.mk.injEq] at hread
        rw [← hread.2]
        exact IsBytes_Join _ (fun l hl =>
          IsBytes_rawLines s hs l (splitHeaderBlock_rest _ l hl))

theorem IsBytes_withNewline (msg : Str) (h : IsBytes msg) : IsBytes (withNewline msg) := by
  unfold withNewline
  split
  · exact IsBytes_append _ _ h (by decide)
  · exact h

theorem scanBody_subset (nlDash : Str) (s : Str) :
    ∀ skip, (∀ b ∈ (scanBody nlDash s skip).1, b ∈ s) ∧
      (∀ b ∈ (scanBody nlDash s skip).2.1, b ∈ s) := by
  induction s with
  | nil => intro skip; simp [scanBody]
  | cons a t ih =>
    intro skip
    cases skip with
    | succ k =>
      rw [scanBody]
      constructor
      · intro b hb
        rcases List.mem_cons.mp hb with h | h
        · simp [h]
        · exact List.mem_cons_of_mem _ ((ih k).1 b h)
      · intro b hb
        exact List.mem_cons_of_mem _ ((ih k).2 b hb)
    | zero =>
      rw [scanBody]
      split
      · split
        · exact ⟨fun b hb => absurd hb (List.not_mem_nil b), fun b hb => hb⟩
        · constructor
          · intro b hb
            rcases List.mem_cons.mp hb with h | h
            · simp [h]
            · exact List.mem_cons_of_mem _ ((ih _).1 b h)
          · intro b hb
            exact List.mem_cons_of_mem _ ((ih _).2 b hb)
      · constructor
        · intro b hb
          rcases List.mem_cons.mp hb with h | h
          · simp [h]
          · exact List.mem_cons_of_mem _ ((ih _).1 b h)
        · intro b hb
          exact List.mem_cons_of_mem _ ((ih _).2 b hb)

theorem readMIMEHeaderAux_rest (ls : List Str) :
    ∀ cur acc, ∀ l ∈ (readMIMEHeaderAux ls cur acc).2, l ∈ ls := by
  induction ls with
  | nil =>
    intro cur acc l hl
    cases cur with
    | none => simp [readMIMEHeaderAux] at hl
    | some c =>
      unfold readMIMEHeaderAux at hl
      split at hl <;> simp at hl
  | cons a t ih =>
    intro cur acc l hl
    cases cur with
    | none =>
      rw [readMIMEHeaderAux] at hl
      split at hl
      · exact List.mem_cons_of_mem _ hl
      · split at hl
        · exact List.mem_cons_of_mem _ hl
        · exact List.mem_cons_of_mem _ (ih _ _ l hl)
    | some c =>
      rw [readMIMEHeaderAux] at hl
      split at hl
      · exact List.mem_cons_of_mem _ (ih _ _ l hl)
      · split at hl
        · exact hl
        · split at hl
          · exact List.mem_cons_of_mem _ hl
          · split at hl
            · exact List.mem_cons_of_mem _ hl
            · exact List.mem_cons_of_mem _ (ih _ _ l hl)

theorem readMIMEHeader_rest (ls : List Str) : ∀ l ∈ (readMIMEHeader ls).2, l ∈ ls := by
  intro l hl
  unfold readMIMEHeader at hl
  cases ls with
  | nil => simp at hl
  | cons a t =>
    simp only at hl
    split at hl
    · exact List.mem_cons_of_mem _ hl
    · exact readMIMEHeaderAux_rest _ _ _ l hl

theorem fromHex_lt (b x : Nat) (h : fromHex b = some x) : x < 16 := by
  unfold fromHex at h
  split at h
  · simp at h; omega
  · split at h
    · simp at h; omega
    · split at h
      · simp at h; omega
      · simp at h

theorem IsBytes_cons (b : Nat) (t : Str) : IsBytes (b :: t) ↔ b < 256 ∧ IsBytes t := by
  unfold IsBytes
  simp

theorem IsBytes_map_cons (o : Option Str) (b : Nat) (d : Str) (hb : b < 256)
    (ih : ∀ t, o = some t → IsBytes t) (h : o.map (fun t => b :: t) = some d) : IsBytes d := by
  cases o with
  | none => simp at h
  | some t =>
    simp only [Option.map_some', Option.some.injEq] at h
    rw [← h]
    exact (IsBytes_cons b t).2 ⟨hb, ih t rfl⟩

theorem IsBytes_qpLineBytes : ∀ (n : Nat) (s d : Str), s.length ≤ n → IsBytes s →
    qpLineBytes s = some d → IsBytes d := by
  intro n
  induction n with
  | zero =>
    intro s d hn _ h
    have : s = [] := List.length_eq_zero.mp (by omega)
    subst this
    simp [qpLineBytes] at h
    subst h
    exact fun b hb => absurd hb (List.not_mem_nil b)
  | succ n ih =>
    intro s d hn hs h
    match s, hn, hs, h with
    | [], _, _, h =>
      simp [qpLineBytes] at h
      subst h
      exact fun b hb => absurd hb (List.not_mem_nil b)
    | [b], _, hs, h =>
      have hb : b < 256 := hs b (by simp)
      rw [qpLineBytes] at h
      · by_cases e : b = 61
        · simp [e] at h
        · simp only [e, if_false] at h
          split at h
          · exact IsBytes_map_cons _ _ _ hb (fun t ht => ih [] t (by simp) (by decide) ht) h
          · split at h
            · simp at h
            · exact IsBytes_map_cons _ _ _ hb (fun t ht => ih [] t (by simp) (by decide) ht) h
    | [b, c], hn, hs, h =>
      have hb : b < 256 := hs b (by simp)
      have hc : IsBytes [c] := fun x hx => hs x (by simp at hx; simp [hx])
      have hl : [c].length ≤ n := by simp at hn ⊢; omega
      rw [qpLineBytes] at h
      · by_cases e : b = 61
        · simp only [e, if_true] at h
          split at h
          · exact IsBytes_map_cons _ _ _ (by omega) (fun t ht => ih [c] t hl hc ht) h
          · simp at h
        · simp only [e, if_false] at h
          split at h
          · exact IsBytes_map_cons _ _ _ hb (fun t ht => ih [c] t hl hc ht) h
          · split at h
            · simp at h
            · exact IsBytes_map_cons _ _ _ hb (fun t ht => ih [c] t hl hc ht) h
      · intro h1 h2 r e; simp at e
    | b :: h1 :: h2 :: rest2, hn, hs, h =>
      have hb : b < 256 := hs b (by simp)
      have hr : IsBytes (h1 :: h2 :: rest2) := fun x hx => hs x (List.mem_cons_of_mem _ hx)
      have hr2 : IsBytes rest2 := fun x hx => hs x (by simp [hx])
      have hl : (h1 :: h2 :: rest2).length ≤ n := by simp at hn ⊢; omega
      have hl2 : rest2.length ≤ n := by simp at hn ⊢; omega
      rw [qpLineBytes] at h
      by_cases e : b = 61
      · simp only [e, if_true] at h
        cases hx : fromHex h1 with
        | none =>
          simp only [hx] at h
          split at h
          · exact IsBytes_map_cons _ _ _ (by omega) (fun t ht => ih _ t hl hr ht) h
          · simp at h
        | some x =>
          cases hy : fromHex h2 with
          | none =>
            simp only [hx, hy] at h
            split at h
            · exact IsBytes_map_cons _ _ _ (by omega) (fun t ht => ih _ t hl hr ht) h
            · simp at h
          | some y =>
            simp only [hx, hy] at h
            have := fromHex_lt _ _ hx
            have := fromHex_lt _ _ hy
            exact IsBytes_map_cons _ _ _ (by omega) (fun t ht => ih _ t hl2 hr2 ht) h
      · simp only [e, if_false] at h
        split at h
        · exact IsBytes_map_cons _ _ _ hb (fun t ht => ih _ t hl hr ht) h
        · split at h
          · simp at h
          · exact IsBytes_map_cons _ _ _ hb (fun t ht => ih _ t hl hr ht) h

theorem mem_of_mem_TrimRight (s c : Str) : ∀ b ∈ TrimRight s c, b ∈ s := by
  intro b hb
  unfold TrimRight at hb
  have h1 : b ∈ s.reverse.dropWhile (fun b => c.contains b) := List.mem_reverse.mp hb
  exact List.mem_reverse.mp ((List.dropWhile_sublist _).subset h1)

theorem IsBytes_qpLine (whole : Str) (atEOF : Bool) (d : Str) (hs : IsBytes whole)
    (h : qpLine whole atEOF = some d) : IsBytes d := by
  have hline : IsBytes (TrimRight whole [10, 13, 32, 9]) :=
    IsBytes_of_subset whole _ hs (mem_of_mem_TrimRight whole _)
  unfold qpLine at h
  simp only at h
  split at h
  · split at h
    · simp at h
    · refine IsBytes_qpLineBytes _ _ d (le_refl _) ?_ h
      exact IsBytes_of_subset _ _ hline (fun b hb => List.mem_of_mem_dropLast hb)
  · split at h
    · split at h
      · exact IsBytes_qpLineBytes _ _ d (le_refl _) (IsBytes_append _ _ hline (by decide)) h
      · exact IsBytes_qpLineBytes _ _ d (le_refl _) (IsBytes_append _ _ hline (by decide)) h
    · exact IsBytes_qpLineBytes _ _ d (le_refl _) hline h

theorem IsBytes_qpLines (ls : List Str) : ∀ d, (∀ l ∈ ls, IsBytes l) → qpLines ls = some d →
    IsBytes d := by
  induction ls with
  | nil =>
    intro d _ h
    simp [qpLines] at h
    subst h
    exact fun b hb => absurd hb (List.not_mem_nil b)
  | cons l t ih =>
    intro d hs h
    rw [qpLines] at h
    cases h1 : qpLine l false with
    | none => simp [h1] at h
    | some a =>
      cases h2 : qpLines t with
      | none => simp [h1, h2] at h
      | some b =>
        simp only [h1, h2, Option.some.injEq] at h
        rw [← h]
        exact IsBytes_append _ _ (IsBytes_qpLine l false a (hs l (by simp)) h1)
          (ih b (fun x hx => hs x (by simp [hx])) h2)

theorem IsBytes_qpDecode (s d : Str) (hs : IsBytes s) (h : qpDecode s = some d) : IsBytes d := by
  unfold qpDecode at h
  simp only at h
  have hl : ∀ l ∈ (splitLines s).1, IsBytes l := by
    intro l hl
    exact IsBytes_rawLines s hs l (by unfold rawLines; exact List.mem_append_left _ hl)
  have hr : IsBytes (splitLines s).2 := by
    by_cases e : (splitLines s).2 = []
    · rw [e]; decide
    · exact IsBytes_rawLines s hs _ (by unfold rawLines; simp [e])
  cases h1 : qpLines (splitLines s).1 with
  | none => simp [h1] at h
  | some a =>
    cases h2 : qpLine (splitLines s).2 true with
    | none => simp [h1, h2] at h
    | some b =>
      simp only [h1, h2, Option.some.injEq] at h
      rw [← h]
      exact IsBytes_append _ _ (IsBytes_qpLines _ a hl h1) (IsBytes_qpLine _ true b hr h2)

theorem decChar_lt (c x : Nat) (h : decChar c = some x) : x < 64 := by
  unfold decChar at h
  split at h
  · rename_i hc
    simp only [Option.some.injEq] at h
    rw [← h]
    have hm : c ∈ encodeStd := by simpa using hc
    have := List.indexOf_lt_length.mpr hm
    have hlen : encodeStd.length = 64 := by decide
    omega
  · simp at h

theorem IsBytes_decodeQuanta : ∀ (n : Nat) (s d : Str), s.length ≤ n →
    decodeQuanta s = some d → IsBytes d := by
  intro n
  induction n with
  | zero =>
    intro s d hn h
    have : s = [] := List.length_eq_zero.mp (by omega)
    subst this
    simp [decodeQuanta] at h
    subst h
    exact fun b hb => absurd hb (List.not_mem_nil b)
  | succ n ih =>
    intro s d hn h
    match s, hn, h with
    | [], _, h =>
      simp [decodeQuanta] at h
      subst h
      exact fun b hb => absurd hb (List.not_mem_nil b)
    | [_], _, h => simp [decodeQuanta] at h
    | [_, _], _, h => simp [decodeQuanta] at h
    | [_, _, _], _, h => simp [decodeQuanta] at h
    | a :: b :: c :: e :: rest, hn, h =>
      have hl : rest.length ≤ n := by simp at hn ⊢; omega
      rw [decodeQuanta] at h
      cases hx : decChar a with
      | none => simp [hx] at h
      | some x =>
        cases hy : decChar b with
        | none => simp [hx, hy] at h
        | some y =>
          have hx6 := decChar_lt _ _ hx
          have hy6 := decChar_lt _ _ hy
          simp only [hx, hy] at h
          split at h
          · split at h
            · simp only [Option.some.injEq] at h
              rw [← h]
              exact (IsBytes_cons _ _).2 ⟨by omega, by decide⟩
            · simp at h
          · cases hz : decChar c with
            | none => simp [hz] at h
            | some z =>
              have hz6 := decChar_lt _ _ hz
              simp only [hz] at h
              split at h
              · split at h
                · simp only [Option.some.injEq] at h
                  rw [← h]
                  exact (IsBytes_cons _ _).2 ⟨by omega, (IsBytes_cons _ _).2 ⟨by omega, by decide⟩⟩
                · simp at h
              · cases hw : decChar e with
                | none => simp [hw] at h
                | some w =>
                  have hw6 := decChar_lt _ _ hw
                  simp only [hw] at h
                  cases hr : decodeQuanta rest with
                  | none => simp [hr] at h
                  | some t =>
                    simp only [hr, Option.map_some', Option.some.injEq] at h
                    rw [← h]
                    exact (IsBytes_cons _ _).2 ⟨by omega, (IsBytes_cons _ _).2 ⟨by omega,
                      (IsBytes_cons _ _).2 ⟨by omega, ih rest t hl hr⟩⟩⟩

theorem IsBytes_decodeMessage (c : Str) (r : Reader) (d : Str) (hr : IsBytes r.data)
    (h : decodeMessage c r = some d) : IsBytes d := by
  unfold decodeMessage at h
  split at h
  · simp at h
  · split at h
    · exact IsBytes_decodeQuanta _ _ d (le_refl _) h
    · split at h
      · exact IsBytes_qpDecode _ d hr h
      · simp only [Option.some.injEq] at h
        rw [← h]
        exact hr

theorem IsBytes_newPart (mr : MultipartReader) (lf : Bool) (lines : List Str)
    (hl : ∀ l ∈ lines, IsBytes l) :
    IsBytes (newPart mr lf lines).2.input ∧
      ∀ p, (newPart mr lf lines).1 = NextResult.part p → IsBytes p.r.data := by
  have hrest : IsBytes (Join (readMIMEHeader lines).2) :=
    IsBytes_Join _ (fun l h => hl l (readMIMEHeader_rest lines l h))
  unfold newPart
  rcases hh : readMIMEHeader lines with ⟨res, rest⟩
  rw [hh] at hrest
  simp only at hrest
  cases res with
  | malformed => exact ⟨hrest, fun p hp => by simp at hp⟩
  | eof => exact ⟨hrest, fun p hp => by simp at hp⟩
  | ok h =>
    simp only
    have hbody : IsBytes (if HasPrefix (Join rest) (lit "--" ++ mr.boundary) = true ∧
          matchAfterPrefix ((Join rest).drop (lit "--" ++ mr.boundary).length) = true then
          (([] : Str), Join rest, true)
        else scanBody (MultipartReader.nl lf ++ (lit "--" ++ mr.boundary)) (Join rest) 0).1 ∧
        IsBytes (if HasPrefix (Join rest) (lit "--" ++ mr.boundary) = true ∧
          matchAfterPrefix ((Join rest).drop (lit "--" ++ mr.boundary).length) = true then
          (([] : Str), Join rest, true)
        else scanBody (MultipartReader.nl lf ++ (lit "--" ++ mr.boundary)) (Join rest) 0).2.1 := by
      split
      · exact ⟨fun b hb => absurd hb (List.not_mem_nil b), hrest⟩
      · exact ⟨IsBytes_of_subset _ _ hrest (scanBody_subset _ _ 0).1,
          IsBytes_of_subset _ _ hrest (scanBody_subset _ _ 0).2⟩
    split
    · split
      · rename_i d hd
        refine ⟨hbody.2, fun p hp => ?_⟩
        simp only [NextResult.part.injEq] at hp
        rw [← hp]
        exact IsBytes_qpDecode _ d hbody.1 hd
      · refine ⟨hbody.2, fun p hp => ?_⟩
        simp only [NextResult.part.injEq] at hp
        rw [← hp]
        exact fun b hb => absurd hb (List.not_mem_nil b)
    · refine ⟨hbody.2, fun p hp => ?_⟩
      simp only [NextResult.part.injEq] at hp
      rw [← hp]
      exact hbody.1

theorem IsBytes_nextPartLines (lines : List Str) :
    ∀ (mr : MultipartReader) (expect : Bool), (∀ l ∈ lines, IsBytes l) →
      IsBytes (nextPartLines mr lines expect).2.input ∧
        ∀ p, (nextPartLines mr lines expect).1 = NextResult.part p → IsBytes p.r.data := by
  induction lines with
  | nil =>
    intro mr expect _
    exact ⟨by simp [nextPartLines]; decide, fun p hp => by simp [nextPartLines] at hp⟩
  | cons l ls ih =>
    intro mr expect hl
    have hls : ∀ x ∈ ls, IsBytes x := fun x hx => hl x (by simp [hx])
    have hj : IsBytes (Join ls) := IsBytes_Join ls hls
    rw [nextPartLines]
    split
    · split
      · exact ⟨hj, fun p hp => by simp at hp⟩
      · exact ⟨hj, fun p hp => by simp at hp⟩
    · split
      · exact IsBytes_newPart mr _ ls hls
      · split
        · exact ⟨hj, fun p hp => by simp at hp⟩
        · split
          · exact ⟨hj, fun p hp => by simp at hp⟩
          · split
            · exact ih mr false hls
            · split
              · exact ih mr true hls
              · exact ⟨hj, fun p hp => by simp at hp⟩

theorem IsBytes_NextPart (mr : MultipartReader) (h : IsBytes mr.input) :
    IsBytes mr.NextPart.2.input ∧ ∀ p, mr.NextPart.1 = NextResult.part p → IsBytes p.r.data := by
  unfold MultipartReader.NextPart
  split
  · exact ⟨h, fun p hp => by simp at hp⟩
  · exact IsBytes_nextPartLines _ mr false (IsBytes_rawLines _ h)

theorem IsBytes_partsBefore (n : Nat) : ∀ (mr : MultipartReader) (ps : List Part),
    IsBytes mr.input → partsBefore n mr = some ps → ∀ p ∈ ps, IsBytes p.r.data := by
  induction n with
  | zero => intro mr ps _ h; simp [partsBefore] at h
  | succ n ih =>
    intro mr ps hin h
    have hstep := IsBytes_NextPart mr hin
    unfold partsBefore at h
    rcases hnp : mr.NextPart with ⟨res, mr1⟩
    rw [hnp] at hstep h
    cases res with
    | eof =>
      simp only [Option.some.injEq] at h
      rw [← h]
      intro p hp
      exact absurd hp (List.not_mem_nil p)
    | err => exact ih mr1 ps hstep.1 h
    | part q =>
      simp only at h
      cases hrec : partsBefore n mr1 with
      | none => simp [hrec] at h
      | some t =>
        simp only [hrec, Option.map_some', Option.some.injEq] at h
        rw [← h]
        intro p hp
        rcases List.mem_cons.mp hp with e | e
        · rw [e]; exact hstep.2 q rfl
        · exact ih mr1 t hstep.1 hrec p e

theorem IsBytes_partContent (T : CaseTables) (fuel : Nat) (msg : Str) (h : MIMEHeader)
    (body boundary : Str) (ps : List Part) (hmsg : IsBytes msg)
    (hread : ReadMessage (withNewline msg) = some (h, body))
    (hparts : partsBefore fuel (MultipartReader.NewReader body boundary) = some ps) :
    ∀ p ∈ ps, ∀ d, partContent T p = some d → IsBytes d := by
  intro p hp d hd
  have hbody : IsBytes body :=
    IsBytes_ReadMessage _ h body (IsBytes_withNewline msg hmsg) hread
  have hdata := IsBytes_partsBefore fuel (MultipartReader.NewReader body boundary) ps hbody hparts p hp
  exact IsBytes_decodeMessage _ _ d hdata hd

/-! ### Attachments -/

theorem Base_ne_nil (f : Str) : Base f ≠ [] := by
  unfold Base
  split
  · decide
  · simp only []
    split
    · decide
    · assumption

theorem FileName_eq (T : CaseTables) (p : Part) :
    p.FileName T
      = if dispositionFilename T p = [] then [] else Base (dispositionFilename T p) := by
  unfold Part.FileName dispositionFilename
  cases ParseMediaType T (p.Header.Get (lit "Content-Disposition")) with
  | none => simp
  | some d =>
    cases hm : mapGet d.2 (lit "filename") with
    | none => simp [hm]
    | some f => simp [hm]

theorem attachmentFilename_eq (T : CaseTables) (p : Part) :
    attachmentFilename T p
      = if dispositionFilename T p ≠ [] then Base (dispositionFilename T p)
        else contentTypeName T p := by
  unfold attachmentFilename contentTypeName
  rw [FileName_eq]
  by_cases hd : dispositionFilename T p = []
  · simp only [hd, if_true, ne_eq, not_true_eq_false, if_false]
    cases ParseMediaType T (p.Header.Get (lit "Content-Type")) with
    | none => rfl
    | some ct =>
      cases hm : mapGet ct.2 (lit "name") with
      | none => simp [hm]
      | some n =>
        by_cases hn : n = []
        · simp [hm, hn]
        · simp [hm, hn]
  · simp [hd, Base_ne_nil]

/-- C4, as stated, fails: for `filename="dir/file.txt"` the entry is named `file.txt`,
not by the parameter as written, `dir/file.txt`. -/
theorem attachment_filename_drops_directory :
    (parseSubjectBodyAndAttachments asciiCase 2 pathFilenameMessage).map
        (fun r => r.map (fun m => m.attachments.map (fun a => a.Filename)))
      = some (Except.ok [lit "file.txt"]) ∧
    (partsOf 2 pathFilenameMessage (lit "BOUNDARY")).map (dispositionFilename asciiCase)
      = [lit "dir/file.txt"] := by
  set_option maxRecDepth 100000 in decide

/-- C4, amended. For a multipart message whose framing parses and whose part sequence
`ps` ends with `io.EOF`, decoding succeeds and the attachment list corresponds, in part
order and one to one, to the parts whose Content-Disposition begins with `attachment`,
that have a file name and a non-empty decoded content. An entry's `Filename` is the
base name (last path element) of the disposition's `filename` parameter, or the `name`
parameter of the Content-Type when that is empty; its `Content` is the base64 text of
the content decoded by the part's transfer encoding, and decodes back to it. -/
theorem attachments_match_kept_parts (T : CaseTables) (fuel : Nat) (msg : Str) (h : MIMEHeader)
    (body boundary : Str) (ps : List Part)
    (hmsg : IsBytes msg)
    (hread : ReadMessage (withNewline msg) = some (h, body))
    (hmp : multipartBoundary T h = some boundary)
    (hparts : partsBefore fuel (MultipartReader.NewReader body boundary) = some ps) :
    ∃ r, parseSubjectBodyAndAttachments T fuel msg = some (Except.ok r) ∧
      List.Forall₂
        (fun a p =>
          a.Filename = (if dispositionFilename T p ≠ [] then Base (dispositionFilename T p)
                        else contentTypeName T p) ∧
          ∃ d, partContent T p = some d ∧ DecodeString a.Content = some d)
        r.attachments
        (ps.filter (fun p => isAttachmentPart p && (attachmentFilename T p != []) &&
          (match partContent T p with
           | some d => d != []
           | none => false))) := by
  refine ⟨_, parse_multipart T fuel msg h body boundary ps hread hmp hparts, ?_⟩
  simp only [foldl_processPart_attachments, List.nil_append]
  rw [List.forall₂_map_left_iff]
  have hk : (fun p => isAttachmentPart p && (attachmentFilename T p != []) &&
      (match partContent T p with
       | some d => d != []
       | none => false)) = keptAttachment T := by
    funext p; rfl
  rw [hk, List.forall₂_same]
  intro p hp
  have hkept : keptAttachment T p = true := (List.mem_filter.mp hp).2
  have hmem : p ∈ ps := (List.mem_filter.mp hp).1
  refine ⟨attachmentFilename_eq T p, ?_⟩
  unfold keptAttachment at hkept
  cases hc : partContent T p with
  | none => simp [hc] at hkept
  | some d =>
    have hb : IsBytes d :=
      IsBytes_partContent T fuel msg h body boundary ps hmsg hread hparts p hmem d hc
    refine ⟨d, rfl, ?_⟩
    show DecodeString (EncodeToString d) = some d
    unfold DecodeString
    rw [stripNewlines_EncodeToString d hb, decodeQuanta_EncodeToString d hb]

/-- C4, amended, at the message of the repository's test: one attachment `file.txt`
whose content decodes to `file content`. -/
theorem attachments_match_kept_parts_witness :
    ∃ r, parseSubjectBodyAndAttachments asciiCase 3 mixedMessage = some (Except.ok r) ∧
      r.attachments.map (fun a => (a.Filename, DecodeString a.Content))
        = [(lit "file.txt", some (lit "file content"))] := by
  obtain ⟨r, hr, _⟩ := attachments_match_kept_parts asciiCase 3 mixedMessage
    (framing mixedMessage).1 (framing mixedMessage).2 (lit "BOUNDARY")
    (partsOf 3 mixedMessage (lit "BOUNDARY"))
    (by set_option maxRecDepth 100000 in decide)
    (by set_option maxRecDepth 100000 in decide)
    (by set_option maxRecDepth 100000 in decide)
    (by set_option maxRecDepth 100000 in decide)
  refine ⟨r, hr, ?_⟩
  have hv : parseSubjectBodyAndAttachments asciiCase 3 mixedMessage
      = some (Except.ok ⟨lit "Multipart", lit "This is the body.", false,
          [⟨lit "file.txt", lit "text/plain; name=\"file.txt\"", lit "ZmlsZSBjb250ZW50"⟩]⟩) := by
    set_option maxRecDepth 100000 in decide
  rw [hv] at hr
  cases hr
  decide


/-! ### Transfer encodings other than base64 and quoted-printable -/

/-- C12: for every encoding name other than exactly `base64` and `quoted-printable`,
`decodeMessage` on a reader over the bytes `C` returns exactly `C` without an error. -/
theorem decodeMessage_other_encoding_passes_through (c C : Str)
    (h1 : c ≠ lit "base64") (h2 : c ≠ lit "quoted-printable") :
    decodeMessage c (NewReader C) = some C := by
  simp [decodeMessage, NewReader, h1, h2]

/-- C12 at the repository's test (`decodeMessage("", "plain text")`) and at the names
`7bit`, `8bit`, `binary`, `BASE64` and an unknown one. -/
theorem decodeMessage_other_encoding_passes_through_witness :
    decodeMessage (lit "") (NewReader (lit "plain text")) = some (lit "plain text") ∧
    decodeMessage (lit "7bit") (NewReader (lit "aGk=")) = some (lit "aGk=") ∧
    decodeMessage (lit "8bit") (NewReader [255, 0, 61]) = some [255, 0, 61] ∧
    decodeMessage (lit "binary") (NewReader (lit "=20")) = some (lit "=20") ∧
    decodeMessage (lit "BASE64") (NewReader (lit "aGk=")) = some (lit "aGk=") ∧
    decodeMessage (lit "x-unknown") (NewReader (lit "a=\r\nb")) = some (lit "a=\r\nb") :=
  ⟨decodeMessage_other_encoding_passes_through (lit "") (lit "plain text")
      (by decide) (by decide),
    decodeMessage_other_encoding_passes_through (lit "7bit") (lit "aGk=")
      (by decide) (by decide),
    decodeMessage_other_encoding_passes_through (lit "8bit") [255, 0, 61]
      (by decide) (by decide),
    decodeMessage_other_encoding_passes_through (lit "binary") (lit "=20")
      (by decide) (by decide),
    decodeMessage_other_encoding_passes_through (lit "BASE64") (lit "aGk=")
      (by decide) (by decide),
    decodeMessage_other_encoding_passes_through (lit "x-unknown") (lit "a=\r\nb")
      (by decide) (by decide)⟩

/-! ### Address extraction -/

theorem Index_byte (c : Nat) (k rest : Str) (h : c ∉ k) :
    Index (k ++ c :: rest) [c] = k.length := by
  induction k with
  | nil => simp [Index, HasPrefix]
  | cons a t ih =>
    have ha : a ≠ c := fun e => h (by simp [e])
    have ht : c ∉ t := fun m => h (by simp [m])
    have ih1 := ih ht
    rw [List.cons_append, Index]
    simp only [HasPrefix, beq_iff_eq, ha, Bool.false_and, Bool.false_eq_true, if_false, ih1]
    have : ¬ ((t.length : Int) < 0) := by omega
    simp [this, ha]

theorem Index_byte_absent (c : Nat) (s : Str) (h : c ∉ s) : Index s [c] = -1 := by
  induction s with
  | nil => simp [Index]
  | cons a t ih =>
    have ha : a ≠ c := fun e => h (by simp [e])
    have ht : c ∉ t := fun m => h (by simp [m])
    rw [Index]
    simp [HasPrefix, ha, ih ht]

theorem lit_lt : lit "<" = [60] := by decide

theorem lit_gt : lit ">" = [62] := by decide

theorem lit_colon : lit ":" = [58] := by decide

/-- C14: on a line without angle brackets that has a colon, `extractAddress` returns the
text after the first colon with leading and trailing white space removed; later colons
stay in the result. -/
theorem extractAddress_colon_fallback (line : Str) (hb : 60 ∉ line ∧ 62 ∉ line)
    (hcolon : 58 ∈ line) :
    ∃ pre post, line = pre ++ 58 :: post ∧ 58 ∉ pre ∧ extractAddress line = TrimSpace post := by
  obtain ⟨pre, post, hline, hpre⟩ := List.eq_append_cons_of_mem hcolon
  refine ⟨pre, post, hline, hpre, ?_⟩
  unfold extractAddress
  rw [lit_lt, lit_gt, lit_colon, Index_byte_absent 60 line hb.1, hline, Cut_colon pre post hpre]
  simp

/-- C14 at `MAIL FROM:a@b.com`, at `MAIL FROM:  a@b.com ` and at a line with a second
colon. -/
theorem extractAddress_colon_fallback_witness :
    extractAddress (lit "MAIL FROM:a@b.com") = lit "a@b.com" ∧
    extractAddress (lit "MAIL FROM:  a@b.com ") = lit "a@b.com" ∧
    extractAddress (lit "RCPT TO: a:b ") = lit "a:b" ∧
    ∃ pre post, lit "MAIL FROM:  a@b.com " = pre ++ 58 :: post ∧ 58 ∉ pre ∧
      extractAddress (lit "MAIL FROM:  a@b.com ") = TrimSpace post :=
  ⟨by decide, by decide, by decide,
    extractAddress_colon_fallback (lit "MAIL FROM:  a@b.com ") (by decide) (by decide)⟩

/-- C13 as stated fails: in `MAIL > FROM:<a@b.com>` a `>` stands before the first `<`;
`strings.Index(line, ">")` finds that one, the test `end > start` fails and the colon
fallback returns `<a@b.com>`, brackets included. -/
theorem extractAddress_gt_before_lt :
    extractAddress (lit "MAIL > FROM:<a@b.com>") = lit "<a@b.com>" ∧
    extractAddress (lit "MAIL > FROM:<a@b.com>") ≠ lit "a@b.com" := by
  decide

/-- C13, amended: on a line that has a `<` and whose first `>` stands after the first
`<`, `extractAddress` returns the text strictly between the first `<` and that `>`. -/
theorem extractAddress_between_brackets (pre mid post : Str) (h1 : 60 ∉ pre) (h2 : 62 ∉ pre)
    (h3 : 62 ∉ mid) : extractAddress (pre ++ 60 :: (mid ++ 62 :: post)) = mid := by
  have e : pre ++ 60 :: (mid ++ 62 :: post) = (pre ++ 60 :: mid) ++ 62 :: post := by simp
  have e2 : pre ++ 60 :: mid = (pre ++ [60]) ++ mid := by simp
  have hs : Index (pre ++ 60 :: (mid ++ 62 :: post)) [60] = (pre.length : Nat) :=
    Index_byte 60 pre _ h1
  have he : Index (pre ++ 60 :: (mid ++ 62 :: post)) [62] = ((pre ++ 60 :: mid).length : Nat) := by
    rw [e]
    exact Index_byte 62 (pre ++ 60 :: mid) post (by simp [h2, h3])
  unfold extractAddress
  rw [lit_lt, lit_gt, hs, he]
  have c1 : ((pre.length : Nat) : Int) ≠ -1 := by omega
  have c2 : (((pre ++ 60 :: mid).length : Nat) : Int) ≠ -1 := by omega
  have c3 : (((pre ++ 60 :: mid).length : Nat) : Int) > ((pre.length : Nat) : Int) := by
    simp only [List.length_append, List.length_cons]; omega
  rw [if_pos ⟨c1, c2, c3⟩, Int.toNat_ofNat, Int.toNat_ofNat]
  unfold slice
  rw [e, List.take_left' rfl, e2, List.drop_left' (by simp)]

/-- C13, amended, at `MAIL FROM:<a@b.com>`, at an empty address and at a line with a
second pair of brackets. -/
theorem extractAddress_between_brackets_witness :
    extractAddress (lit "MAIL FROM:<a@b.com>") = lit "a@b.com" ∧
    extractAddress (lit "MAIL FROM:<>") = [] ∧
    extractAddress (lit "RCPT TO:<a<b> <c>") = lit "a<b" :=
  ⟨extractAddress_between_brackets (lit "MAIL FROM:") (lit "a@b.com") [] (by decide) (by decide)
      (by decide),
    extractAddress_between_brackets (lit "MAIL FROM:") [] [] (by decide) (by decide) (by decide),
    extractAddress_between_brackets (lit "RCPT TO:") (lit "a<b") (lit " <c>") (by decide)
      (by decide) (by decide)⟩


/-! ### The end of the DATA phase -/

/-- C16 fails at a line that holds a `.` and white space: the test is
`strings.TrimSpace(dataLine) == "."`, so collection ends at the line ` .` (and at `.`
followed by a tab); the lines `b` and `.` after it are left unread as commands. A line
`..` does not end it. -/
theorem data_ends_at_padded_dot :
    readDataLines (lit "a\r\n .\r\nb\r\n.\r\n") [] [] = ([lit "a\r\n"], true, lit "b\r\n.\r\n") ∧
    readDataLines (lit "a\r\n.\t\r\nb\r\n.\r\n") [] [] = ([lit "a\r\n"], true, lit "b\r\n.\r\n") ∧
    readDataLines (lit "a\r\n..\r\nb\r\n.\r\n") [] []
      = ([lit "a\r\n", lit "..\r\n", lit "b\r\n"], true, []) := by
  decide

/-! ### A part loop that does not end -/

theorem partsBefore_stuck (mr : MultipartReader) (h : mr.NextPart = (NextResult.err, mr)) :
    ∀ fuel, partsBefore fuel mr = none := by
  intro fuel
  induction fuel with
  | zero => rfl
  | succ n ih =>
    unfold partsBefore
    rw [h]
    exact ih

theorem partsBefore_none_of_step (mr : MultipartReader) (h1 : mr.NextPart.1 ≠ NextResult.eof)
    (h2 : ∀ fuel, partsBefore fuel mr.NextPart.2 = none) : ∀ fuel, partsBefore fuel mr = none := by
  intro fuel
  cases fuel with
  | zero => rfl
  | succ n =>
    unfold partsBefore
    rcases h : mr.NextPart with ⟨res, mr1⟩
    rw [h] at h1 h2
    cases res with
    | eof => exact absurd rfl h1
    | err => exact h2 n
    | part p => simp [h2 n]

theorem parse_none_of_parts (T : CaseTables) (msg : Str) (h : MIMEHeader) (body boundary : Str)
    (hread : ReadMessage (withNewline msg) = some (h, body))
    (hmp : multipartBoundary T h = some boundary)
    (hparts : ∀ fuel, partsBefore fuel (MultipartReader.NewReader body boundary) = none) :
    ∀ fuel, parseSubjectBodyAndAttachments T fuel msg = none := by
  intro fuel
  unfold parseSubjectBodyAndAttachments
  simp only [hread, hmp, partLoop_eq_foldl, hparts, Option.map_none']

/-- C17 fails: each of these messages has top-level headers that parse and the media
type `multipart/mixed`, and on each the part loop never ends, whatever number of passes
it is given. Without a boundary parameter, or with an empty one, `NextPart` reports
`boundary is empty` at every call; without a closing boundary line, the call after the
last part reports a wrapped `io.EOF`, which is not `io.EOF`, at every call. The loop
meets each of these errors with `continue`. -/
theorem part_loop_never_ends :
    (multipartBoundary asciiCase (framing noBoundaryMessage).1 = some [] ∧
      ∀ fuel, parseSubjectBodyAndAttachments asciiCase fuel noBoundaryMessage = none) ∧
    (multipartBoundary asciiCase (framing emptyBoundaryMessage).1 = some [] ∧
      ∀ fuel, parseSubjectBodyAndAttachments asciiCase fuel emptyBoundaryMessage = none) ∧
    (multipartBoundary asciiCase (framing unclosedMessage).1 = some (lit "x") ∧
      ∀ fuel, parseSubjectBodyAndAttachments asciiCase fuel unclosedMessage = none) := by
  refine ⟨⟨by decide, ?_⟩, ⟨by decide, ?_⟩, ⟨by decide, ?_⟩⟩
  · exact parse_none_of_parts asciiCase noBoundaryMessage (framing noBoundaryMessage).1
      (framing noBoundaryMessage).2 [] (by decide) (by decide)
      (partsBefore_stuck _ (by decide))
  · exact parse_none_of_parts asciiCase emptyBoundaryMessage (framing emptyBoundaryMessage).1
      (framing emptyBoundaryMessage).2 [] (by decide) (by decide)
      (partsBefore_stuck _ (by decide))
  · exact parse_none_of_parts asciiCase unclosedMessage (framing unclosedMessage).1
      (framing unclosedMessage).2 (lit "x") (by decide) (by decide)
      (partsBefore_none_of_step _ (by decide) (partsBefore_stuck _ (by decide)))


/-! ### Credentials on the wire -/

theorem encChar_printable : ∀ i, i < 64 → 32 < encChar i ∧ encChar i < 128 := by decide

theorem EncodeToString_printable (C : Str) (h : IsBytes C) :
    ∀ b ∈ EncodeToString C, 32 < b ∧ b < 128 := by
  induction C using EncodeToString.induct with
  | case1 a b c rest ih =>
    have ha : a < 256 := h a (by simp)
    have hb : b < 256 := h b (by simp)
    have hc : c < 256 := h c (by simp)
    have ih1 := ih (fun x hx => h x (by simp [hx]))
    have h1 := encChar_printable (a / 4) (by omega)
    have h2 := encChar_printable (a % 4 * 16 + b / 16) (by omega)
    have h3 := encChar_printable (b % 16 * 4 + c / 64) (by omega)
    have h4 := encChar_printable (c % 64) (by omega)
    intro x hx
    simp only [EncodeToString, List.mem_cons] at hx
    rcases hx with e | e | e | e | e
    · rw [e]; exact h1
    · rw [e]; exact h2
    · rw [e]; exact h3
    · rw [e]; exact h4
    · exact ih1 x e
  | case2 a b =>
    have ha : a < 256 := h a (by simp)
    have hb : b < 256 := h b (by simp)
    have h1 := encChar_printable (a / 4) (by omega)
    have h2 := encChar_printable (a % 4 * 16 + b / 16) (by omega)
    have h3 := encChar_printable (b % 16 * 4) (by omega)
    intro x hx
    simp only [EncodeToString, List.mem_cons, List.not_mem_nil, or_false] at hx
    rcases hx with e | e | e | e
    · rw [e]; exact h1
    · rw [e]; exact h2
    · rw [e]; exact h3
    · rw [e]; omega
  | case3 a =>
    have ha : a < 256 := h a (by simp)
    have h1 := encChar_printable (a / 4) (by omega)
    have h2 := encChar_printable (a % 4 * 16) (by omega)
    intro x hx
    simp only [EncodeToString, List.mem_cons, List.not_mem_nil, or_false] at hx
    rcases hx with e | e | e | e
    · rw [e]; exact h1
    · rw [e]; exact h2
    · rw [e]; omega
    · rw [e]; omega
  | case4 => intro x hx; simp [EncodeToString] at hx

theorem find_prefix_none (g : Str → Str) (rs : List Str) (z : Nat) (s : Str)
    (hz : 32 < z ∧ z < 128)
    (h : ∀ x ∈ rs, g x ≠ [] ∧ ((g x).headD 0 ≤ 32 ∨ 128 ≤ (g x).headD 0)) :
    rs.find? (fun r => HasPrefix (z :: s) (g r)) = none := by
  rw [List.find?_eq_none]
  intro x hx
  have hg := h x hx
  cases hgx : g x with
  | nil => exact absurd hgx hg.1
  | cons y t =>
    rw [hgx] at hg
    have hy : z ≠ y := by
      have := hg.2
      simp only [List.headD_cons] at this
      omega
    simp [HasPrefix, hy]

theorem spaceLen_printable (z : Nat) (s : Str) (hz : 32 < z ∧ z < 128) : spaceLen (z :: s) = 0 := by
  unfold spaceLen
  rw [find_prefix_none (fun r => r) spaceRunes z s hz (by decide)]

theorem spaceLenRev_printable (z : Nat) (s : Str) (hz : 32 < z ∧ z < 128) :
    spaceLenRev (z :: s) = 0 := by
  unfold spaceLenRev
  rw [find_prefix_none (fun r => r.reverse) spaceRunes z s hz (by decide)]

theorem spaceLenRev_lf (s : Str) : spaceLenRev (10 :: s) = 1 := by
  simp [spaceLenRev, spaceRunes, HasPrefix]

theorem spaceLenRev_cr (s : Str) : spaceLenRev (13 :: s) = 1 := by
  simp [spaceLenRev, spaceRunes, HasPrefix]

/-- A line of printable ASCII bytes followed by CR LF is trimmed to the line. -/
theorem TrimSpace_crlf (s : Str) (h : ∀ b ∈ s, 32 < b ∧ b < 128) :
    TrimSpace (s ++ [13, 10]) = s := by
  cases s with
  | nil => decide
  | cons a t =>
    have ha := h a (by simp)
    have e1 : dropSpaces spaceLen (a :: t ++ [13, 10]) 0 = a :: t ++ [13, 10] := by
      rw [List.cons_append, dropSpaces, spaceLen_printable a _ ha]
      simp
    obtain ⟨r, z, hr⟩ : ∃ r z, (a :: t).reverse = z :: r := by
      cases hrev : (a :: t).reverse with
      | nil => simp at hrev
      | cons z r => exact ⟨r, z, rfl⟩
    have hz : 32 < z ∧ z < 128 := h z (by
      have : z ∈ (a :: t).reverse := by rw [hr]; simp
      exact List.mem_reverse.mp this)
    have e2 : (a :: t ++ [13, 10]).reverse = 10 :: 13 :: z :: r := by
      rw [List.reverse_append, hr]; rfl
    unfold TrimSpace
    rw [e1, e2]
    have e3 : dropSpaces spaceLenRev (10 :: 13 :: z :: r) 0 = z :: r := by
      rw [dropSpaces, spaceLenRev_lf]
      simp only [Nat.lt_irrefl, Nat.sub_self, Nat.zero_lt_one, if_true]
      rw [dropSpaces, spaceLenRev_cr]
      simp only [Nat.lt_irrefl, Nat.sub_self, Nat.zero_lt_one, if_true]
      rw [dropSpaces, spaceLenRev_printable z r hz]
      simp
    rw [e3, ← hr, List.reverse_reverse]

theorem EncodeToString_no_lf (C : Str) (h : IsBytes C) : 10 ∉ EncodeToString C ++ [13] := by
  intro hm
  rcases List.mem_append.mp hm with m | m
  · have := EncodeToString_printable C h 10 m
    omega
  · simp at m

/-- What `decodeBase64(strings.TrimSpace(line))` recovers from a line that carries the
base64 text of `C`. -/
theorem decodeBase64_line (C : Str) (h : IsBytes C) :
    decodeBase64 (TrimSpace (EncodeToString C ++ [13, 10])) = C := by
  rw [TrimSpace_crlf _ (EncodeToString_printable C h)]
  unfold decodeBase64 DecodeString
  rw [stripNewlines_EncodeToString C h, decodeQuanta_EncodeToString C h]

/-! ### A cached token and the password -/

theorem ToUpper_auth_login (T : CaseTables) : ToUpper T (lit "AUTH LOGIN") = lit "AUTH LOGIN" := rfl

/-- C18: while the cache holds an unexpired entry for the account `u`,
`getCachedOAuth2Token(u, p)` returns the cached token for every password `p`, the same
for any two passwords, without a request to the identity provider; hence an
`AUTH LOGIN` exchange that names `u` and any non-empty password is answered with `235`
and sets `authenticated`. -/
theorem cached_token_admits_any_password (E : Env) (w : World) (u : Str) (tok : cachedToken)
    (hload : w.Load u = some tok) (hvalid : E.now w.clockReads < tok.expiresAt) :
    (∀ p1 p2 : Str,
        getCachedOAuth2Token E w u p1
          = (some tok.token, { w with clockReads := w.clockReads + 1 }) ∧
        getCachedOAuth2Token E w u p2 = getCachedOAuth2Token E w u p1 ∧
        (getCachedOAuth2Token E w u p1).2.tokenRequests = w.tokenRequests) ∧
    (∀ (fuel : Nat) (c : Conn) (p rest : Str), c.world = w → IsBytes u → IsBytes p →
        u ≠ [] → p ≠ [] →
        c.input = lit "AUTH LOGIN\r\n" ++ (EncodeToString u ++ lit "\r\n")
          ++ (EncodeToString p ++ lit "\r\n") ++ rest →
        handleCommand E fuel c
          = (Status.open,
              ⟨{ c.sess with username := u, password := p, authenticated := true }, rest,
                c.out ++ [lit "334 VXNlcm5hbWU6\r\n", lit "334 UGFzc3dvcmQ6\r\n",
                  lit "235 2.7.0 Authentication successful\r\n"],
                { w with clockReads := w.clockReads + 1 }⟩)) := by
  have hget : ∀ p : Str, getCachedOAuth2Token E w u p
      = (some tok.token, { w with clockReads := w.clockReads + 1 }) := by
    intro p
    simp [getCachedOAuth2Token, hload, hvalid]
  refine ⟨fun p1 p2 => ⟨hget p1, by rw [hget p1, hget p2], by rw [hget p1]⟩, ?_⟩
  intro fuel c p rest hw hu hp hune hpne hin
  have hin1 : c.input = lit "AUTH LOGIN\r" ++ 10 ::
      ((EncodeToString u ++ [13]) ++ 10 :: ((EncodeToString p ++ [13]) ++ 10 :: rest)) := by
    rw [hin]
    have e1 : lit "AUTH LOGIN\r\n" = lit "AUTH LOGIN\r" ++ [10] := by decide
    have e2 : lit "\r\n" = [13, 10] := by decide
    rw [e1, e2]
    simp only [List.append_assoc, List.cons_append, List.nil_append]
  have r1 := ReadString_line (lit "AUTH LOGIN\r")
    ((EncodeToString u ++ [13]) ++ 10 :: ((EncodeToString p ++ [13]) ++ 10 :: rest)) (by decide)
  have r2 := ReadString_line (EncodeToString u ++ [13])
    ((EncodeToString p ++ [13]) ++ 10 :: rest) (EncodeToString_no_lf u hu)
  have r3 := ReadString_line (EncodeToString p ++ [13]) rest (EncodeToString_no_lf p hp)
  have t1 : TrimRight (lit "AUTH LOGIN\r" ++ [10]) (lit "\r\n") = lit "AUTH LOGIN" := by decide
  have f1 : (Fields (lit "AUTH LOGIN")).length = 2 := by decide
  have du : decodeBase64 (TrimSpace (EncodeToString u ++ [13] ++ [10])) = u := by
    rw [List.append_assoc]; exact decodeBase64_line u hu
  have dp : decodeBase64 (TrimSpace (EncodeToString p ++ [13] ++ [10])) = p := by
    rw [List.append_assoc]; exact decodeBase64_line p hp
  have ne1 : lit "AUTH LOGIN" ≠ [] := by decide
  have p1 : HasPrefix (lit "AUTH LOGIN") (lit "EHLO") = false := by decide
  have p2 : HasPrefix (lit "AUTH LOGIN") (lit "HELO") = false := by decide
  have p3 : HasPrefix (lit "AUTH LOGIN") (lit "AUTH LOGIN") = true := by decide
  unfold handleCommand
  simp only [hin1, r1, t1, ToUpper_auth_login, ne1, p1, p2, p3]
  unfold authLogin
  simp only [f1, r2, r3, du, dp, hw]
  simp [Conn.write, hune, hpne, hget]

/-- C18 at a provider that refuses every password: with a token for `user` cached until
2000 s, the passwords `pass` and `wrong` give the same token at 1000 s, and the exchange
`AUTH LOGIN`, `dXNlcg==` (`user`), `d3Jvbmc=` (`wrong`) authenticates. -/
theorem cached_token_admits_any_password_witness :
    getCachedOAuth2Token rejectingEnv ⟨[(lit "user", ⟨lit "old", 2000000000000⟩)], 0, [], []⟩
        (lit "user") (lit "wrong")
      = getCachedOAuth2Token rejectingEnv ⟨[(lit "user", ⟨lit "old", 2000000000000⟩)], 0, [], []⟩
          (lit "user") (lit "pass") ∧
    handleCommand rejectingEnv 0
        ⟨Session.init, lit "AUTH LOGIN\r\ndXNlcg==\r\nd3Jvbmc=\r\nQUIT\r\n",
          [lit "220 SMTP Relay Ready\r\n"],
          ⟨[(lit "user", ⟨lit "old", 2000000000000⟩)], 0, [], []⟩⟩
      = (Status.open,
          ⟨⟨lit "user", lit "wrong", true, [], [], []⟩, lit "QUIT\r\n",
            [lit "220 SMTP Relay Ready\r\n", lit "334 VXNlcm5hbWU6\r\n",
              lit "334 UGFzc3dvcmQ6\r\n", lit "235 2.7.0 Authentication successful\r\n"],
            ⟨[(lit "user", ⟨lit "old", 2000000000000⟩)], 1, [], []⟩⟩) :=
  ⟨((cached_token_admits_any_password rejectingEnv
        ⟨[(lit "user", ⟨lit "old", 2000000000000⟩)], 0, [], []⟩ (lit "user")
        ⟨lit "old", 2000000000000⟩ (by decide) (by decide)).1 (lit "pass") (lit "wrong")).2.1,
    (cached_token_admits_any_password rejectingEnv
        ⟨[(lit "user", ⟨lit "old", 2000000000000⟩)], 0, [], []⟩ (lit "user")
        ⟨lit "old", 2000000000000⟩ (by decide) (by decide)).2 0
      ⟨Session.init, lit "AUTH LOGIN\r\ndXNlcg==\r\nd3Jvbmc=\r\nQUIT\r\n",
        [lit "220 SMTP Relay Ready\r\n"],
        ⟨[(lit "user", ⟨lit "old", 2000000000000⟩)], 0, [], []⟩⟩
      (lit "wrong") (lit "QUIT\r\n") rfl (by decide) (by decide) (by decide) (by decide)
      (by decide)⟩


/-! ### The session variables across commands -/

theorem HasPrefix_other_head (s p q : Str) (a b : Nat) (hab : a ≠ b)
    (h : HasPrefix s (a :: p) = true) : HasPrefix s (b :: q) = false := by
  cases s with
  | nil => rfl
  | cons c t =>
    simp only [HasPrefix, Bool.and_eq_true, beq_iff_eq] at h
    simp [HasPrefix, h.1, hab]

theorem ToUpper_nil (T : CaseTables) : ToUpper T [] = [] := rfl

theorem authLogin_authenticated (E : Env) (c : Conn) (line rest : Str)
    (h : c.sess.authenticated = true) : (authLogin E c line rest).2.sess.authenticated = true := by
  unfold authLogin
  simp only
  repeat' split
  all_goals first
    | exact h
    | rfl

theorem dataCommand_authenticated (E : Env) (fuel : Nat) (c : Conn) (rest : Str)
    (h : c.sess.authenticated = true) :
    (dataCommand E fuel c rest).2.sess.authenticated = true := by
  unfold dataCommand
  simp only
  repeat' split
  all_goals exact h

theorem handleCommand_authenticated (E : Env) (fuel : Nat) (c : Conn)
    (h : c.sess.authenticated = true) :
    (handleCommand E fuel c).2.sess.authenticated = true := by
  unfold handleCommand
  simp only
  split
  · exact h
  split
  · exact h
  split
  · exact h
  split
  · exact authLogin_authenticated E _ _ _ h
  split
  · exact h
  split
  · exact h
  split
  · exact h
  split
  · exact dataCommand_authenticated E fuel _ _ h
  split
  · exact h
  · exact h

theorem serve_authenticated (E : Env) (fuel : Nat) (n : Nat) : ∀ c : Conn,
    c.sess.authenticated = true → (serve E fuel n c).2.sess.authenticated = true := by
  induction n with
  | zero => intro c h; exact h
  | succ k ih =>
    intro c h
    have h1 := handleCommand_authenticated E fuel c h
    unfold serve
    rcases hc : handleCommand E fuel c with ⟨st, c1⟩
    rw [hc] at h1
    cases st with
    | «open» => exact ih c1 h1
    | closed => exact h1
    | hung => exact h1

theorem dataCommand_open (E : Env) (fuel : Nat) (c c' : Conn) (rest : Str)
    (h : dataCommand E fuel c rest = (Status.open, c')) :
    c'.sess = { c.sess with mailFrom := [], rcptTo := [], dataLines := [] } := by
  unfold dataCommand at h
  simp only at h
  split at h
  · simp at h
  · split at h
    · simp at h
    · simp at h
    · split at h
      · simp at h
      · split at h
        · simp at h
        · simp only [Prod.mk.injEq, true_and] at h
          rw [← h]
          rfl

/-- C15: in an authenticated session, a pass of the command loop that handles `DATA`
and leaves the connection open ends with `mailFrom`, `rcptTo` and `dataLines` empty and
with `username`, `password` and `authenticated` as they were; and `authenticated`, once
true, is true after every further pass of the loop, however the passes end. -/
theorem session_invariant (E : Env) (fuel : Nat) (c : Conn)
    (hauth : c.sess.authenticated = true) :
    (∀ c' : Conn,
        HasPrefix (ToUpper E.T (TrimRight (ReadString c.input).1 (lit "\r\n"))) (lit "DATA")
          = true →
        handleCommand E fuel c = (Status.open, c') →
        c'.sess = { c.sess with mailFrom := [], rcptTo := [], dataLines := [] }) ∧
    (∀ n, (serve E fuel n c).2.sess.authenticated = true) := by
  refine ⟨?_, fun n => serve_authenticated E fuel n c hauth⟩
  intro c' hp hrun
  have eD : lit "DATA" = 68 :: [65, 84, 65] := by decide
  have h1 : HasPrefix (ToUpper E.T (TrimRight (ReadString c.input).1 (lit "\r\n"))) (lit "EHLO")
      = false :=
    HasPrefix_other_head _ [65, 84, 65] (lit "HLO") 68 69 (by decide) (eD ▸ hp)
  have h2 : HasPrefix (ToUpper E.T (TrimRight (ReadString c.input).1 (lit "\r\n"))) (lit "HELO")
      = false :=
    HasPrefix_other_head _ [65, 84, 65] (lit "ELO") 68 72 (by decide) (eD ▸ hp)
  have h3 : HasPrefix (ToUpper E.T (TrimRight (ReadString c.input).1 (lit "\r\n")))
      (lit "AUTH LOGIN") = false :=
    HasPrefix_other_head _ [65, 84, 65] (lit "UTH LOGIN") 68 65 (by decide) (eD ▸ hp)
  have h4 : HasPrefix (ToUpper E.T (TrimRight (ReadString c.input).1 (lit "\r\n")))
      (lit "MAIL FROM:") = false :=
    HasPrefix_other_head _ [65, 84, 65] (lit "AIL FROM:") 68 77 (by decide) (eD ▸ hp)
  have h5 : HasPrefix (ToUpper E.T (TrimRight (ReadString c.input).1 (lit "\r\n")))
      (lit "RCPT TO:") = false :=
    HasPrefix_other_head _ [65, 84, 65] (lit "CPT TO:") 68 82 (by decide) (eD ▸ hp)
  unfold handleCommand at hrun
  simp only [h1, h2, h3, h4, h5, hp, hauth, Bool.or_self, Bool.false_eq_true, if_false,
    Bool.not_true, if_true] at hrun
  split at hrun
  · simp at hrun
  · split at hrun
    · next hl =>
      rw [hl, ToUpper_nil] at hp
      exact absurd hp (by decide)
    · exact dataCommand_open E fuel _ c' _ hrun

/-- C15 at a session of `user` with an envelope: `DATA`, a message and the closing `.`
are sent, the provider issues a token and the submission succeeds. -/
theorem session_invariant_witness :
    handleCommand (issuingEnv 3600) 0
        ⟨⟨lit "user", lit "pass", true, lit "a@b.com", [lit "c@d.com"], []⟩,
          lit "DATA\r\nSubject: Hi\r\n\r\nhello\r\n.\r\nQUIT\r\n", [], emptyWorld⟩
      = (Status.open,
          ⟨⟨lit "user", lit "pass", true, [], [], []⟩, lit "QUIT\r\n",
            [lit "354 End data with <CR><LF>.<CR><LF>\r\n", lit "250 2.0.0 Ok: queued as graphapi\r\n"],
            ⟨[(lit "user", ⟨lit "tok", 4540000000000⟩)], 1, [(lit "user", lit "pass")],
              [⟨lit "tok", lit "user", lit "a@b.com", [lit "c@d.com"], lit "Hi", lit "html",
                lit "hello\r\n", [], false⟩]⟩⟩) ∧
    (⟨lit "user", lit "pass", true, [], [], []⟩ : Session)
      = { (⟨lit "user", lit "pass", true, lit "a@b.com", [lit "c@d.com"], []⟩ : Session) with
          mailFrom := [], rcptTo := [], dataLines := [] } ∧
    ∀ n, (serve (issuingEnv 3600) 0 n
        ⟨⟨lit "user", lit "pass", true, lit "a@b.com", [lit "c@d.com"], []⟩,
          lit "DATA\r\nSubject: Hi\r\n\r\nhello\r\n.\r\nQUIT\r\n", [],
          emptyWorld⟩).2.sess.authenticated = true :=
  ⟨by set_option maxRecDepth 100000 in decide,
    ((session_invariant (issuingEnv 3600) 0
        ⟨⟨lit "user", lit "pass", true, lit "a@b.com", [lit "c@d.com"], []⟩,
          lit "DATA\r\nSubject: Hi\r\n\r\nhello\r\n.\r\nQUIT\r\n", [], emptyWorld⟩ rfl).1
      ⟨⟨lit "user", lit "pass", true, [], [], []⟩, lit "QUIT\r\n",
        [lit "354 End data with <CR><LF>.<CR><LF>\r\n", lit "250 2.0.0 Ok: queued as graphapi\r\n"],
        ⟨[(lit "user", ⟨lit "tok", 4540000000000⟩)], 1, [(lit "user", lit "pass")],
          [⟨lit "tok", lit "user", lit "a@b.com", [lit "c@d.com"], lit "Hi", lit "html",
            lit "hello\r\n", [], false⟩]⟩⟩
      (by decide) (by set_option maxRecDepth 100000 in decide)).symm,
    (session_invariant (issuingEnv 3600) 0
        ⟨⟨lit "user", lit "pass", true, lit "a@b.com", [lit "c@d.com"], []⟩,
          lit "DATA\r\nSubject: Hi\r\n\r\nhello\r\n.\r\nQUIT\r\n", [], emptyWorld⟩ rfl).2⟩


/-! ### Quoted-printable transfer decoding -/

theorem fromHex_hexDigit : ∀ i, i < 16 → fromHex (hexDigit i) = some i := by decide

theorem hexDigit_range : ∀ i, i < 16 → 48 ≤ hexDigit i ∧ hexDigit i ≤ 70 := by decide

theorem hexDigit_ne_equals : ∀ i, i < 16 → hexDigit i ≠ 61 := by decide

theorem qpLineBytes_literal (b : Nat) (rest : Str)
    (hb : (33 ≤ b ∧ b ≤ 126 ∧ b ≠ 61) ∨ b = 9 ∨ b = 32) :
    qpLineBytes (b :: rest) = (qpLineBytes rest).map (fun t => b :: t) := by
  have h61 : b ≠ 61 := by omega
  by_cases h9 : b = 9
  · subst h9
    match rest with
    | [] => simp [qpLineBytes]
    | [h1] => simp [qpLineBytes]
    | h1 :: h2 :: r => simp [qpLineBytes]
  · have hlo : ¬ (b < 32 ∨ 126 < b) := by omega
    match rest with
    | [] => simp [qpLineBytes, h61, hlo]
    | [h1] => simp [qpLineBytes, h61, hlo]
    | h1 :: h2 :: r => simp [qpLineBytes, h61, hlo]

theorem qpLineBytes_escaped (b : Nat) (rest : Str) (hb : b < 256) :
    qpLineBytes (61 :: hexDigit (b / 16) :: hexDigit (b % 16) :: rest)
      = (qpLineBytes rest).map (fun t => b :: t) := by
  have e : b / 16 * 16 + b % 16 = b := by omega
  simp [qpLineBytes, fromHex_hexDigit (b / 16) (by omega), fromHex_hexDigit (b % 16) (by omega), e]

theorem qpLineBytes_octets (os : List QPOctet) (hv : ∀ o ∈ os, o.valid = true) (tail : Str) :
    qpLineBytes (octetsText os ++ tail)
      = (qpLineBytes tail).map (fun t => octetsContent os ++ t) := by
  induction os with
  | nil => simp [octetsText, octetsContent]
  | cons o os ih =>
    have ih1 := ih (fun x hx => hv x (by simp [hx]))
    have ho := hv o (by simp)
    cases o with
    | literal b =>
      have hb : (33 ≤ b ∧ b ≤ 126 ∧ b ≠ 61) ∨ b = 9 ∨ b = 32 := by
        simpa [QPOctet.valid] using ho
      have e : octetsText (QPOctet.literal b :: os) ++ tail = b :: (octetsText os ++ tail) := by
        simp [octetsText, QPOctet.text]
      rw [e, qpLineBytes_literal b _ hb, ih1]
      cases qpLineBytes tail <;> simp [octetsContent, QPOctet.octet]
    | escaped b =>
      have hb : b < 256 := by simpa [QPOctet.valid] using ho
      have e : octetsText (QPOctet.escaped b :: os) ++ tail
          = 61 :: hexDigit (b / 16) :: hexDigit (b % 16) :: (octetsText os ++ tail) := by
        simp [octetsText, QPOctet.text]
      rw [e, qpLineBytes_escaped b _ hb, ih1]
      cases qpLineBytes tail <;> simp [octetsContent, QPOctet.octet]

theorem octetsText_no_lf (os : List QPOctet) (hv : ∀ o ∈ os, o.valid = true) :
    10 ∉ octetsText os ∧ 13 ∉ octetsText os := by
  induction os with
  | nil => simp [octetsText]
  | cons o os ih =>
    have ih1 := ih (fun x hx => hv x (by simp [hx]))
    have ho := hv o (by simp)
    have e : octetsText (o :: os) = o.text ++ octetsText os := by simp [octetsText]
    rw [e]
    cases o with
    | literal b =>
      have hb : (33 ≤ b ∧ b ≤ 126 ∧ b ≠ 61) ∨ b = 9 ∨ b = 32 := by
        simpa [QPOctet.valid] using ho
      have h10 : ¬ 10 = b := by omega
      have h13 : ¬ 13 = b := by omega
      simp [QPOctet.text, h10, h13, ih1.1, ih1.2]
    | escaped b =>
      have hb : b < 256 := by simpa [QPOctet.valid] using ho
      have r1 := hexDigit_range (b / 16) (by omega)
      have r2 := hexDigit_range (b % 16) (by omega)
      have a1 : ¬ 10 = hexDigit (b / 16) := by omega
      have a2 : ¬ 10 = hexDigit (b % 16) := by omega
      have a3 : ¬ 13 = hexDigit (b / 16) := by omega
      have a4 : ¬ 13 = hexDigit (b % 16) := by omega
      simp [QPOctet.text, a1, a2, a3, a4, ih1.1, ih1.2]

/-- The last character of a non-empty run that does not end in a literal tab or space
is a printing character other than `=`. -/
theorem octetsText_last (os : List QPOctet) (hne : os ≠ []) (hv : ∀ o ∈ os, o.valid = true)
    (hs : endsInSpace os = false) :
    ∃ s z, octetsText os = s ++ [z] ∧ z ≠ 10 ∧ z ≠ 13 ∧ z ≠ 32 ∧ z ≠ 9 ∧ z ≠ 61 := by
  rcases List.eq_nil_or_concat os with h | ⟨os1, o, h⟩
  · exact absurd h hne
  · rw [List.concat_eq_append] at h
    subst h
    have ho := hv o (by simp)
    have hs1 : o.isSpace = false := by simpa [endsInSpace] using hs
    have e : octetsText (os1 ++ [o]) = octetsText os1 ++ o.text := by simp [octetsText]
    rw [e]
    cases o with
    | literal b =>
      have hb : (33 ≤ b ∧ b ≤ 126 ∧ b ≠ 61) ∨ b = 9 ∨ b = 32 := by
        simpa [QPOctet.valid] using ho
      have hsp : ¬ (b = 9 ∨ b = 32) := by simpa [QPOctet.isSpace] using hs1
      refine ⟨octetsText os1, b, rfl, ?_, ?_, ?_, ?_, ?_⟩ <;> omega
    | escaped b =>
      have hb : b < 256 := by simpa [QPOctet.valid] using ho
      have r2 := hexDigit_range (b % 16) (by omega)
      refine ⟨octetsText os1 ++ [61, hexDigit (b / 16)], hexDigit (b % 16), ?_, ?_, ?_, ?_, ?_, ?_⟩
      · simp [QPOctet.text]
      · omega
      · omega
      · omega
      · omega
      · exact hexDigit_ne_equals (b % 16) (by omega)

theorem TrimRight_qp_last (s : Str) (z : Nat) (h1 : z ≠ 10) (h2 : z ≠ 13) (h3 : z ≠ 32)
    (h4 : z ≠ 9) : TrimRight (s ++ [z]) [10, 13, 32, 9] = s ++ [z] := by
  unfold TrimRight
  simp [List.dropWhile, h1, h2, h3, h4]

theorem TrimRight_qp_crlf (s : Str) :
    TrimRight (s ++ [13, 10]) [10, 13, 32, 9] = TrimRight s [10, 13, 32, 9] := by
  unfold TrimRight
  simp [List.dropWhile]

theorem HasSuffix_last (s : Str) (z c : Nat) : HasSuffix (s ++ [z]) [c] = (z == c) := by
  simp [HasSuffix, HasPrefix]

theorem HasSuffix_crlf (s : Str) :
    HasSuffix (s ++ [13, 10]) [10] = true ∧ HasSuffix (s ++ [13, 10]) [13, 10] = true := by
  simp [HasSuffix, HasPrefix]


theorem qpLine_hard (os : List QPOctet) (hv : ∀ o ∈ os, o.valid = true)
    (hs : endsInSpace os = false) :
    qpLine (octetsText os ++ [13, 10]) false = some (octetsContent os ++ [13, 10]) := by
  have hb : qpLineBytes (octetsText os ++ [13, 10]) = some (octetsContent os ++ [13, 10]) := by
    rw [qpLineBytes_octets os hv]
    have : qpLineBytes [13, 10] = some [13, 10] := by decide
    rw [this]
    rfl
  by_cases hne : os = []
  · subst hne
    decide
  · obtain ⟨s, z, e, z1, z2, z3, z4, z5⟩ := octetsText_last os hne hv hs
    have hz : (z == 61) = false := by simpa using z5
    unfold qpLine
    simp only [TrimRight_qp_crlf]
    rw [e] at hb ⊢
    simp only [TrimRight_qp_last s z z1 z2 z3 z4, HasSuffix_last, hz, (HasSuffix_crlf (s ++ [z])).1,
      (HasSuffix_crlf (s ++ [z])).2, Bool.false_eq_true, if_false, if_true]
    exact hb

theorem qpLine_soft (os : List QPOctet) (hv : ∀ o ∈ os, o.valid = true) :
    qpLine (octetsText os ++ [61, 13, 10]) false = some (octetsContent os) := by
  have hb : qpLineBytes (octetsText os) = some (octetsContent os) := by
    have := qpLineBytes_octets os hv []
    simpa [qpLineBytes] using this
  have e1 : octetsText os ++ [61, 13, 10] = (octetsText os ++ [61]) ++ [13, 10] := by simp
  have t1 : TrimRight (octetsText os ++ [61, 13, 10]) [10, 13, 32, 9] = octetsText os ++ [61] := by
    rw [e1, TrimRight_qp_crlf, TrimRight_qp_last _ 61 (by decide) (by decide) (by decide)
      (by decide)]
  have d1 : (octetsText os ++ [61, 13, 10]).drop (octetsText os ++ [61]).length = [13, 10] := by
    rw [e1, List.drop_left' rfl]
  unfold qpLine
  simp only [t1, d1, HasSuffix_last, List.dropLast_concat]
  simpa [HasPrefix] using hb

theorem qpLine_last (os : List QPOctet) (hv : ∀ o ∈ os, o.valid = true)
    (hs : endsInSpace os = false) :
    qpLine (octetsText os) true = some (octetsContent os) := by
  have hb : qpLineBytes (octetsText os) = some (octetsContent os) := by
    have := qpLineBytes_octets os hv []
    simpa [qpLineBytes] using this
  by_cases hne : os = []
  · subst hne
    decide
  · obtain ⟨s, z, e, z1, z2, z3, z4, z5⟩ := octetsText_last os hne hv hs
    have hz : (z == 61) = false := by simpa using z5
    have hz10 : (z == 10) = false := by simpa using z1
    unfold qpLine
    rw [e] at hb ⊢
    simp only [TrimRight_qp_last s z z1 z2 z3 z4, HasSuffix_last, hz, hz10, Bool.false_eq_true,
      if_false]
    exact hb

theorem splitLines_no_lf (s : Str) (h : 10 ∉ s) : splitLines s = ([], s) := by
  induction s with
  | nil => rfl
  | cons b t ih =>
    have hb : b ≠ 10 := fun e => h (by simp [e])
    have ht : 10 ∉ t := fun m => h (by simp [m])
    simp [splitLines, hb, ih ht]

theorem qpDecode_last (s a : Str) (h : 10 ∉ s) (ha : qpLine s true = some a) :
    qpDecode s = some a := by
  unfold qpDecode
  simp [splitLines_no_lf s h, qpLines, ha]

theorem qpDecode_line (l rest a b : Str) (h : 10 ∉ l) (ha : qpLine (l ++ [10]) false = some a)
    (hb : qpDecode rest = some b) : qpDecode (l ++ 10 :: rest) = some (a ++ b) := by
  unfold qpDecode at hb ⊢
  simp only [splitLines_line l rest h, qpLines, ha]
  cases h1 : qpLines (splitLines rest).1 with
  | none => simp [h1] at hb
  | some b1 =>
    cases h2 : qpLine (splitLines rest).2 true with
    | none => simp [h1, h2] at hb
    | some b2 =>
      simp only [h1, h2, Option.some.injEq] at hb
      simp [← hb]

theorem qpDecode_lines (last : List QPOctet) (hl : ∀ o ∈ last, o.valid = true)
    (hs : endsInSpace last = false) (ls : List QPLine) (hv : ∀ l ∈ ls, l.valid = true) :
    qpDecode (ls.flatMap QPLine.text ++ octetsText last)
      = some (ls.flatMap QPLine.content ++ octetsContent last) := by
  induction ls with
  | nil =>
    simpa using qpDecode_last _ _ (octetsText_no_lf last hl).1 (qpLine_last last hl hs)
  | cons l ls ih =>
    have ih1 := ih (fun x hx => hv x (by simp [hx]))
    have hlv := hv l (by simp)
    simp only [QPLine.valid, Bool.and_eq_true, List.all_eq_true, Bool.or_eq_true,
      Bool.not_eq_true'] at hlv
    have hov := hlv.1.1
    have hnl := octetsText_no_lf l.octets hov
    cases hsoft : l.soft with
    | true =>
      have e : (l :: ls).flatMap QPLine.text ++ octetsText last
          = (octetsText l.octets ++ [61, 13]) ++ 10 ::
              (ls.flatMap QPLine.text ++ octetsText last) := by
        simp [QPLine.text, hsoft]
      have hn : 10 ∉ octetsText l.octets ++ [61, 13] := by simp [hnl.1]
      have ha : qpLine ((octetsText l.octets ++ [61, 13]) ++ [10]) false
          = some (octetsContent l.octets) := by
        rw [List.append_assoc]
        exact qpLine_soft l.octets hov
      rw [e, qpDecode_line _ _ _ _ hn ha ih1]
      simp [QPLine.content, hsoft]
    | false =>
      have hsp : endsInSpace l.octets = false := by
        rcases hlv.1.2 with h | h
        · rw [hsoft] at h; exact absurd h (by decide)
        · exact h
      have e : (l :: ls).flatMap QPLine.text ++ octetsText last
          = (octetsText l.octets ++ [13]) ++ 10 ::
              (ls.flatMap QPLine.text ++ octetsText last) := by
        simp [QPLine.text, hsoft]
      have hn : 10 ∉ octetsText l.octets ++ [13] := by simp [hnl.1]
      have ha : qpLine ((octetsText l.octets ++ [13]) ++ [10]) false
          = some (octetsContent l.octets ++ [13, 10]) := by
        rw [List.append_assoc]
        exact qpLine_hard l.octets hov hsp
      rw [e, qpDecode_line _ _ _ _ hn ha ih1]
      simp [QPLine.content, hsoft]

/-- Every byte string has an RFC 2045 encoding: each octet escaped, on a line of its
own that ends in a soft line break. -/
theorem IsQPEncoding_exists (C : Str) (hC : IsBytes C) :
    IsQPEncoding (C.flatMap (fun b => [61, hexDigit (b / 16), hexDigit (b % 16), 61, 13, 10])) C := by
  refine ⟨⟨C.map (fun b => ⟨[QPOctet.escaped b], true⟩), []⟩, ?_, ?_, ?_⟩
  · simp only [QPEncoding.valid, Bool.and_eq_true, List.all_eq_true, List.mem_map,
      forall_exists_index, and_imp, forall_apply_eq_imp_iff₂]
    refine ⟨⟨⟨?_, by simp⟩, rfl⟩, rfl⟩
    intro b hb
    have := hC b hb
    simp [QPLine.valid, QPOctet.valid, this, octetsText, QPOctet.text]
  · simp [QPEncoding.text, QPLine.text, octetsText, QPOctet.text, List.flatMap_map]
  · induction C with
    | nil => rfl
    | cons b t ih =>
      have := ih (fun x hx => hC x (by simp [hx]))
      simp only [QPEncoding.content, List.map_cons, List.flatMap_cons] at this ⊢
      simp only [octetsContent, List.map_nil, List.append_nil] at this ⊢
      rw [this]
      simp [QPLine.content, octetsContent, QPOctet.octet]

/-- C11: `decodeMessage("quoted-printable", r)` on a reader over an RFC 2045
quoted-printable encoding `Q` of the bytes `C` returns `C` without an error: each
`=XX` is replaced by the octet it denotes, literal characters pass through, a soft line
break yields nothing and a line break yields CR LF. -/
theorem decodeMessage_quoted_printable_roundtrip (Q C : Str) (h : IsQPEncoding Q C) :
    decodeMessage (lit "quoted-printable") (NewReader Q) = some C := by
  obtain ⟨e, hv, hQ, hC⟩ := h
  simp only [QPEncoding.valid, Bool.and_eq_true, List.all_eq_true, Bool.not_eq_true'] at hv
  have hd := qpDecode_lines e.last hv.1.1.2 hv.1.2 e.lines hv.1.1.1
  have hc : lit "quoted-printable" ≠ lit "base64" := by decide
  unfold decodeMessage
  simp only [NewReader, Bool.false_eq_true, if_false, hc, if_true]
  rw [← hQ, ← hC]
  exact hd

/-- C11 at the repository's test, `hello=20world=21` for `hello world!`, and at an
encoding with a soft line break after a space and a line break after an escaped tab. -/
theorem decodeMessage_quoted_printable_roundtrip_witness :
    decodeMessage (lit "quoted-printable") (NewReader (lit "hello=20world=21"))
      = some (lit "hello world!") ∧
    decodeMessage (lit "quoted-printable") (NewReader (lit "a=3D =\r\nb =09\r\nc"))
      = some (lit "a= b \t\r\nc") :=
  ⟨decodeMessage_quoted_printable_roundtrip (lit "hello=20world=21") (lit "hello world!")
      ⟨helloEncoding, by decide, by decide, by decide⟩,
    decodeMessage_quoted_printable_roundtrip (lit "a=3D =\r\nb =09\r\nc") (lit "a= b \t\r\nc")
      ⟨linesEncoding, by decide, by decide, by decide⟩⟩

end Relay
